import Mathlib

/-!
# ccheck: the test driver, the provider registry and the symbol-count walk

A shallow embedding of `src/ccheck.c` (with the constants of `src/interface.h`).

Conventions of the embedding.

* `size_t` and `uint32_t` values are natural numbers.  The counters and odometer digits never
  wrap in the situations studied here (an odometer digit stays below its bound, a counter
  counts invocations that really happened), so increments are plain `+ 1`; the one product
  that can wrap, `n * size` in `malloc`, is reduced modulo `2 ^ 64`.
* C arrays are lists, C strings are `String`s (their bytes up to the terminating NUL), raw
  memory holding a test signature is a `List Char` in which `NUL` is the zero byte.
* Loops whose trip count is not syntactically bounded take a fuel argument and return
  `Run.outOfFuel` when it is exhausted; an array read outside its bounds, and the
  `__builtin_unreachable()` of the arity switch, give `Run.undefinedBehaviour`.
* Allocation results (`malloc`, `realloc`) are inputs of the model (`Allocations`), but for
  one: `realloc(buf, 0)` releases the block and returns `NULL`, as the GNU C library does.
  Ghost fields record the blocks released (`Provider.dataFreed`, `Loader.freedTwice`), and a
  block released twice gives `Run.undefinedBehaviour` in `main`.
* User code (test trampolines and provider functions) is a function returning
  `Except Fault _`: `Except.error f` is a non-local return to `runningTest.failTarget`
  raised by `testFailure`, the `exit` hook, the `__assert_fail` hook or the SIGSEGV handler.
-/

namespace CCheck

/-! ## Constants -/

/-- The constant `MAX_ARITY` of `interface.h`. -/
def MAX_ARITY : Nat := 8

/-- The constant `FALLBACK_VARIANT_COUNT` of `ccheck.c`. -/
def FALLBACK_VARIANT_COUNT : Nat := 50

/-- The range of `size_t` on the ELF64 targets of the program. -/
def SIZE_RANGE : Nat := 2 ^ 64

/-- The zero byte. -/
def NUL : Char := Char.ofNat 0

/-! ## `nextCombination` -/

/-- Function `nextCombination(n, ms, result)`: the loop over `i` walks the two arrays in step;
running past position `n` returns `false`; a digit whose increment reaches its bound is reset
to `0` and the carry moves on, otherwise the incremented digit is stored and `true` is
returned.  The second component is the array `result` after the call. -/
def nextCombination : Nat → List Nat → List Nat → Bool × List Nat
  | 0, _, result => (false, result)
  | n + 1, m :: ms, r :: result =>
    if r + 1 ≥ m then
      ((nextCombination n ms result).1, 0 :: (nextCombination n ms result).2)
    else
      (true, (r + 1) :: result)
  | _ + 1, _, result => (false, result)

/-- The driver pattern `do ... while(nextCombination(n, ms, cur))` with an empty body: the
vectors held by `cur` at each pass, together with the number of calls that returned `true`. -/
def visitAll : Nat → Nat → List Nat → List Nat → Option (Nat × List (List Nat))
  | 0, _, _, _ => none
  | fuel + 1, n, ms, cur =>
    match nextCombination n ms cur with
    | (true, next) =>
      match visitAll fuel n ms next with
      | some (calls, seen) => some (calls + 1, cur :: seen)
      | none => none
    | (false, _) => some (0, [cur])

/-- The vector number `k` in the order in which position 0 is the least-significant digit:
the mixed-radix digits of `k` for the bounds `ms`, position 0 first. -/
def mixedRadix : List Nat → Nat → List Nat
  | [], _ => []
  | m :: ms, k => (k % m) :: mixedRadix ms (k / m)

/-- The rank of a vector in that order: the inverse of `mixedRadix`. -/
def rank : List Nat → List Nat → Nat
  | m :: ms, x :: v => x + m * rank ms v
  | _, _ => 0

/-- All index tuples below the bounds `ms`, position 0 varying fastest. -/
def tuples : List Nat → List (List Nat)
  | [] => [[]]
  | m :: ms => (tuples ms).flatMap (fun v => (List.range m).map (fun d => d :: v))

/-! ## Data model -/

/-- Struct `Provider`: a data set.  `data` is the address of the buffer and `format` the
address of the formatting function.  Two ghost fields describe the allocation behind `data`:
`dataLen` is its length in bytes, and `dataFreed` says that the block has been released, so
that `data` dangles and there is no allocation (`dataLen` is then 0). -/
structure Provider where
  dlName : String
  name : String
  count : Nat
  data : Nat
  format : Nat
  dataLen : Nat
  dataFreed : Bool := false
  deriving DecidableEq, Repr

/-- Struct `ProviderBucket`: the data sets of one type.  The field `count` of the source is
the length of `providers`; the field `next` is the tail of the registry list. -/
structure ProviderBucket where
  type : String
  elementSize : Nat
  providers : List Provider
  deriving DecidableEq, Repr

/-- The ways in which guarded user code leaves through `longjmp(runningTest.failTarget, 1)`:
a call of `testFailure`, the `exit` hook, the `__assert_fail` hook, the SIGSEGV handler. -/
inductive Fault where
  | testFailureCall
  | exitCall
  | assertFail
  | sigsegv
  deriving DecidableEq, Repr

/-- What a worker does that is visible from outside: calls of a test trampoline (with the
argument pointers it was given) and the diagnostics it prints. -/
inductive Event where
  | call (args : List Nat)
  | failedTest (curProviders curDataIndices : List Nat)
  | noProvider (type : String)
  | missingFunction (symbol : String)
  | arityTooLarge (symbol : String)
  deriving DecidableEq, Repr

/-- The state a test worker acts on: the counters `variants`, `succeeded`, `failed` of its
`struct DL`, the thread-local flag `runningTest.jumpReady`, and the events so far. -/
structure Worker where
  variants : Nat
  succeeded : Nat
  failed : Nat
  jumpReady : Bool
  log : List Event
  deriving DecidableEq, Repr

/-- Result of running a loop of the program on the model. -/
inductive Run (α : Type) where
  | done (a : α)
  | outOfFuel
  | undefinedBehaviour
  deriving DecidableEq, Repr

/-- The state of `runningTest.jumpReady` on arrival at a `setjmp` failure branch: the SIGSEGV
handler clears the flag before it jumps, `testFailure` (also reached from the `exit` and
`__assert_fail` hooks) jumps without touching it. -/
def jumpReadyAfter (f : Fault) (jumpReady : Bool) : Bool :=
  if f = Fault.sigsegv then false else jumpReady

/-! ## The registry -/

/-- Function `findProvider`: the first bucket of the list from `providerRoot` whose type name
compares equal with `strcmp`. -/
def findProvider : List ProviderBucket → String → Option ProviderBucket
  | [], _ => none
  | pb :: next, type => if pb.type = type then some pb else findProvider next type

/-- Function `locateArg`: the address of element `dataPosition` of data set `providerIndex`;
reading `bucket->providers[providerIndex]` outside the array has no value. -/
def locateArg (bucket : ProviderBucket) (providerIndex dataPosition : Nat) : Option Nat :=
  match bucket.providers[providerIndex]? with
  | some p => some (p.data + bucket.elementSize * dataPosition)
  | none => none

/-! ## `runSingleTest` -/

/-- The first loop of `runSingleTest`: the bucket of each distinct argument type, or the
first type name for which `findProvider` returns `NULL`. -/
def locateBuckets (registry : List ProviderBucket) : List String → Except String (List ProviderBucket)
  | [] => Except.ok []
  | type :: rest =>
    match findProvider registry type with
    | none => Except.error type
    | some pb =>
      match locateBuckets registry rest with
      | Except.ok bs => Except.ok (pb :: bs)
      | Except.error t => Except.error t

/-- The read `typeBuckets[ti]->providers[curProviders[ti]]`. -/
def selectedProvider (typeBuckets : List ProviderBucket) (curProviders : List Nat) (ti : Nat) :
    Option Provider :=
  match typeBuckets[ti]?, curProviders[ti]? with
  | some pb, some cp => pb.providers[cp]?
  | _, _ => none

/-- The loop "cache counts for nextCombination()": `curDataCounts[i]` is the element count of
the data set currently selected for the type of argument `i`. -/
def cacheCounts (typeBuckets : List ProviderBucket) (curProviders : List Nat) :
    List Nat → Option (List Nat)
  | [] => some []
  | ti :: rest =>
    match selectedProvider typeBuckets curProviders ti, cacheCounts typeBuckets curProviders rest with
    | some p, some cs => some (p.count :: cs)
    | _, _ => none

/-- The macro `arg(i)` for every argument: `locateArg(typeBuckets[ti], curProviders[ti],
curDataIndices[i])` with `ti = argTypeIndices[i]`. -/
def argPointers (typeBuckets : List ProviderBucket) (curProviders : List Nat) :
    List Nat → List Nat → Option (List Nat)
  | ti :: tis, di :: dis =>
    match typeBuckets[ti]?, curProviders[ti]? with
    | some pb, some cp =>
      match locateArg pb cp di, argPointers typeBuckets curProviders tis dis with
      | some a, some as => some (a :: as)
      | _, _ => none
    | _, _ => none
  | _, _ => some []

/-- The `setjmp` failure branch of `runSingleTest`: the flag is cleared, `failed` is
incremented and the "Failed test" line is printed (with the full argument list, or the short
form when its buffer cannot be allocated); the function then returns. -/
def failureBranch (w : Worker) (curProviders curDataIndices : List Nat) : Worker :=
  { w with jumpReady := false, failed := w.failed + 1,
           log := w.log ++ [Event.failedTest curProviders curDataIndices] }

/-- The inner `do ... while(nextCombination(arity, curDataCounts, curDataIndices))` loop.
Each pass increments `variants`, arms the guard and calls the trampoline.  The Boolean of the
result is `true` when the trampoline left through `longjmp`: the failure branch has then run
and `runSingleTest` has returned. -/
def innerLoop (func : List Nat → Except Fault Unit) (arity : Nat) (argTypeIndices : List Nat)
    (typeBuckets : List ProviderBucket) (curProviders curDataCounts : List Nat) :
    Nat → Worker → List Nat → Run (Bool × Worker)
  | 0, _, _ => Run.outOfFuel
  | fuel + 1, w, curDataIndices =>
    if arity > MAX_ARITY then Run.undefinedBehaviour
    else
      match argPointers typeBuckets curProviders (argTypeIndices.take arity) curDataIndices with
      | none => Run.undefinedBehaviour
      | some args =>
        let w1 : Worker :=
          { w with variants := w.variants + 1, jumpReady := true, log := w.log ++ [Event.call args] }
        match func args with
        | Except.error f =>
          Run.done (true, failureBranch { w1 with jumpReady := jumpReadyAfter f w1.jumpReady }
            curProviders curDataIndices)
        | Except.ok _ =>
          let w2 : Worker := { w1 with jumpReady := false }
          match nextCombination arity curDataCounts curDataIndices with
          | (true, next) =>
            innerLoop func arity argTypeIndices typeBuckets curProviders curDataCounts fuel w2 next
          | (false, _) => Run.done (false, w2)

/-- The outer `do ... while(nextCombination(typeCount, bucketSizes, curProviders))` loop: the
counts are cached, `curDataIndices` is zeroed and the inner loop runs. -/
def outerLoop (func : List Nat → Except Fault Unit) (arity typeCount : Nat)
    (argTypeIndices : List Nat) (typeBuckets : List ProviderBucket) (bucketSizes : List Nat)
    (innerFuel : Nat) : Nat → Worker → List Nat → Run (Bool × Worker)
  | 0, _, _ => Run.outOfFuel
  | fuel + 1, w, curProviders =>
    match cacheCounts typeBuckets curProviders (argTypeIndices.take arity) with
    | none => Run.undefinedBehaviour
    | some curDataCounts =>
      match innerLoop func arity argTypeIndices typeBuckets curProviders curDataCounts innerFuel w
          (List.replicate arity 0) with
      | Run.done (false, w1) =>
        match nextCombination typeCount bucketSizes curProviders with
        | (true, next) =>
          outerLoop func arity typeCount argTypeIndices typeBuckets bucketSizes innerFuel fuel w1 next
        | (false, _) => Run.done (false, w1)
      | r => r

/-- Function `runSingleTest`.  `func` is the trampoline, `registry` the list from
`providerRoot`; the names used only in printed text (`testName`, `argNames`) are left out. -/
def runSingleTest (registry : List ProviderBucket) (fuel : Nat) (w : Worker)
    (func : List Nat → Except Fault Unit) (arity typeCount : Nat) (argTypes : List String)
    (argTypeIndices : List Nat) : Run Worker :=
  match locateBuckets registry (argTypes.take typeCount) with
  | Except.error type =>
    Run.done { w with failed := w.failed + 1, log := w.log ++ [Event.noProvider type] }
  | Except.ok typeBuckets =>
    match outerLoop func arity typeCount argTypeIndices typeBuckets
        (typeBuckets.map (fun pb => pb.providers.length)) fuel fuel w (List.replicate typeCount 0) with
    | Run.done (false, w1) => Run.done { w1 with succeeded := w1.succeeded + 1 }
    | Run.done (true, w1) => Run.done w1
    | Run.outOfFuel => Run.outOfFuel
    | Run.undefinedBehaviour => Run.undefinedBehaviour

/-- The element count of the data set chosen for the type with index `ti` when `chosen` gives
the data set chosen in each bucket (0 when there is none). -/
def chosenCount (typeBuckets : List ProviderBucket) (chosen : List Nat) (ti : Nat) : Nat :=
  match selectedProvider typeBuckets chosen ti with
  | some p => p.count
  | none => 0

/-- The number of invocations the claim on `variants` speaks of: the sum, over every tuple of
data sets (one per distinct argument type), of the product over the arguments of the element
count of the data set chosen for the type of that argument. -/
def expectedVariants (typeBuckets : List ProviderBucket) (argTypeIndices : List Nat) : Nat :=
  ((tuples (typeBuckets.map (fun pb => pb.providers.length))).map (fun chosen =>
    (argTypeIndices.map (chosenCount typeBuckets chosen)).prod)).sum

/-! ## `runTests` -/

/-- A symbol table entry as the harness uses it: its name in the string table and the storage
at `elfOffset + st_value`, read as a `size_t` (provider sentinels) or as raw bytes (test
signatures; memory past the end of the list reads as `NUL`). -/
structure Symbol where
  name : String
  size : Nat
  sig : List Char

/-- The lookups `dlsym(dl->handle, ...)` of one module, by the kind of object the harness casts
the result to; `none` is a `NULL` result. -/
structure Handle where
  testFunction : String → Option (List Nat → Except Fault Unit)
  typeName : String → Option String
  providerFunction : String → Option (Nat → Except Fault Nat)
  formatter : String → Option Nat

/-- The variables filled by the signature parser of `runTests`. -/
structure Signature where
  arity : Nat
  typeCount : Nat
  argTypes : List String
  argTypeIndices : List Nat
  argNames : List String
  deriving DecidableEq, Repr

/-- The C string starting at `cur`. -/
def cString (cur : List Char) : String := String.mk (cur.takeWhile (fun c => c ≠ NUL))

/-- The step `cur += strlen(cur) + 1`. -/
def skipCString (cur : List Char) : List Char := (cur.dropWhile (fun c => c ≠ NUL)).drop 1

/-- The loop of `runTests` that populates `argTypes`, `argNames` and `argTypeIndices`:
`none` is the exit through "Arity is greater than the maximum".  The loop body runs at most
`MAX_ARITY + 1` times, which is the fuel `runTests` passes. -/
def parseSignature : Nat → List Char → Signature → Option Signature
  | 0, _, _ => none
  | fuel + 1, cur, s =>
    if cur.headD NUL = NUL then some s
    else if s.arity ≥ MAX_ARITY then none
    else
      let type := cString cur
      let cur1 := skipCString cur
      let argName := cString cur1
      let cur2 := skipCString cur1
      let typeIdx := s.argTypes.indexOf type
      parseSignature fuel cur2
        { arity := s.arity + 1,
          typeCount := if typeIdx = s.typeCount then s.typeCount + 1 else s.typeCount,
          argTypes := if typeIdx = s.typeCount then s.argTypes ++ [type] else s.argTypes,
          argTypeIndices := s.argTypeIndices ++ [typeIdx],
          argNames := s.argNames ++ [argName] }

/-- The parser variables at loop entry. -/
def emptySignature : Signature :=
  { arity := 0, typeCount := 0, argTypes := [], argTypeIndices := [], argNames := [] }

/-- The effect of one pass of the parser loop that reads the pair `p` (type name, argument
name). -/
def addArgument (s : Signature) (p : String × String) : Signature :=
  { arity := s.arity + 1,
    typeCount := if s.argTypes.indexOf p.1 = s.typeCount then s.typeCount + 1 else s.typeCount,
    argTypes := if s.argTypes.indexOf p.1 = s.typeCount then s.argTypes ++ [p.1] else s.argTypes,
    argTypeIndices := s.argTypeIndices ++ [s.argTypes.indexOf p.1],
    argNames := s.argNames ++ [p.2] }

/-- The comparison `strncmp(name, "_SIG_TEST_", 10) == 0`. -/
def isTestSymbol (name : String) : Bool := name.toList.take 10 = "_SIG_TEST_".toList

/-- The body of the symbol loop of `runTests` for one symbol. -/
def runSymbol (h : Handle) (registry : List ProviderBucket) (fuel : Nat) (w : Worker)
    (s : Symbol) : Run Worker :=
  if isTestSymbol s.name then
    match h.testFunction (String.mk (s.name.toList.drop 4)) with
    | none =>
      Run.done { w with failed := w.failed + 1, log := w.log ++ [Event.missingFunction s.name] }
    | some func =>
      match parseSignature (MAX_ARITY + 1) s.sig emptySignature with
      | none =>
        Run.done { w with failed := w.failed + 1, log := w.log ++ [Event.arityTooLarge s.name] }
      | some sg => runSingleTest registry fuel w func sg.arity sg.typeCount sg.argTypes sg.argTypeIndices
  else Run.done w

/-- The symbol loop of `runTests` over the entries it is given. -/
def runSymbols (h : Handle) (registry : List ProviderBucket) (fuel : Nat) :
    List Symbol → Worker → Run Worker
  | [], w => Run.done w
  | s :: rest, w =>
    match runSymbol h registry fuel w s with
    | Run.done w1 => runSymbols h registry fuel rest w1
    | Run.outOfFuel => Run.outOfFuel
    | Run.undefinedBehaviour => Run.undefinedBehaviour

/-- Function `runTests` on a module whose symbol and string tables are present (`loadDL`
stores no other): the loop starts at index 1.  The report line printed at the end changes no
counter and is left out. -/
def runTests (h : Handle) (registry : List ProviderBucket) (fuel : Nat) (symbols : List Symbol)
    (w : Worker) : Run Worker :=
  runSymbols h registry fuel (symbols.drop 1) w

/-- The signature string `type0 NUL name0 NUL type1 NUL name1 NUL ... NUL NUL` of a list of
(type, name) pairs, as the macro `JOIN` lays it out, followed by arbitrary memory. -/
def encodeSignature (pairs : List (String × String)) (rest : List Char) : List Char :=
  (pairs.flatMap (fun p => p.1.toList ++ [NUL] ++ p.2.toList ++ [NUL])) ++ [NUL] ++ rest

/-- The distinct entries of a list in the order of their first occurrence. -/
def firstOccurrences : List String → List String
  | [] => []
  | t :: ts => t :: (firstOccurrences ts).filter (fun u => u ≠ t)

/-! ## `loadOneProvider` -/

/-- The outcome of the allocations one call of `loadOneProvider` may make: the address
returned by `malloc(n * size)`, by the shrinking `realloc(buf, m * size)` when it asks for
more than zero bytes (`none` is a `NULL` result, the request failed and the block is kept),
and whether `malloc(sizeof(struct ProviderBucket))` and the `realloc` of `b->providers`
succeed.  A shrinking request for zero bytes does not consult `shrink`: see
`shrinkReleases`. -/
structure Allocations where
  buf : Option Nat
  shrink : Option Nat
  bucket : Bool
  grow : Bool
  deriving DecidableEq, Repr

/-- The state `loadOneProvider` acts on: the list from `providerRoot`,
`runningTest.jumpReady`, and two ghost fields: the capacities with which provider functions
have been called so far, in order, and `freedTwice`, which says that `free` has been called
on a block that was released before (undefined behaviour). -/
structure Loader where
  registry : List ProviderBucket
  jumpReady : Bool
  providerCalls : List Nat
  freedTwice : Bool := false
  deriving DecidableEq, Repr

/-- The name buffer of `loadOneProvider`: `"format_"` followed by at most 199 bytes of the
type name, every space replaced by an underscore. -/
def formatterName (type : String) : String :=
  String.mk (("format_".toList ++ type.toList.take 199).map (fun c => if c = ' ' then '_' else c))

/-- The assignment `np[b->count++] = p` on the first bucket of the given type, the one
`findProvider` returns. -/
def appendToBucket (type : String) (p : Provider) : List ProviderBucket → List ProviderBucket
  | [] => []
  | pb :: next =>
    if pb.type = type then { pb with providers := pb.providers ++ [p] } :: next
    else pb :: appendToBucket type p next

/-- Whether the shrinking step `if(m < n) { void *r = realloc(buf, m * size); ... }` releases
the buffer: a `realloc` to zero bytes releases the block and returns `NULL` (the GNU C
library, for which the loader with its `dlinfo` and `DT_GNU_HASH` is written, behaves so).
The product is taken in `size_t`. -/
def shrinkReleases (size n m : Nat) : Bool :=
  decide (m < n) && decide ((m * size) % SIZE_RANGE = 0)

/-- The record stored by `loadOneProvider` when the second provider call returned `m ≤ n` for
the capacity `n`: for `m < n` the buffer is shrunk with `realloc` and `n` becomes `m`; `count`
is the final `n`.  When `realloc` returns `NULL` the pointer `buf` is kept: it is the old
buffer of `n * size` bytes if the request was for more than zero bytes and failed, and it
dangles if the request was for zero bytes, which released the block. -/
def storedProvider (al : Allocations) (dlName name : String) (fmt size n m buf : Nat) : Provider :=
  { dlName := dlName,
    name := name,
    count := if m < n then m else n,
    data :=
      if m < n then
        (if shrinkReleases size n m = true then buf
         else (match al.shrink with | some r => r | none => buf))
      else buf,
    format := fmt,
    dataLen :=
      if m < n then
        (if shrinkReleases size n m = true then 0
         else (match al.shrink with
          | some _ => (m * size) % SIZE_RANGE
          | none => (n * size) % SIZE_RANGE))
      else (n * size) % SIZE_RANGE,
    dataFreed := shrinkReleases size n m }

/-- The call `free(buf)` with which `loadOneProvider` gives up after the shrinking step: the
block is released a second time if the shrinking step had released it. -/
def freeShrunk (size n m : Nat) (ld : Loader) : Loader :=
  { ld with freedTwice := ld.freedTwice || shrinkReleases size n m }

/-- The part of `loadOneProvider` after the second provider call returned `m` for the
capacity `n`: the size check, the shrinking of the buffer, the bucket lookup or creation with
the element-size check, and the insertion.  The rejection for `m > n` releases the buffer
before the shrinking step, the later ones after it. -/
def storeDataset (al : Allocations) (dlName name type : String) (fmt size n m buf : Nat)
    (ld : Loader) : Bool × Loader :=
  if m > n then (false, ld)
  else
    match findProvider ld.registry type with
    | none =>
      if al.bucket = false then (false, freeShrunk size n m ld)
      else if al.grow = false then (false, freeShrunk size n m ld)
      else
        let p := storedProvider al dlName name fmt size n m buf
        (true, { ld with registry := { type := type, elementSize := size, providers := [p] } :: ld.registry })
    | some b =>
      if b.elementSize ≠ size then (false, freeShrunk size n m ld)
      else if al.grow = false then (false, freeShrunk size n m ld)
      else
        let p := storedProvider al dlName name fmt size n m buf
        (true, { ld with registry := appendToBucket type p ld.registry })

/-- Function `loadOneProvider(dl, sizeof_provider_name, size)`.  The result is the returned
Boolean and the state afterwards. -/
def loadOneProvider (h : Handle) (al : Allocations) (dlName sizeof_provider_name : String)
    (size : Nat) (ld : Loader) : Bool × Loader :=
  let name := String.mk (sizeof_provider_name.toList.drop 17)
  match h.typeName (String.mk (sizeof_provider_name.toList.drop 7)) with
  | none => (false, ld)
  | some type =>
    match h.providerFunction name with
    | none => (false, ld)
    | some prov =>
      match h.formatter (formatterName type) with
      | none => (false, ld)
      | some fmt =>
        match prov 0 with
        | Except.error f =>
          (false, { ld with jumpReady := jumpReadyAfter f true,
                            providerCalls := ld.providerCalls ++ [0] })
        | Except.ok n0 =>
          let n := if n0 = 0 then FALLBACK_VARIANT_COUNT else n0
          match al.buf with
          | none => (false, { ld with jumpReady := false, providerCalls := ld.providerCalls ++ [0] })
          | some buf =>
            match prov n with
            | Except.error f =>
              (false, { ld with jumpReady := jumpReadyAfter f true,
                                providerCalls := ld.providerCalls ++ [0, n] })
            | Except.ok m =>
              storeDataset al dlName name type fmt size n m buf
                { ld with jumpReady := false, providerCalls := ld.providerCalls ++ [0, n] }

/-- The loader state before any provider is loaded. -/
def emptyLoader : Loader := { registry := [], jumpReady := false, providerCalls := [] }

/-- One call of `loadOneProvider` with everything it depends on. -/
structure LoadCall where
  handle : Handle
  allocations : Allocations
  dlName : String
  sizeofProviderName : String
  size : Nat

/-- The state after a sequence of `loadOneProvider` calls. -/
def loadAll : List LoadCall → Loader → Loader
  | [], ld => ld
  | c :: rest, ld =>
    loadAll rest (loadOneProvider c.handle c.allocations c.dlName c.sizeofProviderName c.size ld).2

/-- The registries the program can hold: those built from the empty list by calls of
`loadOneProvider`. -/
def Reachable (registry : List ProviderBucket) : Prop :=
  ∃ calls : List LoadCall, (loadAll calls emptyLoader).registry = registry

/-! ## The symbol count from `DT_GNU_HASH` -/

/-- Between `w` and `w1` the trampoline was called with `calls`, in this order, every call
returned normally, and nothing else happened. -/
def Passed (func : List Nat → Except Fault Unit) (w w1 : Worker) (calls : List (List Nat)) : Prop :=
  w1.log = w.log ++ calls.map Event.call ∧
  (∀ a ∈ calls, func a = Except.ok ()) ∧
  w1.variants = w.variants + calls.length ∧
  w1.succeeded = w.succeeded ∧
  w1.failed = w.failed ∧
  w1.jumpReady = false

/-- Between `w` and `w1` the trampoline was called with `calls` and then with `a`; the calls
before `a` returned normally, the call with `a` left through `longjmp`, the "Failed test" line
was printed and nothing was called after it. -/
def Aborted (func : List Nat → Except Fault Unit) (w w1 : Worker) (calls : List (List Nat))
    (a : List Nat) : Prop :=
  (∃ cp ci, w1.log = w.log ++ calls.map Event.call ++ [Event.call a, Event.failedTest cp ci]) ∧
  (∀ c ∈ calls, func c = Except.ok ()) ∧
  (∃ f, func a = Except.error f) ∧
  w1.variants = w.variants + calls.length + 1 ∧
  w1.succeeded = w.succeeded ∧
  w1.failed = w.failed + 1 ∧
  w1.jumpReady = false

/-- The number of passes of the inner loop for the data sets selected by `curProviders` when
no call fails: a bound of 0 behaves like a bound of 1. -/
def innerTrips (typeBuckets : List ProviderBucket) (argTypeIndices curProviders : List Nat) : Nat :=
  match cacheCounts typeBuckets curProviders argTypeIndices with
  | some counts => (counts.map (fun c => max 1 c)).prod
  | none => 0

/-- The number of passes of the inner loop over a whole run of `runSingleTest` in which no
call fails. -/
def totalTrips (typeBuckets : List ProviderBucket) (argTypeIndices : List Nat) : Nat :=
  ((tuples (typeBuckets.map (fun pb => pb.providers.length))).map
    (innerTrips typeBuckets argTypeIndices)).sum

/-- Every bucket of the registry holds at least one data set. -/
def BucketsNonEmpty (registry : List ProviderBucket) : Prop :=
  ∀ pb ∈ registry, 1 ≤ pb.providers.length

/-! ## Example modules -/

/-- A trampoline whose test body returns for every argument. -/
def passingTest : List Nat → Except Fault Unit := fun _ => Except.ok ()

/-- A trampoline whose test body calls `testFailure` when its first argument is the element
at address 1000 (the first element of the data set placed there) and returns otherwise. -/
def failsOnFirst : List Nat → Except Fault Unit :=
  fun args => if args.head? = some 1000 then Except.error Fault.testFailureCall else Except.ok ()

/-- A (type, name) pair a signature string can hold: the type name is not empty and neither
string contains the zero byte. -/
def WellFormedPair (p : String × String) : Prop :=
  p.1.toList ≠ [] ∧ NUL ∉ p.1.toList ∧ NUL ∉ p.2.toList

instance (p : String × String) : Decidable (WellFormedPair p) := by
  unfold WellFormedPair
  infer_instance

/-- What the parser has computed after reading the pairs `read`. -/
def Parsed (read : List (String × String)) (s : Signature) : Prop :=
  s.arity = read.length ∧
  s.argNames = read.map Prod.snd ∧
  s.argTypes = firstOccurrences (read.map Prod.fst) ∧
  s.typeCount = s.argTypes.length ∧
  s.argTypeIndices.length = read.length ∧
  ∀ i (hi : i < read.length), ∃ ti, s.argTypeIndices[i]? = some ti ∧
    ti < s.typeCount ∧ s.argTypes[ti]? = some (read[i]).1

/-- A provider function filling exactly `k` elements: the size query returns `k`, the fill
call returns `k` (and only asks for `k` when offered less). -/
def fixedProvider (k : Nat) : Nat → Except Fault Nat := fun _ => Except.ok k

/-- A provider function with no preferred count that fills at most 7 elements. -/
def generatingProvider : Nat → Except Fault Nat :=
  fun cap => if cap = 0 then Except.ok 0 else Except.ok (min cap 7)

/-- A provider function that reports one element more than the capacity it is offered. -/
def overfillingProvider : Nat → Except Fault Nat := fun cap => Except.ok (cap + 1)

/-- The symbols of a tester module: the providers `a` and `b` of `int32_t` (2 and 1
elements), `u16` of `uint16_t` (3 elements), `small` of `int32_t` (3 elements), `none` of
`int32_t` (no element), `gen` and `over` of `uint16_t`, and the trampolines of the tests
`pos` and `neg`. -/
def exampleHandle : Handle :=
  { testFunction := fun s =>
      if s = "_TEST_pos" then some passingTest
      else if s = "_TEST_neg" then some failsOnFirst
      else none,
    typeName := fun s =>
      if s = "_PROVIDER_a" ∨ s = "_PROVIDER_b" ∨ s = "_PROVIDER_small" ∨ s = "_PROVIDER_none" then
        some "int32_t"
      else if s = "_PROVIDER_u16" ∨ s = "_PROVIDER_gen" ∨ s = "_PROVIDER_over" then
        some "uint16_t"
      else none,
    providerFunction := fun s =>
      if s = "a" then some (fixedProvider 2)
      else if s = "b" then some (fixedProvider 1)
      else if s = "u16" then some (fixedProvider 3)
      else if s = "small" then some (fixedProvider 3)
      else if s = "none" then some (fixedProvider 0)
      else if s = "gen" then some generatingProvider
      else if s = "over" then some overfillingProvider
      else none,
    formatter := fun s =>
      if s = "format_int32_t" then some 7000
      else if s = "format_uint16_t" then some 7100
      else none }

/-- Allocations that all succeed, the buffer being placed at `buf`. -/
def exampleAllocations (buf : Nat) : Allocations :=
  { buf := some buf, shrink := some buf, bucket := true, grow := true }

/-- A call of `loadOneProvider` on the example module in which every allocation succeeds and
the buffer is placed at `buf`. -/
def exampleLoad (sizeofProviderName : String) (size buf : Nat) : LoadCall :=
  { handle := exampleHandle,
    allocations := exampleAllocations buf,
    dlName := "tester.so",
    sizeofProviderName := sizeofProviderName,
    size := size }

/-- The registry of end-to-end scenario 6: the data sets `a = {1, 2}` and `b = {3}` of
`int32_t` and `u16 = {10, 20, 30}` of `uint16_t`. -/
def scenario6Loads : List LoadCall :=
  [exampleLoad "_SIZEOF_PROVIDER_a" 4 1000, exampleLoad "_SIZEOF_PROVIDER_b" 4 2000,
   exampleLoad "_SIZEOF_PROVIDER_u16" 2 3000]

/-- The registry of end-to-end scenarios 2 and 3: the data set `small = {1, 2, 3}`. -/
def scenario2Loads : List LoadCall := [exampleLoad "_SIZEOF_PROVIDER_small" 4 1000]

/-- A registry whose only data set is empty: the provider `none` fills 0 elements. -/
def emptyDatasetLoads : List LoadCall := [exampleLoad "_SIZEOF_PROVIDER_none" 4 1000]

/-- The registry after the given calls, starting from the empty one. -/
def registryAfter (calls : List LoadCall) : List ProviderBucket :=
  (loadAll calls emptyLoader).registry

/-- A fresh worker. -/
def freshWorker : Worker :=
  { variants := 0, succeeded := 0, failed := 0, jumpReady := false, log := [] }

/-- The symbol table of the example module: the undefined symbol at index 0, the tests `pos`
and `neg` of end-to-end scenarios 2 and 3, a provider sentinel, and a test `orphan` whose
trampoline `_TEST_orphan` is missing. -/
def exampleSymbols : List Symbol :=
  [ { name := "", size := 0, sig := [] },
    { name := "_SIG_TEST_pos", size := 0, sig := encodeSignature [("int32_t", "x")] [] },
    { name := "_PROVIDER_small", size := 0, sig := "int32_t".toList },
    { name := "_SIG_TEST_neg", size := 0, sig := encodeSignature [("int32_t", "x")] [] },
    { name := "_SIG_TEST_orphan", size := 0, sig := encodeSignature [] [] } ]

/-- The shape of the parser variables `runSingleTest` relies on. -/
def SignatureOk (s : Signature) : Prop :=
  s.arity ≤ MAX_ARITY ∧ s.argTypeIndices.length = s.arity ∧ s.argTypes.length = s.typeCount ∧
  ∀ ti ∈ s.argTypeIndices, ti < s.typeCount

/-- The call stays within `size_t`: the product `n * size` passed to `malloc` for the capacity
`n` derived from the size query does not wrap. -/
def NoOverflow (c : LoadCall) : Prop :=
  ∀ prov n0,
    c.handle.providerFunction (String.mk (c.sizeofProviderName.toList.drop 17)) = some prov →
    prov 0 = Except.ok n0 →
    (if n0 = 0 then FALLBACK_VARIANT_COUNT else n0) * c.size < SIZE_RANGE

/-- The data set `d` is the record a call `c` of `loadOneProvider` hands to the registry of
the type `type`: the three symbols resolve, the size query returns `n0`, which gives the
capacity `n`, the buffer is allocated, the filling call returns `m ≤ n`, and `d` is the record
built from these. -/
def StoredBy (c : LoadCall) (n m : Nat) (type : String) (d : Provider) : Prop :=
  ∃ prov fmt n0 buf,
    c.handle.typeName (String.mk (c.sizeofProviderName.toList.drop 7)) = some type ∧
    c.handle.providerFunction (String.mk (c.sizeofProviderName.toList.drop 17)) = some prov ∧
    c.handle.formatter (formatterName type) = some fmt ∧
    prov 0 = Except.ok n0 ∧
    n = (if n0 = 0 then FALLBACK_VARIANT_COUNT else n0) ∧
    c.allocations.buf = some buf ∧
    prov n = Except.ok m ∧
    m ≤ n ∧
    d = storedProvider c.allocations c.dlName (String.mk (c.sizeofProviderName.toList.drop 17))
          fmt c.size n m buf

/-- Every data set of every bucket satisfies `Good` for the type and the element size of its
bucket. -/
def DatasetsSatisfy (Good : String → Nat → Provider → Prop) (registry : List ProviderBucket) :
    Prop :=
  ∀ b ∈ registry, ∀ d ∈ b.providers, Good b.type b.elementSize d

/-- Allocations that succeed except for the shrinking `realloc`, which returns `NULL`. -/
def shrinkFails (buf : Nat) : Allocations :=
  { buf := some buf, shrink := none, bucket := true, grow := true }

/-- One load of the provider `gen` (offered 50 elements of 2 bytes, fills 7) in which the
shrinking `realloc` fails. -/
def shrinkFailsLoads : List LoadCall :=
  [ { handle := exampleHandle, allocations := shrinkFails 1000, dlName := "tester.so",
      sizeofProviderName := "_SIZEOF_PROVIDER_gen", size := 2 } ]

/-- The same load with a shrinking `realloc` that succeeds. -/
def shrinkingLoads : List LoadCall := [exampleLoad "_SIZEOF_PROVIDER_gen" 2 4000]

/-! ## `testFailure` -/

/-- The constant `TEST_MESSAGE_SIZE` of `ccheck.c`. -/
def TEST_MESSAGE_SIZE : Nat := 200

/-- The loop `for (i = from; i < to; ++i) message[i] = '.'` of `testFailure`, `steps` being
the number of passes left (`to - from`). -/
def writeDots : Nat → Nat → List Char → List Char
  | 0, _, message => message
  | steps + 1, i, message => writeDots steps (i + 1) (message.set i '.')

/-- Function `testFailure` up to its `longjmp`: the text left in `runningTest.message`.
`formatted` is the text the format string and its arguments expand to; `vsnprintf` stores its
first `TEST_MESSAGE_SIZE - 1` characters (and the terminator) and returns its whole length
`w`; when `w` is `TEST_MESSAGE_SIZE - 1` the positions `TEST_MESSAGE_SIZE - 4` to
`TEST_MESSAGE_SIZE - 2` are overwritten with dots. -/
def testFailure (formatted : List Char) : List Char :=
  let w := formatted.length
  let message := formatted.take (TEST_MESSAGE_SIZE - 1)
  if w = TEST_MESSAGE_SIZE - 1 then
    writeDots ((TEST_MESSAGE_SIZE - 1) - (TEST_MESSAGE_SIZE - 4)) (TEST_MESSAGE_SIZE - 4) message
  else message

/-! ## Providers that fail -/

/-- A provider function that calls `exit(1)` (as `xGetRandom` of `integer-provider.c` does when
`getrandom` fails): the `exit` hook turns the call into `testFailure`. -/
def exitingProvider : Nat → Except Fault Nat := fun _ => Except.error Fault.exitCall

/-- A provider function that dereferences a null pointer. -/
def crashingProvider : Nat → Except Fault Nat := fun _ => Except.error Fault.sigsegv

/-- A tester module with the `int32_t` providers `exiting` and `crashing`. -/
def faultyHandle : Handle :=
  { testFunction := fun _ => none,
    typeName := fun s =>
      if s = "_PROVIDER_exiting" ∨ s = "_PROVIDER_crashing" then some "int32_t" else none,
    providerFunction := fun s =>
      if s = "exiting" then some exitingProvider
      else if s = "crashing" then some crashingProvider
      else none,
    formatter := fun s => if s = "format_int32_t" then some 7000 else none }

/-! ## The types in the registry -/

/-- The type name of the data set a call of `loadOneProvider` accepts: the string behind
`_PROVIDER_<name>` when the call returns `true`, nothing when it returns `false`. -/
def acceptedType (c : LoadCall) (ld : Loader) : List String :=
  if (loadOneProvider c.handle c.allocations c.dlName c.sizeofProviderName c.size ld).1 = true then
    match c.handle.typeName (String.mk (c.sizeofProviderName.toList.drop 7)) with
    | some type => [type]
    | none => []
  else []

/-- The type names of the data sets accepted by a sequence of `loadOneProvider` calls. -/
def acceptedTypes : List LoadCall → Loader → List String
  | [], _ => []
  | c :: rest, ld =>
    acceptedType c ld ++
      acceptedTypes rest
        (loadOneProvider c.handle c.allocations c.dlName c.sizeofProviderName c.size ld).2

/-! ## `loadDL`, `loadProviders` and `main` -/

/-- What `dlopen` returns for a path, as far as `main` uses it: whether `dlinfo` succeeds,
the values the tag loop of `loadDL` leaves in `dl.symbolCount`, `dl.symbols` (`none` is
`NULL`) and `dl.strings` (`false` is `NULL`), the lookups of `dlsym` on the handle, and the
outcome of the allocations made while the provider behind a sentinel symbol is loaded. -/
structure SharedObject where
  dlinfoOk : Bool
  symbolCount : Nat
  symbols : Option (List Symbol)
  strings : Bool
  handle : Handle
  allocations : String → Allocations

/-- Struct `DL` as the later phases use it: the name, the handle, the `symbolCount` entries of
the symbol table, and the flag `provider`.  The counters are kept in the `Worker` of the
module. -/
structure DL where
  name : String
  handle : Handle
  symbols : List Symbol
  provider : Bool

/-- Function `loadDL(handle, name)` after `dlopen` returned the object: `none` is the result
`false`, `some dl` the entry appended to `dls`.  It fails when `dlinfo` fails, when the
symbol count is 0, or when the symbol or the string table is missing. -/
def loadDL (obj : SharedObject) (name : String) : Option DL :=
  if obj.dlinfoOk = false then none
  else if obj.symbolCount = 0 ∨ obj.symbols.isNone = true ∨ obj.strings = false then none
  else
    match obj.symbols with
    | some table =>
      some { name := name, handle := obj.handle, symbols := table.take obj.symbolCount,
             provider := false }
    | none => none

/-- The comparison `strncmp(name, "_SIZEOF_PROVIDER_", 17) == 0`. -/
def isProviderSymbol (name : String) : Bool :=
  name.toList.take 17 = "_SIZEOF_PROVIDER_".toList

/-- The symbol loop of `loadProviders` over the entries it is given: the number of providers
loaded and the loader state. -/
def loadProvidersLoop (h : Handle) (allocations : String → Allocations) (dlName : String) :
    List Symbol → Nat × Loader → Nat × Loader
  | [], st => st
  | s :: rest, st =>
    if isProviderSymbol s.name then
      loadProvidersLoop h allocations dlName rest
        (st.1 + (if (loadOneProvider h (allocations s.name) dlName s.name s.size st.2).1 then 1 else 0),
         (loadOneProvider h (allocations s.name) dlName s.name s.size st.2).2)
    else loadProvidersLoop h allocations dlName rest st

/-- Function `loadProviders(dl)`: the loop starts at index 1; `dl->provider` is set when a
provider was loaded. -/
def loadProviders (dl : DL) (allocations : String → Allocations) (ld : Loader) :
    Nat × DL × Loader :=
  let r := loadProvidersLoop dl.handle allocations dl.name (dl.symbols.drop 1) (0, ld)
  (r.1, { dl with provider := decide (r.1 > 0) }, r.2)

/-- The variables of the first loop of `main`. -/
structure MainState where
  gotSeparator : Bool
  linkerErrors : Bool
  subjectCount : Nat
  provCount : Nat
  dls : List DL
  loader : Loader

/-- The variables of `main` before its first loop. -/
def initialMainState : MainState :=
  { gotSeparator := false, linkerErrors := false, subjectCount := 0, provCount := 0, dls := [],
    loader := emptyLoader }

/-- One pass of the loop "load DLs and providers" of `main` for the argument `arg`. -/
def loadArgument (dlopen : String → Option SharedObject) (st : MainState) (arg : String) :
    MainState :=
  if st.gotSeparator = false ∧ arg = "--" then { st with gotSeparator := true }
  else
    match dlopen arg with
    | none => { st with linkerErrors := true }
    | some obj =>
      if st.gotSeparator = false then { st with subjectCount := st.subjectCount + 1 }
      else
        match loadDL obj arg with
        | none => { st with linkerErrors := true }
        | some dl =>
          { st with dls := st.dls ++ [(loadProviders dl obj.allocations st.loader).2.1],
                    provCount := st.provCount + (loadProviders dl obj.allocations st.loader).1,
                    loader := (loadProviders dl obj.allocations st.loader).2.2 }

/-- The test runs of all modules: `runTests` on each entry of `dls`, each on the zeroed
counters of its `struct DL`.  The workers share nothing but the registry, which they only
read, so the runs are taken one after the other. -/
def runModules (registry : List ProviderBucket) (fuel : Nat) : List DL → Run (List Worker)
  | [] => Run.done []
  | dl :: rest =>
    match runTests dl.handle registry fuel dl.symbols freshWorker with
    | Run.done w =>
      match runModules registry fuel rest with
      | Run.done ws => Run.done (w :: ws)
      | Run.outOfFuel => Run.outOfFuel
      | Run.undefinedBehaviour => Run.undefinedBehaviour
    | Run.outOfFuel => Run.outOfFuel
    | Run.undefinedBehaviour => Run.undefinedBehaviour

/-- The loop of `main` that frees the registry: `free` is called on the `data` of every data
set of every bucket, then on `b->providers` and on `b`.  The result is `true` when every block
handed to `free` is live, and `false` when one of them had been released before. -/
def freeRegistry : List ProviderBucket → Bool
  | [] => true
  | b :: next => b.providers.all (fun d => !d.dataFreed) && freeRegistry next

/-- A block of the loader state is released twice: it has been, by a rejecting path of
`loadOneProvider`, or it will be when `main` frees the registry. -/
def freesTwice (ld : Loader) : Bool := ld.freedTwice || !freeRegistry ld.registry

/-- What a run of `main` leaves: the exit code, whether the usage text was printed, the flag
`linkerErrors`, and the counters of every loaded module after its tests ran. -/
structure MainResult where
  exitCode : Nat
  usagePrinted : Bool
  linkerErrors : Bool
  modules : List Worker
  deriving DecidableEq, Repr

/-- Function `main(argc, argv)`: `argv` holds the program name and the arguments, `dlopen` is
the dynamic loader.  The value returned is `linkerErrors || totalFailed > 0`.  A block that is
released twice, by a rejecting path of `loadOneProvider` during the first loop or by the loop
that frees the registry before `main` returns, is undefined behaviour (the GNU C library
aborts the process when it detects the second release, and the process then ends with status
134 instead of the value of `main`). -/
def main (dlopen : String → Option SharedObject) (fuel : Nat) (argv : List String) :
    Run MainResult :=
  if argv.length = 0 then
    Run.done { exitCode := 1, usagePrinted := true, linkerErrors := false, modules := [] }
  else
    let st := (argv.drop 1).foldl (loadArgument dlopen) initialMainState
    if st.loader.freedTwice = true then Run.undefinedBehaviour
    else
      match runModules st.loader.registry fuel st.dls with
      | Run.done ws =>
        let totalFailed := (ws.map (fun w => w.failed)).sum
        if freeRegistry st.loader.registry = false then Run.undefinedBehaviour
        else
          Run.done { exitCode := if st.linkerErrors = true ∨ totalFailed > 0 then 1 else 0,
                     usagePrinted := false, linkerErrors := st.linkerErrors, modules := ws }
      | Run.outOfFuel => Run.outOfFuel
      | Run.undefinedBehaviour => Run.undefinedBehaviour

/-- The paths given before the first `--`: the subjects. -/
def subjectsOf (args : List String) : List String := args.takeWhile (fun a => a ≠ "--")

/-- The paths given after the first `--`: the testers. -/
def testersOf (args : List String) : List String := (args.dropWhile (fun a => a ≠ "--")).drop 1

/-- The object at `path` loads: `dlopen` succeeds and, for a tester, `loadDL` succeeds. -/
def objectLoads (dlopen : String → Option SharedObject) (tester : Bool) (path : String) : Bool :=
  match dlopen path with
  | none => false
  | some obj => if tester then (loadDL obj path).isSome else true

/-- Every object given on the command line loads. -/
def allObjectsLoad (dlopen : String → Option SharedObject) (args : List String) : Bool :=
  (subjectsOf args).all (objectLoads dlopen false) && (testersOf args).all (objectLoads dlopen true)

/-- The call `loadOneProvider(dl, sizeof_provider_name, size)` reaches its shrinking step and
releases the buffer there: the three symbols resolve, the size query returns, the buffer is
allocated, and the filling call returns a count `m` below the capacity `n` with `m * size`
zero. -/
def releasesBuffer (h : Handle) (al : Allocations) (sizeof_provider_name : String) (size : Nat) :
    Bool :=
  match h.typeName (String.mk (sizeof_provider_name.toList.drop 7)) with
  | none => false
  | some type =>
    match h.providerFunction (String.mk (sizeof_provider_name.toList.drop 17)) with
    | none => false
    | some prov =>
      match h.formatter (formatterName type) with
      | none => false
      | some _ =>
        match prov 0 with
        | Except.error _ => false
        | Except.ok n0 =>
          match al.buf with
          | none => false
          | some _ =>
            match prov (if n0 = 0 then FALLBACK_VARIANT_COUNT else n0) with
            | Except.error _ => false
            | Except.ok m => shrinkReleases size (if n0 = 0 then FALLBACK_VARIANT_COUNT else n0) m

/-- Some provider sentinel among the given symbols belongs to a provider whose buffer is
released in the shrinking step. -/
def symbolsRelease (h : Handle) (allocations : String → Allocations) (symbols : List Symbol) :
    Bool :=
  symbols.any (fun s => isProviderSymbol s.name && releasesBuffer h (allocations s.name) s.name s.size)

/-- The tester at `path` loads and has a provider whose buffer is released in the shrinking
step. -/
def testerReleases (dlopen : String → Option SharedObject) (path : String) : Bool :=
  match dlopen path with
  | none => false
  | some obj =>
    match loadDL obj path with
    | none => false
    | some dl => symbolsRelease dl.handle obj.allocations (dl.symbols.drop 1)

/-- Some tester of the command line has a provider whose buffer is released in the shrinking
step. -/
def bufferReleased (dlopen : String → Option SharedObject) (args : List String) : Bool :=
  (testersOf args).any (testerReleases dlopen)

/-- A loader that knows the paths `subject.so` (a library without tests), `tester.so` (the
example module with its provider `small`) and `empty.so` (a module without tests whose
provider `none` fills no element); every other path fails to open. -/
def exampleDlopen : String → Option SharedObject := fun path =>
  if path = "subject.so" then
    some { dlinfoOk := true, symbolCount := 1, symbols := some [{ name := "", size := 0, sig := [] }],
           strings := true, handle := exampleHandle, allocations := fun _ => exampleAllocations 0 }
  else if path = "tester.so" then
    some { dlinfoOk := true, symbolCount := 6,
           symbols := some (exampleSymbols ++ [{ name := "_SIZEOF_PROVIDER_small", size := 4, sig := [] }]),
           strings := true, handle := exampleHandle, allocations := fun _ => exampleAllocations 1000 }
  else if path = "empty.so" then
    some { dlinfoOk := true, symbolCount := 2,
           symbols := some [{ name := "", size := 0, sig := [] },
                            { name := "_SIZEOF_PROVIDER_none", size := 4, sig := [] }],
           strings := true, handle := exampleHandle, allocations := fun _ => exampleAllocations 2000 }
  else none

/-! # Theorems -/

/-! ## The odometer -/

theorem mixedRadix_length (ms : List Nat) (k : Nat) : (mixedRadix ms k).length = ms.length := by
  induction ms generalizing k with
  | nil => rfl
  | cons m ms ih => simp [mixedRadix, ih]

theorem mixedRadix_zero (ms : List Nat) : mixedRadix ms 0 = List.replicate ms.length 0 := by
  induction ms with
  | nil => rfl
  | cons m ms ih => simp [mixedRadix, ih, List.replicate_succ]

theorem prod_pos_of_pos {ms : List Nat} (hpos : ∀ m ∈ ms, 1 ≤ m) : 0 < ms.prod := by
  induction ms with
  | nil => simp
  | cons m ms ih =>
    simp only [List.prod_cons]
    have h1 : 1 ≤ m := hpos m (by simp)
    have h2 := ih (fun x hx => hpos x (by simp [hx]))
    positivity

/-- One call of `nextCombination` on the vector number `k` yields the vector number `k + 1`,
and reports `false` exactly when `k` was the last one (the vector is then all zero again). -/
theorem nextCombination_mixedRadix (ms : List Nat) (hpos : ∀ m ∈ ms, 1 ≤ m) (k : Nat)
    (hk : k < ms.prod) :
    nextCombination ms.length ms (mixedRadix ms k)
      = (decide (k + 1 < ms.prod), mixedRadix ms ((k + 1) % ms.prod)) := by
  induction ms generalizing k with
  | nil =>
    simp at hk
    subst hk
    simp [nextCombination, mixedRadix]
  | cons m ms ih =>
    have hm : 1 ≤ m := hpos m (by simp)
    have hpos' : ∀ x ∈ ms, 1 ≤ x := fun x hx => hpos x (by simp [hx])
    have hP : 0 < ms.prod := prod_pos_of_pos hpos'
    simp only [List.prod_cons] at hk ⊢
    have hq : k / m < ms.prod := by
      rw [Nat.div_lt_iff_lt_mul (by omega)]
      rwa [Nat.mul_comm]
    have hmod : k % m < m := Nat.mod_lt _ (by omega)
    simp only [List.length_cons, mixedRadix, nextCombination]
    have e1 : (k + 1) % (m * ms.prod) % m = (k + 1) % m := Nat.mod_mul_right_mod _ _ _
    have e2 : (k + 1) % (m * ms.prod) / m = (k + 1) / m % ms.prod :=
      Nat.mod_mul_right_div_self _ _ _
    rw [e1, e2]
    have hdm := Nat.div_add_mod k m
    by_cases hc : k % m + 1 ≥ m
    · have hlast : k % m = m - 1 := by omega
      have h3 : (k + 1) % m = 0 := by
        have : k + 1 = m * (k / m + 1) := by rw [Nat.mul_add]; omega
        rw [this]; simp
      have h4 : (k + 1) / m = k / m + 1 := by
        have : k + 1 = m * (k / m + 1) := by rw [Nat.mul_add]; omega
        rw [this]; rw [Nat.mul_div_cancel_left _ (by omega)]
      rw [if_pos hc, ih hpos' _ hq, h3, h4]
      have h5 : (k + 1 < m * ms.prod) ↔ (k / m + 1 < ms.prod) := by
        constructor
        · intro h
          by_contra hn
          have : ms.prod ≤ k / m + 1 := by omega
          have := Nat.mul_le_mul_left m this
          rw [Nat.mul_add] at this
          omega
        · intro h
          have : k / m + 1 + 1 ≤ ms.prod := h
          have := Nat.mul_le_mul_left m this
          rw [Nat.mul_add, Nat.mul_add] at this
          omega
      simp [h5]
    · rw [if_neg hc]
      have hlt : k % m + 1 < m := by omega
      have h3 : (k + 1) % m = k % m + 1 := by
        rw [Nat.add_mod]
        have : 1 % m = 1 := Nat.mod_eq_of_lt (by omega)
        rw [this, Nat.mod_eq_of_lt hlt]
      have h4 : (k + 1) / m = k / m := by
        have h : k + 1 = (k % m + 1) + m * (k / m) := by omega
        rw [h, Nat.add_mul_div_left _ _ (by omega), Nat.div_eq_of_lt hlt]
        simp
      have h5 : k + 1 < m * ms.prod := by
        have : k / m + 1 ≤ ms.prod := hq
        have := Nat.mul_le_mul_left m this
        rw [Nat.mul_add] at this
        omega
      rw [h3, h4, Nat.mod_eq_of_lt hq]
      simp [h5]

/-- From the vector number `k` the driver visits the vectors `k, k + 1, ..., prod ms - 1`. -/
theorem visitAll_from (ms : List Nat) (hpos : ∀ m ∈ ms, 1 ≤ m) (d : Nat) :
    ∀ k fuel, k + d + 1 = ms.prod → d + 1 ≤ fuel →
      visitAll fuel ms.length ms (mixedRadix ms k)
        = some (d, (List.range' k (d + 1)).map (mixedRadix ms)) := by
  induction d with
  | zero =>
    intro k fuel hk hf
    obtain ⟨f, rfl⟩ : ∃ f, fuel = f + 1 := ⟨fuel - 1, by omega⟩
    have hstep := nextCombination_mixedRadix ms hpos k (by omega)
    have : ¬ (k + 1 < ms.prod) := by omega
    simp only [this, decide_False] at hstep
    simp [visitAll, hstep]
  | succ d ih =>
    intro k fuel hk hf
    obtain ⟨f, rfl⟩ : ∃ f, fuel = f + 1 := ⟨fuel - 1, by omega⟩
    have hstep := nextCombination_mixedRadix ms hpos k (by omega)
    have hlt : k + 1 < ms.prod := by omega
    simp only [hlt, decide_True, Nat.mod_eq_of_lt hlt] at hstep
    have hrec := ih (k + 1) f (by omega) (by omega)
    simp only [visitAll, hstep, hrec]
    simp [List.range'_succ]

theorem rank_mixedRadix (ms : List Nat) (hpos : ∀ m ∈ ms, 1 ≤ m) (k : Nat) (hk : k < ms.prod) :
    rank ms (mixedRadix ms k) = k := by
  induction ms generalizing k with
  | nil => simp at hk; simp [rank, hk]
  | cons m ms ih =>
    have hm : 1 ≤ m := hpos m (by simp)
    simp only [List.prod_cons] at hk
    have hq : k / m < ms.prod := by
      rw [Nat.div_lt_iff_lt_mul (by omega)]
      rwa [Nat.mul_comm]
    simp only [mixedRadix, rank]
    rw [ih (fun x hx => hpos x (by simp [hx])) _ hq]
    have := Nat.div_add_mod k m
    omega

theorem mixedRadix_rank (ms v : List Nat) (hv : List.Forall₂ (fun x m => x < m) v ms) :
    mixedRadix ms (rank ms v) = v := by
  induction hv with
  | nil => rfl
  | @cons x m v ms hx _ ih =>
    simp only [rank, mixedRadix]
    have h1 : (x + m * rank ms v) % m = x := by
      rw [Nat.add_mul_mod_self_left, Nat.mod_eq_of_lt hx]
    have h2 : (x + m * rank ms v) / m = rank ms v := by
      rw [Nat.add_mul_div_left _ _ (by omega), Nat.div_eq_of_lt hx]
      simp
    rw [h1, h2, ih]

theorem rank_lt (ms v : List Nat) (hv : List.Forall₂ (fun x m => x < m) v ms) :
    rank ms v < ms.prod := by
  induction hv with
  | nil => simp [rank]
  | @cons x m v ms hx _ ih =>
    simp only [rank, List.prod_cons]
    have : rank ms v + 1 ≤ ms.prod := ih
    have := Nat.mul_le_mul_left m this
    rw [Nat.mul_add] at this
    omega

theorem mixedRadix_below (ms : List Nat) (hpos : ∀ m ∈ ms, 1 ≤ m) (k : Nat) :
    List.Forall₂ (fun x m => x < m) (mixedRadix ms k) ms := by
  induction ms generalizing k with
  | nil => exact List.Forall₂.nil
  | cons m ms ih =>
    have hm : 1 ≤ m := hpos m (by simp)
    exact List.Forall₂.cons (Nat.mod_lt _ (by omega)) (ih (fun x hx => hpos x (by simp [hx])) _)

/-- The tuples below `ms`, position 0 fastest, are the mixed-radix digit vectors of
`0, 1, ..., prod ms - 1` in increasing order. -/
theorem tuples_eq (ms : List Nat) :
    tuples ms = (List.range ms.prod).map (mixedRadix ms) := by
  induction ms with
  | nil => simp [tuples, mixedRadix]
  | cons m ms ih =>
    simp only [tuples, ih, List.prod_cons]
    generalize ms.prod = P
    induction P with
    | zero => simp
    | succ P ihP =>
      rw [List.range_succ, List.map_append, List.flatMap_append, ihP, Nat.mul_succ,
        List.range_add, List.map_append]
      congr 1
      simp only [List.map_cons, List.map_nil, List.flatMap_cons, List.flatMap_nil,
        List.append_nil, List.map_map]
      apply List.map_congr_left
      intro d hd
      have hd' : d < m := List.mem_range.mp hd
      simp only [Function.comp, mixedRadix]
      have h1 : (m * P + d) % m = d := by
        rw [Nat.add_comm, Nat.add_mul_mod_self_left, Nat.mod_eq_of_lt hd']
      have h2 : (m * P + d) / m = P := by
        rw [Nat.add_comm, Nat.add_mul_div_left _ _ (by omega), Nat.div_eq_of_lt hd']
        simp
      rw [h1, h2]

theorem mem_tuples (ms : List Nat) (hpos : ∀ m ∈ ms, 1 ≤ m) (v : List Nat) :
    v ∈ tuples ms ↔ List.Forall₂ (fun x m => x < m) v ms := by
  rw [tuples_eq]
  constructor
  · intro h
    obtain ⟨k, _, rfl⟩ := List.mem_map.mp h
    exact mixedRadix_below ms hpos k
  · intro h
    exact List.mem_map.mpr ⟨rank ms v, List.mem_range.mpr (rank_lt ms v h), mixedRadix_rank ms v h⟩

theorem tuples_nodup (ms : List Nat) (hpos : ∀ m ∈ ms, 1 ≤ m) : (tuples ms).Nodup := by
  rw [tuples_eq]
  refine List.Nodup.map_on ?_ (List.nodup_range _)
  intro a ha b hb hab
  have h1 := rank_mixedRadix ms hpos a (List.mem_range.mp ha)
  have h2 := rank_mixedRadix ms hpos b (List.mem_range.mp hb)
  rw [hab] at h1
  omega

theorem tuples_length (ms : List Nat) : (tuples ms).length = ms.prod := by
  rw [tuples_eq]; simp

/-- Claim C1: for bounds `ms` that are all at least 1, starting from the all-zero vector and
calling `nextCombination` until it returns `false` visits exactly the tuples below `ms`
(`v[i] < ms[i]` at every position), each once, the vector visited at step `k` being the
mixed-radix representation of `k` with position 0 least significant; `prod ms - 1` calls
return `true` before the first one that returns `false`. -/
theorem nextCombination_enumerates (ms : List Nat) (hpos : ∀ m ∈ ms, 1 ≤ m) :
    ∃ seen : List (List Nat),
      (∀ fuel, ms.prod ≤ fuel →
        visitAll fuel ms.length ms (List.replicate ms.length 0) = some (ms.prod - 1, seen)) ∧
      seen = tuples ms ∧
      seen.Nodup ∧
      (∀ v, v ∈ seen ↔ List.Forall₂ (fun x m => x < m) v ms) ∧
      seen.length = ms.prod ∧
      (∀ k, k < ms.prod → seen.get? k = some (mixedRadix ms k)) := by
  refine ⟨tuples ms, ?_, rfl, tuples_nodup ms hpos, mem_tuples ms hpos, tuples_length ms, ?_⟩
  · intro fuel hf
    have hP := prod_pos_of_pos hpos
    have h := visitAll_from ms hpos (ms.prod - 1) 0 fuel (by omega) (by omega)
    rw [mixedRadix_zero] at h
    rw [h, tuples_eq]
    have : ms.prod - 1 + 1 = ms.prod := by omega
    rw [this, List.range_eq_range']
  · intro k hk
    rw [tuples_eq]
    simp [List.getElem?_map, List.getElem?_range hk]

theorem nextCombination_enumerates_witness :
    ∃ seen : List (List Nat),
      (∀ fuel, [2, 3].prod ≤ fuel →
        visitAll fuel [2, 3].length [2, 3] (List.replicate [2, 3].length 0)
          = some ([2, 3].prod - 1, seen)) ∧
      seen = tuples [2, 3] ∧
      seen.Nodup ∧
      (∀ v, v ∈ seen ↔ List.Forall₂ (fun x m => x < m) v [2, 3]) ∧
      seen.length = [2, 3].prod ∧
      (∀ k, k < [2, 3].prod → seen.get? k = some (mixedRadix [2, 3] k)) :=
  nextCombination_enumerates [2, 3] (by decide)

/-! ## The loops of `runSingleTest` -/

/-- A bound of 0 and a bound of 1 make `nextCombination` behave alike. -/
theorem nextCombination_clamp (n : Nat) (ms result : List Nat) :
    nextCombination n ms result = nextCombination n (ms.map (fun c => max 1 c)) result := by
  induction n generalizing ms result with
  | zero => simp [nextCombination]
  | succ n ih =>
    cases ms with
    | nil => cases result <;> simp [nextCombination]
    | cons m ms =>
      cases result with
      | nil => simp [nextCombination]
      | cons r result =>
        simp only [nextCombination, List.map_cons, ← ih]
        have : (r + 1 ≥ m) ↔ (r + 1 ≥ max 1 m) := by omega
        simp only [this]

theorem cacheCounts_length (tb : List ProviderBucket) (cp : List Nat) :
    ∀ (tis counts : List Nat), cacheCounts tb cp tis = some counts → counts.length = tis.length := by
  intro tis
  induction tis with
  | nil => intro counts h; simp [cacheCounts] at h; simp [h]
  | cons ti tis ih =>
    intro counts h
    simp only [cacheCounts] at h
    split at h
    · rename_i p cs hp hcs
      simp at h
      subst h
      simp [ih cs hcs]
    · simp at h

theorem argPointers_defined (tb : List ProviderBucket) (cp : List Nat) :
    ∀ (tis counts dis : List Nat), cacheCounts tb cp tis = some counts →
      ∃ args, argPointers tb cp tis dis = some args := by
  intro tis
  induction tis with
  | nil => intro counts dis _; exact ⟨[], by simp [argPointers]⟩
  | cons ti tis ih =>
    intro counts dis h
    cases dis with
    | nil => exact ⟨[], by simp [argPointers]⟩
    | cons di dis =>
      simp only [cacheCounts] at h
      split at h
      · rename_i p cs hp hcs
        obtain ⟨args, hargs⟩ := ih cs dis hcs
        simp only [selectedProvider] at hp
        split at hp
        · rename_i pb c hpb hc
          refine ⟨(p.data + pb.elementSize * di) :: args, ?_⟩
          simp [argPointers, hpb, hc, locateArg, hp, hargs]
        · simp at hp
      · simp at h

theorem Passed.trans {func : List Nat → Except Fault Unit} {w w1 w2 : Worker}
    {c1 c2 : List (List Nat)} (h1 : Passed func w w1 c1) (h2 : Passed func w1 w2 c2) :
    Passed func w w2 (c1 ++ c2) := by
  obtain ⟨a1, a2, a3, a4, a5, _⟩ := h1
  obtain ⟨b1, b2, b3, b4, b5, b6⟩ := h2
  refine ⟨?_, ?_, ?_, ?_, ?_, b6⟩
  · rw [b1, a1]; simp
  · intro a ha
    rcases List.mem_append.mp ha with h | h
    · exact a2 a h
    · exact b2 a h
  · rw [b3, a3]; simp; omega
  · rw [b4, a4]
  · rw [b5, a5]

theorem Passed.then_aborted {func : List Nat → Except Fault Unit} {w w1 w2 : Worker}
    {c1 c2 : List (List Nat)} {a : List Nat} (h1 : Passed func w w1 c1)
    (h2 : Aborted func w1 w2 c2 a) : Aborted func w w2 (c1 ++ c2) a := by
  obtain ⟨a1, a2, a3, a4, a5, _⟩ := h1
  obtain ⟨⟨cp, ci, b1⟩, b2, b3, b4, b5, b6, b7⟩ := h2
  refine ⟨⟨cp, ci, ?_⟩, ?_, b3, ?_, ?_, ?_, b7⟩
  · rw [b1, a1]; simp
  · intro a ha
    rcases List.mem_append.mp ha with h | h
    · exact a2 a h
    · exact b2 a h
  · rw [b4, a3]; simp; omega
  · rw [b5, a4]
  · rw [b6, a5]

theorem Passed.refl (func : List Nat → Except Fault Unit) (w : Worker) (h : w.jumpReady = false) :
    Passed func w w [] := by
  simp [Passed, h]

/-- The inner loop, started at the index vector number `k` of the selected data sets, ends
within `prod - k` passes: either every call returned and all remaining index vectors were
used, or a call failed and the loop was left at once. -/
theorem innerLoop_run (func : List Nat → Except Fault Unit) (arity : Nat) (tis : List Nat)
    (tb : List ProviderBucket) (cp counts : List Nat) (harity : arity ≤ MAX_ARITY)
    (hlen : tis.length = arity) (hcache : cacheCounts tb cp tis = some counts) (d : Nat) :
    ∀ k w, k + d + 1 = (counts.map (fun c => max 1 c)).prod →
      ∃ b w1,
        (∀ fuel, d + 1 ≤ fuel → innerLoop func arity tis tb cp counts fuel w
          (mixedRadix (counts.map (fun c => max 1 c)) k) = Run.done (b, w1)) ∧
        ((b = false ∧ ∃ calls, calls.length = d + 1 ∧ Passed func w w1 calls) ∨
         (b = true ∧ ∃ calls a, Aborted func w w1 calls a)) := by
  have hclen : counts.length = arity := by rw [cacheCounts_length tb cp tis counts hcache, hlen]
  have hpos : ∀ m ∈ counts.map (fun c => max 1 c), 1 ≤ m := by
    intro m hm
    obtain ⟨c, _, rfl⟩ := List.mem_map.mp hm
    omega
  have hmlen : (counts.map (fun c => max 1 c)).length = arity := by simp [hclen]
  have htake : tis.take arity = tis := by rw [← hlen]; simp
  have hnot : ¬ (arity > MAX_ARITY) := by omega
  induction d with
  | zero =>
    intro k w hk
    obtain ⟨args, hargs⟩ := argPointers_defined tb cp tis counts
      (mixedRadix (counts.map (fun c => max 1 c)) k) hcache
    have hstep := nextCombination_mixedRadix _ hpos k (by omega)
    rw [hmlen, ← nextCombination_clamp] at hstep
    have hno : ¬ (k + 1 < (counts.map (fun c => max 1 c)).prod) := by omega
    simp only [hno, decide_False] at hstep
    cases hfn : func args with
    | error e =>
      refine ⟨true, failureBranch
        { w with variants := w.variants + 1, jumpReady := jumpReadyAfter e true,
                 log := w.log ++ [Event.call args] } cp
        (mixedRadix (counts.map (fun c => max 1 c)) k), ?_, Or.inr ⟨rfl, [], args, ?_⟩⟩
      · intro fuel hf
        obtain ⟨f, rfl⟩ : ∃ f, fuel = f + 1 := ⟨fuel - 1, by omega⟩
        simp only [innerLoop, if_neg hnot, htake, hargs, hfn]
      · simp [Aborted, failureBranch, hfn]
    | ok u =>
      refine ⟨false, { w with variants := w.variants + 1, jumpReady := false,
                              log := w.log ++ [Event.call args] }, ?_,
        Or.inl ⟨rfl, [args], rfl, ?_⟩⟩
      · intro fuel hf
        obtain ⟨f, rfl⟩ : ∃ f, fuel = f + 1 := ⟨fuel - 1, by omega⟩
        simp only [innerLoop, if_neg hnot, htake, hargs, hfn, hstep]
      · simp [Passed, hfn]
  | succ d ih =>
    intro k w hk
    obtain ⟨args, hargs⟩ := argPointers_defined tb cp tis counts
      (mixedRadix (counts.map (fun c => max 1 c)) k) hcache
    have hstep := nextCombination_mixedRadix _ hpos k (by omega)
    rw [hmlen, ← nextCombination_clamp] at hstep
    have hlt : k + 1 < (counts.map (fun c => max 1 c)).prod := by omega
    simp only [hlt, decide_True, Nat.mod_eq_of_lt hlt] at hstep
    cases hfn : func args with
    | error e =>
      refine ⟨true, failureBranch
        { w with variants := w.variants + 1, jumpReady := jumpReadyAfter e true,
                 log := w.log ++ [Event.call args] } cp
        (mixedRadix (counts.map (fun c => max 1 c)) k), ?_, Or.inr ⟨rfl, [], args, ?_⟩⟩
      · intro fuel hf
        obtain ⟨f, rfl⟩ : ∃ f, fuel = f + 1 := ⟨fuel - 1, by omega⟩
        simp only [innerLoop, if_neg hnot, htake, hargs, hfn]
      · simp [Aborted, failureBranch, hfn]
    | ok u =>
      have hfirst : Passed func w
          { w with variants := w.variants + 1, jumpReady := false,
                   log := w.log ++ [Event.call args] } [args] := by
        simp [Passed, hfn]
      obtain ⟨b, w1, hrun, hres⟩ := ih (k + 1)
        { w with variants := w.variants + 1, jumpReady := false,
                 log := w.log ++ [Event.call args] } (by omega)
      refine ⟨b, w1, ?_, ?_⟩
      · intro fuel hf
        obtain ⟨f, rfl⟩ : ∃ f, fuel = f + 1 := ⟨fuel - 1, by omega⟩
        simp only [innerLoop, if_neg hnot, htake, hargs, hfn, hstep]
        exact hrun f (by omega)
      · rcases hres with ⟨hb, calls, hcl, hp⟩ | ⟨hb, calls, a, ha⟩
        · exact Or.inl ⟨hb, [args] ++ calls, by simp [hcl], hfirst.trans hp⟩
        · exact Or.inr ⟨hb, [args] ++ calls, a, hfirst.then_aborted ha⟩

theorem selectedProvider_defined (tb : List ProviderBucket) (cp : List Nat)
    (h : List.Forall₂ (fun c pb => c < pb.providers.length) cp tb) :
    ∀ ti, ti < tb.length → ∃ p, selectedProvider tb cp ti = some p := by
  induction h with
  | nil => intro ti hti; simp at hti
  | @cons c pb cp tb hc _ ih =>
    intro ti hti
    cases ti with
    | zero =>
      refine ⟨pb.providers[c], ?_⟩
      simp [selectedProvider, List.getElem?_eq_getElem hc]
    | succ ti =>
      obtain ⟨p, hp⟩ := ih ti (by simpa using hti)
      refine ⟨p, ?_⟩
      simpa [selectedProvider] using hp

theorem cacheCounts_defined (tb : List ProviderBucket) (cp : List Nat)
    (h : List.Forall₂ (fun c pb => c < pb.providers.length) cp tb) :
    ∀ tis : List Nat, (∀ ti ∈ tis, ti < tb.length) → ∃ counts, cacheCounts tb cp tis = some counts := by
  intro tis
  induction tis with
  | nil => intro _; exact ⟨[], rfl⟩
  | cons ti tis ih =>
    intro hall
    obtain ⟨p, hp⟩ := selectedProvider_defined tb cp h ti (hall ti (by simp))
    obtain ⟨cs, hcs⟩ := ih (fun x hx => hall x (by simp [hx]))
    exact ⟨p.count :: cs, by simp [cacheCounts, hp, hcs]⟩

theorem cacheCounts_mixedRadix (tb : List ProviderBucket)
    (hne : ∀ pb ∈ tb, 1 ≤ pb.providers.length) (tis : List Nat)
    (htis : ∀ ti ∈ tis, ti < tb.length) (k : Nat) :
    ∃ counts, cacheCounts tb (mixedRadix (tb.map (fun pb => pb.providers.length)) k) tis
      = some counts := by
  apply cacheCounts_defined _ _ _ tis htis
  have hpos : ∀ m ∈ tb.map (fun pb => pb.providers.length), 1 ≤ m := by
    intro m hm
    obtain ⟨pb, hpb, rfl⟩ := List.mem_map.mp hm
    exact hne pb hpb
  have := mixedRadix_below _ hpos k
  rwa [List.forall₂_map_right_iff] at this

/-- The outer loop, started at the data set tuple number `k`, ends within `prod - k` passes:
either every call returned and the inner loop ran for each remaining tuple, or a call failed
and both loops were left at once. -/
theorem outerLoop_run (func : List Nat → Except Fault Unit) (arity typeCount : Nat)
    (tis : List Nat) (tb : List ProviderBucket) (harity : arity ≤ MAX_ARITY)
    (hlen : tis.length = arity) (htb : tb.length = typeCount)
    (htis : ∀ ti ∈ tis, ti < typeCount) (hne : ∀ pb ∈ tb, 1 ≤ pb.providers.length) (d : Nat) :
    ∀ k w, k + d + 1 = (tb.map (fun pb => pb.providers.length)).prod →
      ∃ b w1,
        (∀ fuel innerFuel, d + 1 ≤ fuel →
          (∀ j, j < (tb.map (fun pb => pb.providers.length)).prod →
            innerTrips tb tis (mixedRadix (tb.map (fun pb => pb.providers.length)) j)
              ≤ innerFuel) →
          outerLoop func arity typeCount tis tb (tb.map (fun pb => pb.providers.length))
            innerFuel fuel w (mixedRadix (tb.map (fun pb => pb.providers.length)) k)
              = Run.done (b, w1)) ∧
        ((b = false ∧ ∃ calls,
            calls.length = ((List.range' k (d + 1)).map (fun j =>
              innerTrips tb tis (mixedRadix (tb.map (fun pb => pb.providers.length)) j))).sum ∧
            Passed func w w1 calls) ∨
         (b = true ∧ ∃ calls a, Aborted func w w1 calls a)) := by
  have hpos : ∀ m ∈ tb.map (fun pb => pb.providers.length), 1 ≤ m := by
    intro m hm
    obtain ⟨pb, hpb, rfl⟩ := List.mem_map.mp hm
    exact hne pb hpb
  have hblen : (tb.map (fun pb => pb.providers.length)).length = typeCount := by simp [htb]
  have htake : tis.take arity = tis := by rw [← hlen]; simp
  have htis' : ∀ ti ∈ tis, ti < tb.length := by rw [htb]; exact htis
  -- one pass of the inner loop
  have pass : ∀ k (w : Worker), ∃ counts,
      cacheCounts tb (mixedRadix (tb.map (fun pb => pb.providers.length)) k) tis = some counts ∧
      ∃ b w1,
        (∀ innerFuel,
          innerTrips tb tis (mixedRadix (tb.map (fun pb => pb.providers.length)) k) ≤ innerFuel →
          innerLoop func arity tis tb (mixedRadix (tb.map (fun pb => pb.providers.length)) k)
            counts innerFuel w (List.replicate arity 0) = Run.done (b, w1)) ∧
        ((b = false ∧ ∃ calls,
            calls.length = innerTrips tb tis (mixedRadix (tb.map (fun pb => pb.providers.length)) k) ∧
            Passed func w w1 calls) ∨
         (b = true ∧ ∃ calls a, Aborted func w w1 calls a)) := by
    intro k w
    obtain ⟨counts, hcounts⟩ := cacheCounts_mixedRadix tb hne tis htis' k
    refine ⟨counts, hcounts, ?_⟩
    have hclen : counts.length = arity := by rw [cacheCounts_length _ _ tis counts hcounts, hlen]
    have hP : 0 < (counts.map (fun c => max 1 c)).prod := by
      apply prod_pos_of_pos
      intro m hm
      obtain ⟨c, _, rfl⟩ := List.mem_map.mp hm
      omega
    have htrips : innerTrips tb tis (mixedRadix (tb.map (fun pb => pb.providers.length)) k)
        = (counts.map (fun c => max 1 c)).prod := by
      simp [innerTrips, hcounts]
    obtain ⟨b, w1, hrun, hres⟩ := innerLoop_run func arity tis tb _ counts harity hlen hcounts
      ((counts.map (fun c => max 1 c)).prod - 1) 0 w (by omega)
    rw [mixedRadix_zero] at hrun
    simp only [List.length_map, hclen] at hrun
    refine ⟨b, w1, ?_, ?_⟩
    · intro innerFuel hfuel
      rw [htrips] at hfuel
      exact hrun innerFuel (by omega)
    · rcases hres with ⟨hb, calls, hcl, hp⟩ | h
      · exact Or.inl ⟨hb, calls, by rw [hcl, htrips]; omega, hp⟩
      · exact Or.inr h
  induction d with
  | zero =>
    intro k w hk
    obtain ⟨counts, hcounts, b, w1, hrun, hres⟩ := pass k w
    have hstep := nextCombination_mixedRadix _ hpos k (by omega)
    rw [hblen] at hstep
    have hno : ¬ (k + 1 < (tb.map (fun pb => pb.providers.length)).prod) := by omega
    simp only [hno, decide_False] at hstep
    rcases hres with ⟨hb, calls, hcl, hp⟩ | ⟨hb, h⟩
    · subst hb
      refine ⟨false, w1, ?_, Or.inl ⟨rfl, calls, by simp [hcl], hp⟩⟩
      intro fuel innerFuel hf hin
      obtain ⟨f, rfl⟩ : ∃ f, fuel = f + 1 := ⟨fuel - 1, by omega⟩
      simp only [outerLoop, htake, hcounts, hrun innerFuel (hin k (by omega)), hstep]
    · subst hb
      refine ⟨true, w1, ?_, Or.inr ⟨rfl, h⟩⟩
      intro fuel innerFuel hf hin
      obtain ⟨f, rfl⟩ : ∃ f, fuel = f + 1 := ⟨fuel - 1, by omega⟩
      simp only [outerLoop, htake, hcounts, hrun innerFuel (hin k (by omega))]
  | succ d ih =>
    intro k w hk
    obtain ⟨counts, hcounts, b, w1, hrun, hres⟩ := pass k w
    have hstep := nextCombination_mixedRadix _ hpos k (by omega)
    rw [hblen] at hstep
    have hlt : k + 1 < (tb.map (fun pb => pb.providers.length)).prod := by omega
    simp only [hlt, decide_True, Nat.mod_eq_of_lt hlt] at hstep
    rcases hres with ⟨hb, calls, hcl, hp⟩ | ⟨hb, h⟩
    · subst hb
      obtain ⟨b2, w2, hrun2, hres2⟩ := ih (k + 1) w1 (by omega)
      refine ⟨b2, w2, ?_, ?_⟩
      · intro fuel innerFuel hf hin
        obtain ⟨f, rfl⟩ : ∃ f, fuel = f + 1 := ⟨fuel - 1, by omega⟩
        simp only [outerLoop, htake, hcounts, hrun innerFuel (hin k (by omega)), hstep]
        exact hrun2 f innerFuel (by omega) hin
      · rcases hres2 with ⟨hb2, calls2, hcl2, hp2⟩ | ⟨hb2, calls2, a, ha⟩
        · refine Or.inl ⟨hb2, calls ++ calls2, ?_, hp.trans hp2⟩
          rw [List.length_append, hcl, hcl2, List.range'_succ k (d + 1)]
          simp
        · exact Or.inr ⟨hb2, calls ++ calls2, a, hp.then_aborted ha⟩
    · subst hb
      refine ⟨true, w1, ?_, Or.inr ⟨rfl, h⟩⟩
      intro fuel innerFuel hf hin
      obtain ⟨f, rfl⟩ : ∃ f, fuel = f + 1 := ⟨fuel - 1, by omega⟩
      simp only [outerLoop, htake, hcounts, hrun innerFuel (hin k (by omega))]

/-! ## The registry -/

theorem findProvider_some {reg : List ProviderBucket} {t : String} {pb : ProviderBucket}
    (h : findProvider reg t = some pb) : pb ∈ reg ∧ pb.type = t := by
  induction reg with
  | nil => simp [findProvider] at h
  | cons b next ih =>
    simp only [findProvider] at h
    split at h
    · rename_i hb
      simp at h
      subst h
      exact ⟨by simp, hb⟩
    · exact ⟨by simp [(ih h).1], (ih h).2⟩

theorem appendToBucket_nonEmpty (t : String) (p : Provider) (reg : List ProviderBucket)
    (h : BucketsNonEmpty reg) : BucketsNonEmpty (appendToBucket t p reg) := by
  induction reg with
  | nil => simpa [appendToBucket] using h
  | cons b next ih =>
    have hb : 1 ≤ b.providers.length := h b (by simp)
    have hnext : BucketsNonEmpty next := fun x hx => h x (by simp [hx])
    simp only [appendToBucket]
    split
    · intro x hx
      rcases List.mem_cons.mp hx with rfl | hx
      · simp
      · exact hnext x hx
    · intro x hx
      rcases List.mem_cons.mp hx with rfl | hx
      · exact hb
      · exact ih hnext x hx

/-- The three ways `storeDataset` can end: rejection with the registry unchanged (before or
after the shrinking step), a new bucket at the head of the list, or one more data set at the
end of the existing bucket. -/
theorem storeDataset_cases (al : Allocations) (dlName name type : String)
    (fmt size n m buf : Nat) (ld : Loader) :
    (storeDataset al dlName name type fmt size n m buf ld = (false, ld) ∨
     storeDataset al dlName name type fmt size n m buf ld = (false, freeShrunk size n m ld)) ∨
    (m ≤ n ∧
      ((findProvider ld.registry type = none ∧
        storeDataset al dlName name type fmt size n m buf ld
          = (true, { ld with registry := (ProviderBucket.mk type size
              [storedProvider al dlName name fmt size n m buf]) :: ld.registry })) ∨
       (∃ b, findProvider ld.registry type = some b ∧ b.elementSize = size ∧
        storeDataset al dlName name type fmt size n m buf ld
          = (true, { ld with registry := (appendToBucket type
              (storedProvider al dlName name fmt size n m buf) ld.registry) })))) := by
  unfold storeDataset
  by_cases hmn : m > n
  · simp [hmn]
  · simp only [hmn, if_false]
    cases hf : findProvider ld.registry type with
    | none =>
      by_cases hb : al.bucket = false
      · simp [hb]
      · by_cases hg : al.grow = false
        · simp [hg]
        · right
          refine ⟨by omega, Or.inl ⟨rfl, ?_⟩⟩
          simp [hb, hg]
    | some b =>
      by_cases hs : b.elementSize ≠ size
      · simp [hs]
      · by_cases hg : al.grow = false
        · simp [hg]
        · right
          refine ⟨by omega, Or.inr ⟨b, rfl, by simpa using hs, ?_⟩⟩
          simp [hs, hg]

theorem storedProvider_count (al : Allocations) (dlName name : String) (fmt size n m buf : Nat)
    (h : m ≤ n) : (storedProvider al dlName name fmt size n m buf).count = m := by
  simp only [storedProvider]
  split <;> omega

theorem storeDataset_nonEmpty (al : Allocations) (dlName name type : String)
    (fmt size n m buf : Nat) (ld : Loader) (h : BucketsNonEmpty ld.registry) :
    BucketsNonEmpty (storeDataset al dlName name type fmt size n m buf ld).2.registry := by
  rcases storeDataset_cases al dlName name type fmt size n m buf ld with
    (h1 | h1) | ⟨_, ⟨_, h1⟩ | ⟨b, _, _, h1⟩⟩
  · rw [h1]; exact h
  · rw [h1]; exact h
  · rw [h1]
    intro x hx
    rcases List.mem_cons.mp hx with rfl | hx
    · simp
    · exact h x hx
  · rw [h1]
    exact appendToBucket_nonEmpty _ _ _ h

/-- A call of `loadOneProvider` either leaves the registry as it was and returns `false`, or
ends in `storeDataset` with the counts `n` (capacity offered) and `m` (elements filled). -/
theorem loadOneProvider_cases (hd : Handle) (al : Allocations) (dlName spn : String)
    (size : Nat) (ld : Loader) :
    ((loadOneProvider hd al dlName spn size ld).1 = false ∧
      (loadOneProvider hd al dlName spn size ld).2.registry = ld.registry) ∨
    ∃ type fmt n m buf,
      hd.typeName (String.mk (spn.toList.drop 7)) = some type ∧
      loadOneProvider hd al dlName spn size ld
        = storeDataset al dlName (String.mk (spn.toList.drop 17)) type fmt size n m buf
            { ld with jumpReady := false, providerCalls := ld.providerCalls ++ [0, n] } := by
  cases h1 : hd.typeName (String.mk (spn.toList.drop 7)) with
  | none => left; simp only [loadOneProvider, h1]; simp
  | some type =>
    cases h2 : hd.providerFunction (String.mk (spn.toList.drop 17)) with
    | none => left; simp only [loadOneProvider, h1, h2]; simp
    | some prov =>
      cases h3 : hd.formatter (formatterName type) with
      | none => left; simp only [loadOneProvider, h1, h2, h3]; simp
      | some fmt =>
        cases h4 : prov 0 with
        | error f => left; simp only [loadOneProvider, h1, h2, h3, h4]; simp
        | ok n0 =>
          cases h5 : al.buf with
          | none => left; simp only [loadOneProvider, h1, h2, h3, h4, h5]; simp
          | some buf =>
            cases h6 : prov (if n0 = 0 then FALLBACK_VARIANT_COUNT else n0) with
            | error f => left; simp only [loadOneProvider, h1, h2, h3, h4, h5, h6]; simp
            | ok m =>
              right
              refine ⟨type, fmt, (if n0 = 0 then FALLBACK_VARIANT_COUNT else n0), m, buf, rfl, ?_⟩
              simp only [loadOneProvider, h1, h2, h3, h4, h5, h6]

theorem loadOneProvider_nonEmpty (hd : Handle) (al : Allocations) (dlName spn : String)
    (size : Nat) (ld : Loader) (h : BucketsNonEmpty ld.registry) :
    BucketsNonEmpty (loadOneProvider hd al dlName spn size ld).2.registry := by
  rcases loadOneProvider_cases hd al dlName spn size ld with
    ⟨_, h1⟩ | ⟨type, fmt, n, m, buf, _, h1⟩
  · rw [h1]; exact h
  · rw [h1]
    exact storeDataset_nonEmpty _ _ _ _ _ _ _ _ _ _ h

theorem loadAll_nonEmpty (calls : List LoadCall) (ld : Loader) (h : BucketsNonEmpty ld.registry) :
    BucketsNonEmpty (loadAll calls ld).registry := by
  induction calls generalizing ld with
  | nil => exact h
  | cons c rest ih => exact ih _ (loadOneProvider_nonEmpty _ _ _ _ _ _ h)

/-- Every bucket of a registry built by `loadOneProvider` holds at least one data set. -/
theorem reachable_nonEmpty {reg : List ProviderBucket} (h : Reachable reg) : BucketsNonEmpty reg := by
  obtain ⟨calls, rfl⟩ := h
  exact loadAll_nonEmpty calls _ (by intro x hx; simp [emptyLoader] at hx)

theorem locateBuckets_ok {reg : List ProviderBucket} :
    ∀ {ts : List String} {tb : List ProviderBucket}, locateBuckets reg ts = Except.ok tb →
      tb = ts.filterMap (findProvider reg) ∧ tb.length = ts.length ∧
      (∀ t ∈ ts, findProvider reg t ≠ none) ∧ (∀ pb ∈ tb, pb ∈ reg) := by
  intro ts
  induction ts with
  | nil =>
    intro tb h
    simp [locateBuckets] at h
    subst h
    simp
  | cons t ts ih =>
    intro tb h
    simp only [locateBuckets] at h
    split at h
    · simp at h
    · rename_i pb hpb
      split at h
      · rename_i bs hbs
        simp at h
        subst h
        obtain ⟨h1, h2, h3, h4⟩ := ih hbs
        refine ⟨?_, by simp [h2], ?_, ?_⟩
        · simp [List.filterMap_cons, hpb, ← h1]
        · intro u hu
          rcases List.mem_cons.mp hu with rfl | hu
          · simp [hpb]
          · exact h3 u hu
        · intro x hx
          rcases List.mem_cons.mp hx with rfl | hx
          · exact (findProvider_some hpb).1
          · exact h4 x hx
      · simp at h

theorem locateBuckets_error {reg : List ProviderBucket} :
    ∀ {ts : List String} {t : String}, locateBuckets reg ts = Except.error t →
      t ∈ ts ∧ findProvider reg t = none := by
  intro ts
  induction ts with
  | nil => intro t h; simp [locateBuckets] at h
  | cons u ts ih =>
    intro t h
    simp only [locateBuckets] at h
    split at h
    · rename_i hu
      simp at h
      subst h
      exact ⟨by simp, hu⟩
    · split at h
      · simp at h
      · rename_i e he
        simp at h
        subst h
        exact ⟨by simp [(ih he).1], (ih he).2⟩

theorem le_sum_of_mem_map {α : Type} (f : α → Nat) (l : List α) (a : α) (ha : a ∈ l) :
    f a ≤ (l.map f).sum := by
  induction l with
  | nil => simp at ha
  | cons x l ih =>
    rcases List.mem_cons.mp ha with rfl | h
    · simp
    · have := ih h
      simp
      omega

/-- What one call of `runSingleTest` does, for every trampoline: it returns (given enough
fuel, always with the same result) after exactly one of: a missing provider type; a run in
which every call returned; a run cut short by the first failing call. -/
theorem runSingleTest_run (reg : List ProviderBucket) (hne : BucketsNonEmpty reg)
    (func : List Nat → Except Fault Unit) (arity typeCount : Nat) (argTypes : List String)
    (tis : List Nat) (harity : arity ≤ MAX_ARITY) (hlen : tis.length = arity)
    (htlen : argTypes.length = typeCount) (htis : ∀ ti ∈ tis, ti < typeCount) (w : Worker) :
    ∃ N w1,
      (∀ fuel, N ≤ fuel → runSingleTest reg fuel w func arity typeCount argTypes tis = Run.done w1) ∧
      ((∃ t, t ∈ argTypes ∧ findProvider reg t = none ∧
          w1 = { w with failed := w.failed + 1, log := w.log ++ [Event.noProvider t] }) ∨
       ((∀ t ∈ argTypes, findProvider reg t ≠ none) ∧
         ((∃ calls w0, calls.length = totalTrips (argTypes.filterMap (findProvider reg)) tis ∧
            Passed func w w0 calls ∧ w1 = { w0 with succeeded := w0.succeeded + 1 }) ∨
          (∃ calls a, Aborted func w w1 calls a)))) := by
  have htake : argTypes.take typeCount = argTypes := by rw [← htlen]; simp
  cases hloc : locateBuckets reg argTypes with
  | error t =>
    obtain ⟨h1, h2⟩ := locateBuckets_error hloc
    refine ⟨0, { w with failed := w.failed + 1, log := w.log ++ [Event.noProvider t] }, ?_,
      Or.inl ⟨t, h1, h2, rfl⟩⟩
    intro fuel _
    simp only [runSingleTest, htake, hloc]
  | ok tb =>
    obtain ⟨h1, h2, h3, h4⟩ := locateBuckets_ok hloc
    have hne' : ∀ pb ∈ tb, 1 ≤ pb.providers.length := fun pb hpb => hne pb (h4 pb hpb)
    have hP : 0 < (tb.map (fun pb => pb.providers.length)).prod := by
      apply prod_pos_of_pos
      intro m hm
      obtain ⟨pb, hpb, rfl⟩ := List.mem_map.mp hm
      exact hne' pb hpb
    obtain ⟨b, w1, hrun, hres⟩ := outerLoop_run func arity typeCount tis tb harity hlen
      (by rw [h2, htlen]) htis hne' ((tb.map (fun pb => pb.providers.length)).prod - 1) 0 w
      (by omega)
    rw [mixedRadix_zero] at hrun
    have hl : (tb.map (fun pb => pb.providers.length)).length = typeCount := by
      simp [h2, htlen]
    rw [hl] at hrun
    -- enough fuel for both loops
    have hbound : ∀ j, j < (tb.map (fun pb => pb.providers.length)).prod →
        innerTrips tb tis (mixedRadix (tb.map (fun pb => pb.providers.length)) j)
          ≤ totalTrips tb tis := by
      intro j hj
      have hmem : mixedRadix (tb.map (fun pb => pb.providers.length)) j
          ∈ tuples (tb.map (fun pb => pb.providers.length)) := by
        rw [tuples_eq]
        exact List.mem_map.mpr ⟨j, List.mem_range.mpr hj, rfl⟩
      exact le_sum_of_mem_map (innerTrips tb tis) _ _ hmem
    have hrun' : ∀ fuel, (tb.map (fun pb => pb.providers.length)).prod + totalTrips tb tis ≤ fuel →
        outerLoop func arity typeCount tis tb (tb.map (fun pb => pb.providers.length)) fuel fuel w
          (List.replicate typeCount 0) = Run.done (b, w1) := by
      intro fuel hf
      exact hrun fuel fuel (by omega) (fun j hj => le_trans (hbound j hj) (by omega))
    rcases hres with ⟨hb, calls, hcl, hp⟩ | ⟨hb, calls, a, ha⟩
    · subst hb
      refine ⟨(tb.map (fun pb => pb.providers.length)).prod + totalTrips tb tis,
        { w1 with succeeded := w1.succeeded + 1 }, ?_, Or.inr ⟨h3, Or.inl ⟨calls, w1, ?_, hp, rfl⟩⟩⟩
      · intro fuel hf
        simp only [runSingleTest, htake, hloc, hrun' fuel hf]
      · rw [hcl, ← h1]
        have : (tb.map (fun pb => pb.providers.length)).prod - 1 + 1
            = (tb.map (fun pb => pb.providers.length)).prod := by omega
        rw [this, ← List.range_eq_range', totalTrips, tuples_eq, List.map_map]
        rfl
    · subst hb
      refine ⟨(tb.map (fun pb => pb.providers.length)).prod + totalTrips tb tis, w1, ?_,
        Or.inr ⟨h3, Or.inr ⟨calls, a, ha⟩⟩⟩
      intro fuel hf
      simp only [runSingleTest, htake, hloc, hrun' fuel hf]

theorem selectedProvider_mem {tb : List ProviderBucket} {cp : List Nat} {ti : Nat} {p : Provider}
    (h : selectedProvider tb cp ti = some p) : ∃ pb ∈ tb, p ∈ pb.providers := by
  simp only [selectedProvider] at h
  split at h
  · rename_i pb c hpb hc
    exact ⟨pb, List.getElem?_mem hpb, List.getElem?_mem h⟩
  · simp at h

theorem cacheCounts_eq (tb : List ProviderBucket) (cp : List Nat) :
    ∀ (tis counts : List Nat), cacheCounts tb cp tis = some counts →
      counts = tis.map (chosenCount tb cp) ∧
      ∀ c ∈ counts, ∃ pb ∈ tb, ∃ p ∈ pb.providers, c = p.count := by
  intro tis
  induction tis with
  | nil => intro counts h; simp [cacheCounts] at h; subst h; simp
  | cons ti tis ih =>
    intro counts h
    simp only [cacheCounts] at h
    split at h
    · rename_i p cs hp hcs
      simp at h
      subst h
      obtain ⟨h1, h2⟩ := ih cs hcs
      refine ⟨by simp [chosenCount, hp, h1], ?_⟩
      intro c hc
      rcases List.mem_cons.mp hc with rfl | hc
      · obtain ⟨pb, hpb, hmem⟩ := selectedProvider_mem hp
        exact ⟨pb, hpb, p, hmem, rfl⟩
      · exact h2 c hc
    · simp at h

/-- With no empty data set, the number of passes of the inner loops is the sum over the data
set tuples of the product of the element counts. -/
theorem totalTrips_eq_expectedVariants (tb : List ProviderBucket) (tis : List Nat)
    (hne : ∀ pb ∈ tb, 1 ≤ pb.providers.length) (htis : ∀ ti ∈ tis, ti < tb.length)
    (hdata : ∀ pb ∈ tb, ∀ p ∈ pb.providers, 1 ≤ p.count) :
    totalTrips tb tis = expectedVariants tb tis := by
  unfold totalTrips expectedVariants
  congr 1
  apply List.map_congr_left
  intro chosen hchosen
  have hpos : ∀ m ∈ tb.map (fun pb => pb.providers.length), 1 ≤ m := by
    intro m hm
    obtain ⟨pb, hpb, rfl⟩ := List.mem_map.mp hm
    exact hne pb hpb
  have hbox := (mem_tuples _ hpos chosen).mp hchosen
  rw [List.forall₂_map_right_iff] at hbox
  obtain ⟨counts, hcounts⟩ := cacheCounts_defined tb chosen hbox tis htis
  obtain ⟨h1, h2⟩ := cacheCounts_eq tb chosen tis counts hcounts
  have h3 : counts.map (fun c => max 1 c) = counts := by
    conv_rhs => rw [← List.map_id counts]
    apply List.map_congr_left
    intro c hc
    obtain ⟨pb, hpb, p, hp, rfl⟩ := h2 c hc
    have := hdata pb hpb p hp
    simp
    omega
  simp only [innerTrips, hcounts, h3]
  rw [h1]

/-- Claim C2: for a test whose argument types all have a bucket in a registry built by
`loadOneProvider`, whose data sets are all non-empty and whose every invocation returns,
`runSingleTest` returns after invoking the test once per combination: `variants` grows by the
sum, over the tuples of data sets (one per distinct argument type), of the product over the
arguments of the element count of the data set chosen for the type of that argument,
`succeeded` grows by 1 and `failed` is unchanged; for arity 0 that is one invocation. -/
theorem runSingleTest_counts_every_combination (reg : List ProviderBucket) (hreach : Reachable reg)
    (func : List Nat → Except Fault Unit) (arity typeCount : Nat) (argTypes : List String)
    (argTypeIndices : List Nat) (w : Worker)
    (harity : arity ≤ MAX_ARITY) (hlen : argTypeIndices.length = arity)
    (htlen : argTypes.length = typeCount) (htis : ∀ ti ∈ argTypeIndices, ti < typeCount)
    (hbuckets : ∀ t ∈ argTypes, findProvider reg t ≠ none)
    (hdata : ∀ t ∈ argTypes, ∀ pb, findProvider reg t = some pb → ∀ p ∈ pb.providers, 1 ≤ p.count)
    (hreturns : ∀ args, func args = Except.ok ()) :
    ∃ N w1,
      (∀ fuel, N ≤ fuel →
        runSingleTest reg fuel w func arity typeCount argTypes argTypeIndices = Run.done w1) ∧
      w1.variants
        = w.variants + expectedVariants (argTypes.filterMap (findProvider reg)) argTypeIndices ∧
      w1.succeeded = w.succeeded + 1 ∧
      w1.failed = w.failed ∧
      (∃ calls : List (List Nat), w1.log = w.log ++ calls.map Event.call ∧
        calls.length = expectedVariants (argTypes.filterMap (findProvider reg)) argTypeIndices) ∧
      (arity = 0 → typeCount = 0 → w1.variants = w.variants + 1) := by
  have hne := reachable_nonEmpty hreach
  obtain ⟨N, w1, hrun, hres⟩ := runSingleTest_run reg hne func arity typeCount argTypes
    argTypeIndices harity hlen htlen htis w
  have hmemtb : ∀ pb ∈ argTypes.filterMap (findProvider reg),
      ∃ t ∈ argTypes, findProvider reg t = some pb := by
    intro pb hpb
    obtain ⟨t, ht, h⟩ := List.mem_filterMap.mp hpb
    exact ⟨t, ht, h⟩
  have htblen : (argTypes.filterMap (findProvider reg)).length = typeCount := by
    rw [← htlen]
    clear htlen hdata hres hrun hmemtb
    induction argTypes with
    | nil => rfl
    | cons t ts ih =>
      cases hft : findProvider reg t with
      | none => exact absurd hft (hbuckets t (by simp))
      | some pb =>
        rw [List.filterMap_cons, hft]
        simp only [List.length_cons]
        rw [ih (fun u hu => hbuckets u (by simp [hu]))]
  have heq : totalTrips (argTypes.filterMap (findProvider reg)) argTypeIndices
      = expectedVariants (argTypes.filterMap (findProvider reg)) argTypeIndices := by
    apply totalTrips_eq_expectedVariants
    · intro pb hpb
      obtain ⟨t, _, h⟩ := hmemtb pb hpb
      exact hne pb (findProvider_some h).1
    · rw [htblen]; exact htis
    · intro pb hpb p hp
      obtain ⟨t, ht, h⟩ := hmemtb pb hpb
      exact hdata t ht pb h p hp
  rcases hres with ⟨t, ht, hnone, _⟩ | ⟨_, ⟨calls, w0, hcl, hp, hw1⟩ | ⟨calls, a, ha⟩⟩
  · exact absurd hnone (hbuckets t ht)
  · obtain ⟨p1, p2, p3, p4, p5, p6⟩ := hp
    subst hw1
    refine ⟨N, _, hrun, ?_, ?_, ?_, ⟨calls, ?_, ?_⟩, ?_⟩
    · simp [p3, hcl, heq]
    · simp [p4]
    · simp [p5]
    · simp [p1]
    · rw [hcl, heq]
    · intro h0 ht0
      subst h0 ht0
      have e1 : argTypeIndices = [] := List.length_eq_zero.mp hlen
      have e2 : argTypes = [] := List.length_eq_zero.mp htlen
      subst e1 e2
      simp [p3, hcl, totalTrips, tuples, innerTrips, cacheCounts]
  · obtain ⟨_, _, ⟨f, hf⟩, _⟩ := ha
    rw [hreturns a] at hf
    cases hf

/-- End-to-end scenario 6, from C2: with `a = {1, 2}`, `b = {3}` of `int32_t` and three
`uint16_t` elements, `TEST(t, int32_t, x, uint16_t, y)` is invoked 9 times. -/
theorem runSingleTest_counts_every_combination_witness :
    ∃ N w1,
      (∀ fuel, N ≤ fuel →
        runSingleTest (registryAfter scenario6Loads) fuel freshWorker passingTest 2 2
          ["int32_t", "uint16_t"] [0, 1] = Run.done w1) ∧
      w1.variants = 9 ∧ w1.succeeded = 1 ∧ w1.failed = 0 := by
  obtain ⟨N, w1, hrun, hv, hs, hf, _, _⟩ :=
    runSingleTest_counts_every_combination (registryAfter scenario6Loads) ⟨scenario6Loads, rfl⟩
      passingTest 2 2 ["int32_t", "uint16_t"] [0, 1] freshWorker (by decide) (by decide)
      (by decide) (by decide) (by decide) (by decide) (fun _ => rfl)
  refine ⟨N, w1, hrun, ?_, ?_, ?_⟩
  · rw [hv]; decide
  · rw [hs]; decide
  · rw [hf]; decide

/-- Claim C3, evaluation at the failing input: the registry holds one `int32_t` data set, and
it has no element; `runSingleTest` on a test with one `int32_t` argument still calls the
trampoline once, with the address of the (empty) buffer, and counts one variant and one
success. -/
theorem runSingleTest_empty_dataset_is_invoked :
    (registryAfter emptyDatasetLoads).map (fun pb => pb.providers.map (fun p => p.count)) = [[0]] ∧
    runSingleTest (registryAfter emptyDatasetLoads) 100 freshWorker passingTest 1 1 ["int32_t"] [0]
      = Run.done { variants := 1, succeeded := 1, failed := 0, jumpReady := false,
                   log := [Event.call [1000]] } := by
  constructor <;> decide

/-- Claim C4, counterexample: end-to-end scenario 3: the data set is `{1, 2, 3}` and the test
fails on its first element.  `runSingleTest` returns after that one invocation: `variants` is
1, not 3, and the elements at addresses 1004 and 1008 are never passed to the test. -/
theorem runSingleTest_stops_at_first_failure :
    (registryAfter scenario2Loads).map (fun pb => pb.providers.map (fun p => p.count)) = [[3]] ∧
    runSingleTest (registryAfter scenario2Loads) 100 freshWorker failsOnFirst 1 1 ["int32_t"] [0]
      = Run.done { variants := 1, succeeded := 0, failed := 1, jumpReady := false,
                   log := [Event.call [1000], Event.failedTest [0] [0]] } := by
  constructor <;> decide

/-- Claim C4, amended: when an invocation of a test fails under the fault guard,
`runSingleTest` increments `failed` once, prints the "Failed test" diagnostic and returns: the
failing call is the last one, `variants` counts the invocations up to and including it,
`succeeded` is unchanged and the guard is disarmed. -/
theorem runSingleTest_failure_ends_the_test (reg : List ProviderBucket) (hreach : Reachable reg)
    (func : List Nat → Except Fault Unit) (arity typeCount : Nat) (argTypes : List String)
    (argTypeIndices : List Nat) (w : Worker)
    (harity : arity ≤ MAX_ARITY) (hlen : argTypeIndices.length = arity)
    (htlen : argTypes.length = typeCount) (htis : ∀ ti ∈ argTypeIndices, ti < typeCount) :
    ∃ N w1,
      (∀ fuel, N ≤ fuel →
        runSingleTest reg fuel w func arity typeCount argTypes argTypeIndices = Run.done w1) ∧
      ((∃ a f, Event.call a ∈ w1.log.drop w.log.length ∧ func a = Except.error f) →
        ∃ (calls : List (List Nat)) (a : List Nat) (f : Fault) (cp ci : List Nat),
          w1.log = w.log ++ calls.map Event.call ++ [Event.call a, Event.failedTest cp ci] ∧
          (∀ c ∈ calls, func c = Except.ok ()) ∧
          func a = Except.error f ∧
          w1.variants = w.variants + calls.length + 1 ∧
          w1.failed = w.failed + 1 ∧
          w1.succeeded = w.succeeded ∧
          w1.jumpReady = false) := by
  obtain ⟨N, w1, hrun, hres⟩ := runSingleTest_run reg (reachable_nonEmpty hreach) func arity
    typeCount argTypes argTypeIndices harity hlen htlen htis w
  refine ⟨N, w1, hrun, ?_⟩
  rintro ⟨a, f, hmem, hfa⟩
  rcases hres with ⟨t, _, _, hw1⟩ | ⟨_, ⟨calls, w0, _, hp, hw1⟩ | ⟨calls, b, hab⟩⟩
  · subst hw1
    simp at hmem
  · subst hw1
    obtain ⟨p1, p2, _⟩ := hp
    simp only [p1, List.drop_left] at hmem
    obtain ⟨c, hc, hce⟩ := List.mem_map.mp hmem
    cases hce
    rw [p2 a hc] at hfa
    cases hfa
  · obtain ⟨⟨cp, ci, h1⟩, h2, ⟨g, h3⟩, h4, h5, h6, h7⟩ := hab
    exact ⟨calls, b, g, cp, ci, h1, h2, h3, h4, h6, h5, h7⟩

/-- End-to-end scenario 3, from the amended C4: the first invocation fails, it is the only
one, and it is counted in `variants` and in `failed`. -/
theorem runSingleTest_failure_ends_the_test_witness :
    ∃ w1,
      runSingleTest (registryAfter scenario2Loads) 100 freshWorker failsOnFirst 1 1 ["int32_t"] [0]
        = Run.done w1 ∧
      ∃ (calls : List (List Nat)) (a : List Nat) (f : Fault) (cp ci : List Nat),
        w1.log = freshWorker.log ++ calls.map Event.call ++ [Event.call a, Event.failedTest cp ci] ∧
        (∀ c ∈ calls, failsOnFirst c = Except.ok ()) ∧
        failsOnFirst a = Except.error f ∧
        w1.variants = freshWorker.variants + calls.length + 1 ∧
        w1.failed = freshWorker.failed + 1 ∧
        w1.succeeded = freshWorker.succeeded ∧
        w1.jumpReady = false := by
  obtain ⟨N, w1, hrun, himp⟩ :=
    runSingleTest_failure_ends_the_test (registryAfter scenario2Loads) ⟨scenario2Loads, rfl⟩
      failsOnFirst 1 1 ["int32_t"] [0] freshWorker (by decide) (by decide) (by decide) (by decide)
  have hconcrete : ∀ fuel, runSingleTest (registryAfter scenario2Loads) (fuel + 1) freshWorker
      failsOnFirst 1 1 ["int32_t"] [0]
        = Run.done { variants := 1, succeeded := 0, failed := 1, jumpReady := false,
                     log := [Event.call [1000], Event.failedTest [0] [0]] } := fun _ => rfl
  have hw1 : w1 = { variants := 1, succeeded := 0, failed := 1, jumpReady := false,
                    log := [Event.call [1000], Event.failedTest [0] [0]] } := by
    have h1 := hrun (N + 1) (by omega)
    rw [hconcrete N] at h1
    cases h1
    rfl
  have hfails : ∃ a f, Event.call a ∈ w1.log.drop freshWorker.log.length ∧
      failsOnFirst a = Except.error f :=
    ⟨[1000], Fault.testFailureCall, by rw [hw1]; decide, rfl⟩
  refine ⟨w1, ?_, himp hfails⟩
  rw [hw1]
  exact hconcrete 99

/-! ## The signature parser -/

theorem takeWhile_upto_nul (l rest : List Char) (h : NUL ∉ l) :
    (l ++ NUL :: rest).takeWhile (fun c => c ≠ NUL) = l := by
  induction l with
  | nil => simp [List.takeWhile]
  | cons c l ih =>
    have hc : c ≠ NUL := fun e => h (by simp [e])
    have hl : NUL ∉ l := fun e => h (by simp [e])
    simp only [List.cons_append, List.takeWhile_cons, decide_eq_true hc, if_true, ih hl]

theorem dropWhile_upto_nul (l rest : List Char) (h : NUL ∉ l) :
    (l ++ NUL :: rest).dropWhile (fun c => c ≠ NUL) = NUL :: rest := by
  induction l with
  | nil => simp [List.dropWhile]
  | cons c l ih =>
    have hc : c ≠ NUL := fun e => h (by simp [e])
    have hl : NUL ∉ l := fun e => h (by simp [e])
    simp only [List.cons_append, List.dropWhile_cons, decide_eq_true hc, if_true, ih hl]

theorem cString_upto_nul (t : String) (rest : List Char) (h : NUL ∉ t.toList) :
    cString (t.toList ++ NUL :: rest) = t := by
  simp only [cString, takeWhile_upto_nul _ _ h]
  rfl

theorem skipCString_upto_nul (t : String) (rest : List Char) (h : NUL ∉ t.toList) :
    skipCString (t.toList ++ NUL :: rest) = rest := by
  simp only [skipCString, dropWhile_upto_nul _ _ h]
  rfl

theorem encodeSignature_nil (rest : List Char) : encodeSignature [] rest = NUL :: rest := by
  simp [encodeSignature]

theorem encodeSignature_cons (p : String × String) (ps : List (String × String))
    (rest : List Char) :
    encodeSignature (p :: ps) rest
      = p.1.toList ++ NUL :: (p.2.toList ++ NUL :: encodeSignature ps rest) := by
  simp [encodeSignature, List.flatMap_cons, List.append_assoc]

theorem headD_encode_cons (p : String × String) (ps : List (String × String)) (rest : List Char)
    (hp : WellFormedPair p) : (encodeSignature (p :: ps) rest).headD NUL ≠ NUL := by
  rw [encodeSignature_cons]
  obtain ⟨h1, h2, _⟩ := hp
  cases hl : p.1.toList with
  | nil => exact absurd hl h1
  | cons c l =>
    rw [hl] at h2
    simp only [List.cons_append, List.headD_cons]
    intro e
    exact h2 (by simp [e])

/-- One pass of the parser loop over a well-formed pair. -/
theorem parseSignature_step (fuel : Nat) (p : String × String) (ps : List (String × String))
    (rest : List Char) (s : Signature) (hp : WellFormedPair p) (hs : s.arity < MAX_ARITY) :
    parseSignature (fuel + 1) (encodeSignature (p :: ps) rest) s
      = parseSignature fuel (encodeSignature ps rest) (addArgument s p) := by
  have hhead := headD_encode_cons p ps rest hp
  obtain ⟨_, h2, h3⟩ := hp
  have hnot : ¬ (s.arity ≥ MAX_ARITY) := by omega
  rw [parseSignature, if_neg hhead, if_neg hnot]
  rw [encodeSignature_cons]
  simp only [cString_upto_nul _ _ h2, skipCString_upto_nul _ _ h2, cString_upto_nul _ _ h3,
    skipCString_upto_nul _ _ h3]
  rfl

/-- A signature of at most `MAX_ARITY` pairs (counting those already read) is read to its
end. -/
theorem parseSignature_accepts (rest : List Char) :
    ∀ (pairs : List (String × String)) (s : Signature) (fuel : Nat),
      (∀ p ∈ pairs, WellFormedPair p) → s.arity + pairs.length ≤ MAX_ARITY →
      pairs.length + 1 ≤ fuel →
      parseSignature fuel (encodeSignature pairs rest) s = some (pairs.foldl addArgument s) := by
  intro pairs
  induction pairs with
  | nil =>
    intro s fuel _ _ hf
    obtain ⟨f, rfl⟩ : ∃ f, fuel = f + 1 := ⟨fuel - 1, by simp at hf; omega⟩
    simp [parseSignature, encodeSignature_nil]
  | cons p ps ih =>
    intro s fuel hwf hk hf
    obtain ⟨f, rfl⟩ : ∃ f, fuel = f + 1 := ⟨fuel - 1, by omega⟩
    simp only [List.length_cons] at hk hf
    rw [parseSignature_step f p ps rest s (hwf p (by simp)) (by omega)]
    rw [ih (addArgument s p) f (fun q hq => hwf q (by simp [hq]))
      (by simp [addArgument]; omega) (by omega)]
    rfl

/-- A signature with more than `MAX_ARITY` pairs (counting those already read) leaves the
loop through the arity check. -/
theorem parseSignature_rejects (rest : List Char) :
    ∀ (pairs : List (String × String)) (s : Signature) (fuel : Nat),
      (∀ p ∈ pairs, WellFormedPair p) → s.arity ≤ MAX_ARITY →
      MAX_ARITY < s.arity + pairs.length →
      parseSignature fuel (encodeSignature pairs rest) s = none := by
  intro pairs
  induction pairs with
  | nil => intro s fuel _ h1 h2; simp at h2; omega
  | cons p ps ih =>
    intro s fuel hwf h1 h2
    cases fuel with
    | zero => rfl
    | succ f =>
      by_cases hs : s.arity < MAX_ARITY
      · rw [parseSignature_step f p ps rest s (hwf p (by simp)) hs]
        apply ih _ _ (fun q hq => hwf q (by simp [hq]))
        · simp [addArgument]; omega
        · simp only [List.length_cons] at h2
          simp [addArgument]; omega
      · have hhead := headD_encode_cons p ps rest (hwf p (by simp))
        have hge : s.arity ≥ MAX_ARITY := by omega
        rw [parseSignature, if_neg hhead, if_pos hge]

theorem mem_firstOccurrences (ts : List String) (u : String) :
    u ∈ firstOccurrences ts ↔ u ∈ ts := by
  induction ts with
  | nil => simp [firstOccurrences]
  | cons t ts ih =>
    simp only [firstOccurrences, List.mem_cons, List.mem_filter, ih]
    by_cases h : u = t
    · simp [h]
    · simp [h]

theorem firstOccurrences_nodup (ts : List String) : (firstOccurrences ts).Nodup := by
  induction ts with
  | nil => simp [firstOccurrences]
  | cons t ts ih =>
    simp only [firstOccurrences, List.nodup_cons]
    exact ⟨by simp [List.mem_filter], ih.filter _⟩

theorem firstOccurrences_length_le (ts : List String) :
    (firstOccurrences ts).length ≤ ts.length := by
  induction ts with
  | nil => simp [firstOccurrences]
  | cons t ts ih =>
    simp only [firstOccurrences, List.length_cons]
    have := List.length_filter_le (fun u => decide (u ≠ t)) (firstOccurrences ts)
    omega

theorem firstOccurrences_concat (ts : List String) (t : String) :
    firstOccurrences (ts ++ [t])
      = if t ∈ ts then firstOccurrences ts else firstOccurrences ts ++ [t] := by
  induction ts with
  | nil => simp [firstOccurrences]
  | cons x ts ih =>
    rw [List.cons_append, firstOccurrences, ih]
    by_cases h : t ∈ ts
    · simp [h, firstOccurrences]
    · by_cases hx : t = x
      · subst hx
        simp [h, firstOccurrences, List.filter_append]
      · simp [h, hx, firstOccurrences, List.filter_append]

theorem parsed_empty : Parsed [] emptySignature := by
  simp [Parsed, emptySignature, firstOccurrences]

theorem parsed_addArgument (read : List (String × String)) (s : Signature)
    (p : String × String) (h : Parsed read s) : Parsed (read ++ [p]) (addArgument s p) := by
  obtain ⟨h1, h2, h3, h4, h5, h6⟩ := h
  have hcond : (s.argTypes.indexOf p.1 = s.typeCount) ↔ p.1 ∉ read.map Prod.fst := by
    rw [h4, List.indexOf_eq_length, h3, mem_firstOccurrences]
  have hfo : firstOccurrences ((read ++ [p]).map Prod.fst)
      = if s.argTypes.indexOf p.1 = s.typeCount then s.argTypes ++ [p.1] else s.argTypes := by
    rw [List.map_append, List.map_cons, List.map_nil, firstOccurrences_concat, h3]
    by_cases hm : p.1 ∈ read.map Prod.fst
    · have : ¬ (List.indexOf p.1 (firstOccurrences (read.map Prod.fst)) = s.typeCount) := by
        rw [← h3]; exact fun e => (hcond.mp e) hm
      simp only [hm, if_true, this, if_false]
    · have : List.indexOf p.1 (firstOccurrences (read.map Prod.fst)) = s.typeCount := by
        rw [← h3]; exact hcond.mpr hm
      simp only [hm, if_false, this, if_true]
  refine ⟨by simp [addArgument, h1], by simp [addArgument, h2], ?_, ?_, by simp [addArgument, h5],
    ?_⟩
  · rw [hfo]; rfl
  · simp only [addArgument]
    split <;> simp [h4]
  · intro i hi
    simp only [List.length_append, List.length_cons, List.length_nil] at hi
    by_cases hlt : i < read.length
    · obtain ⟨ti, a1, a2, a3⟩ := h6 i hlt
      refine ⟨ti, ?_, ?_, ?_⟩
      · simp only [addArgument]
        rw [List.getElem?_append_left (by omega)]
        exact a1
      · simp only [addArgument]
        split <;> omega
      · simp only [addArgument]
        have hti : ti < s.argTypes.length := by omega
        have e : (read ++ [p])[i] = read[i] := List.getElem_append_left hlt
        rw [e]
        split
        · rw [List.getElem?_append_left hti]; exact a3
        · exact a3
    · have hi' : i = read.length := by omega
      subst hi'
      refine ⟨s.argTypes.indexOf p.1, ?_, ?_, ?_⟩
      · simp only [addArgument]
        rw [← h5, List.getElem?_concat_length]
      · simp only [addArgument]
        have := @List.indexOf_le_length _ _ p.1 s.argTypes
        split <;> omega
      · have e : (read ++ [p])[read.length] = p := by simp
        rw [e]
        simp only [addArgument]
        split
        · rename_i hc
          rw [hc, h4, List.getElem?_concat_length]
        · rename_i hc
          have hmem : p.1 ∈ s.argTypes := by
            rw [← List.indexOf_lt_length]
            have := @List.indexOf_le_length _ _ p.1 s.argTypes
            omega
          simpa using List.indexOf_get? hmem

theorem parsed_foldl (pairs : List (String × String)) :
    ∀ (read : List (String × String)) (s : Signature), Parsed read s →
      Parsed (read ++ pairs) (pairs.foldl addArgument s) := by
  induction pairs with
  | nil => intro read s h; simpa using h
  | cons p ps ih =>
    intro read s h
    have := ih (read ++ [p]) (addArgument s p) (parsed_addArgument read s p h)
    simpa using this

/-- Claim C7: for a signature string of `k ≤ MAX_ARITY` (type, name) pairs with non-empty type
names (and no zero byte inside a name), the parser of `runTests` computes `arity = k`, the
argument names in order, `argTypes[0..typeCount)` = the distinct type names in the order of
their first occurrence (pairwise different, `typeCount ≤ arity`), and for every argument `i`
an index `argTypeIndices[i] < typeCount` with `argTypes[argTypeIndices[i]]` equal to its type
name. -/
theorem parseSignature_correct (pairs : List (String × String)) (rest : List Char)
    (hk : pairs.length ≤ MAX_ARITY) (hwf : ∀ p ∈ pairs, WellFormedPair p) :
    ∃ sg, parseSignature (MAX_ARITY + 1) (encodeSignature pairs rest) emptySignature = some sg ∧
      sg.arity = pairs.length ∧
      sg.argNames = pairs.map Prod.snd ∧
      sg.argTypes = firstOccurrences (pairs.map Prod.fst) ∧
      sg.typeCount = sg.argTypes.length ∧
      sg.argTypes.Nodup ∧
      (∀ t, t ∈ sg.argTypes ↔ t ∈ pairs.map Prod.fst) ∧
      sg.typeCount ≤ sg.arity ∧
      sg.argTypeIndices.length = sg.arity ∧
      ∀ i (hi : i < pairs.length), ∃ ti, sg.argTypeIndices[i]? = some ti ∧
        ti < sg.typeCount ∧ sg.argTypes[ti]? = some (pairs[i]).1 := by
  have hparse := parseSignature_accepts rest pairs emptySignature (MAX_ARITY + 1) hwf
    (by simp [emptySignature]; exact hk) (by omega)
  have hP := parsed_foldl pairs [] emptySignature parsed_empty
  simp only [List.nil_append] at hP
  obtain ⟨h1, h2, h3, h4, h5, h6⟩ := hP
  refine ⟨_, hparse, h1, h2, h3, h4, ?_, ?_, ?_, ?_, h6⟩
  · rw [h3]; exact firstOccurrences_nodup _
  · intro t; rw [h3]; exact mem_firstOccurrences _ t
  · rw [h4, h3, h1]
    simpa using firstOccurrences_length_le (pairs.map Prod.fst)
  · rw [h5, h1]

/-- The signature of `TEST(t, int32_t, x, uint16_t, y, int32_t, z)`, from C7. -/
theorem parseSignature_correct_witness :
    ∃ sg, parseSignature (MAX_ARITY + 1)
        (encodeSignature [("int32_t", "x"), ("uint16_t", "y"), ("int32_t", "z")] [])
        emptySignature = some sg ∧
      sg.arity = 3 ∧ sg.argNames = ["x", "y", "z"] ∧ sg.argTypes = ["int32_t", "uint16_t"] ∧
      sg.typeCount = 2 ∧ sg.argTypeIndices.length = 3 := by
  obtain ⟨sg, h0, h1, h2, h3, h4, _, _, _, h8, _⟩ :=
    parseSignature_correct [("int32_t", "x"), ("uint16_t", "y"), ("int32_t", "z")] []
      (by decide) (by decide)
  refine ⟨sg, h0, h1, h2, ?_, ?_, ?_⟩
  · rw [h3]; decide
  · rw [h4, h3]; decide
  · rw [h8, h1]; rfl

/-! ## `runTests` -/

/-- Whatever memory the parser reads, the variables it hands to `runSingleTest` are in
shape. -/
theorem parseSignature_ok :
    ∀ (fuel : Nat) (cur : List Char) (s sg : Signature), SignatureOk s →
      parseSignature fuel cur s = some sg → SignatureOk sg := by
  intro fuel
  induction fuel with
  | zero => intro cur s sg _ h; simp [parseSignature] at h
  | succ f ih =>
    intro cur s sg hs h
    rw [parseSignature] at h
    split at h
    · simp at h; subst h; exact hs
    · split at h
      · simp at h
      · rename_i hge
        refine ih _ _ sg ?_ h
        obtain ⟨h1, h2, h3, h4⟩ := hs
        have hle := @List.indexOf_le_length _ _ (cString cur) s.argTypes
        refine ⟨by simp only; omega, by simp [h2], ?_, ?_⟩
        · simp only
          split <;> simp [h3]
        · intro ti hti
          simp only [List.mem_append, List.mem_singleton] at hti
          simp only
          rcases hti with hti | rfl
          · have := h4 ti hti
            split <;> omega
          · split <;> omega

theorem signatureOk_empty : SignatureOk emptySignature := by
  simp [SignatureOk, emptySignature]

theorem locateBuckets_missing (reg : List ProviderBucket) :
    ∀ ts : List String, (∃ t ∈ ts, findProvider reg t = none) →
      ∃ u, locateBuckets reg ts = Except.error u := by
  intro ts h
  cases hloc : locateBuckets reg ts with
  | error u => exact ⟨u, rfl⟩
  | ok tb =>
    obtain ⟨t, ht, hnone⟩ := h
    exact absurd hnone ((locateBuckets_ok hloc).2.2.1 t ht)

/-- One pass of the symbol loop: a symbol that is not a test sentinel changes nothing; a test
sentinel adds exactly 1 to exactly one of `succeeded` and `failed`. -/
theorem runSymbol_run (h : Handle) (reg : List ProviderBucket) (hne : BucketsNonEmpty reg)
    (w : Worker) (s : Symbol) :
    ∃ N w1,
      (∀ fuel, N ≤ fuel → runSymbol h reg fuel w s = Run.done w1) ∧
      ((isTestSymbol s.name = false ∧ w1 = w) ∨
       (isTestSymbol s.name = true ∧
         ((w1.succeeded = w.succeeded + 1 ∧ w1.failed = w.failed) ∨
          (w1.succeeded = w.succeeded ∧ w1.failed = w.failed + 1)))) := by
  cases htest : isTestSymbol s.name with
  | false =>
    exact ⟨0, w, fun fuel _ => by simp [runSymbol, htest], Or.inl ⟨rfl, rfl⟩⟩
  | true =>
    cases hfn : h.testFunction (String.mk (s.name.toList.drop 4)) with
    | none =>
      refine ⟨0, { w with failed := w.failed + 1,
                          log := w.log ++ [Event.missingFunction s.name] },
        fun fuel _ => by simp only [runSymbol, htest, hfn, if_true],
        Or.inr ⟨rfl, Or.inr ⟨rfl, rfl⟩⟩⟩
    | some func =>
      cases hparse : parseSignature (MAX_ARITY + 1) s.sig emptySignature with
      | none =>
        refine ⟨0, { w with failed := w.failed + 1,
                            log := w.log ++ [Event.arityTooLarge s.name] },
          fun fuel _ => by simp only [runSymbol, htest, hfn, hparse, if_true],
          Or.inr ⟨rfl, Or.inr ⟨rfl, rfl⟩⟩⟩
      | some sg =>
        obtain ⟨h1, h2, h3, h4⟩ := parseSignature_ok _ _ _ sg signatureOk_empty hparse
        obtain ⟨N, w1, hrun, hres⟩ := runSingleTest_run reg hne func sg.arity sg.typeCount
          sg.argTypes sg.argTypeIndices h1 h2 h3 h4 w
        refine ⟨N, w1, fun fuel hf => by
          simp only [runSymbol, htest, hfn, hparse, if_true]; exact hrun fuel hf, Or.inr ⟨rfl, ?_⟩⟩
        rcases hres with ⟨t, _, _, hw1⟩ | ⟨_, ⟨calls, w0, _, hp, hw1⟩ | ⟨calls, a, ha⟩⟩
        · subst hw1
          exact Or.inr ⟨rfl, rfl⟩
        · subst hw1
          obtain ⟨_, _, _, p4, p5, _⟩ := hp
          exact Or.inl ⟨by simp [p4], by simp [p5]⟩
        · obtain ⟨_, _, _, _, a5, a6, _⟩ := ha
          exact Or.inr ⟨a5, a6⟩

/-- The symbol loop over any list of entries. -/
theorem runSymbols_run (h : Handle) (reg : List ProviderBucket) (hne : BucketsNonEmpty reg) :
    ∀ (symbols : List Symbol) (w : Worker),
      ∃ N w1,
        (∀ fuel, N ≤ fuel → runSymbols h reg fuel symbols w = Run.done w1) ∧
        w1.succeeded + w1.failed
          = w.succeeded + w.failed + (symbols.filter (fun s => isTestSymbol s.name)).length := by
  intro symbols
  induction symbols with
  | nil => intro w; exact ⟨0, w, fun _ _ => rfl, by simp⟩
  | cons s rest ih =>
    intro w
    obtain ⟨N1, w1, hrun1, hres1⟩ := runSymbol_run h reg hne w s
    obtain ⟨N2, w2, hrun2, hres2⟩ := ih w1
    refine ⟨N1 + N2, w2, ?_, ?_⟩
    · intro fuel hf
      simp only [runSymbols, hrun1 fuel (by omega)]
      exact hrun2 fuel (by omega)
    · rcases hres1 with ⟨ht, hw⟩ | ⟨ht, hc⟩
      · subst hw
        simp [List.filter_cons, ht, hres2]
      · simp only [List.filter_cons, ht, if_true, List.length_cons]
        rcases hc with ⟨c1, c2⟩ | ⟨c1, c2⟩ <;> omega

/-- Claim C6: a test precondition error counts exactly one failure and runs no variant: for a
test sentinel whose signature string holds the given pairs, if the trampoline is missing, or
the signature has more than `MAX_ARITY = 8` pairs, or some argument type has no bucket, the
pass of the symbol loop adds 1 to `failed`, leaves `variants` and `succeeded` unchanged and
only prints one diagnostic; and the signature is rejected for its arity exactly when it has
more than 8 pairs. -/
theorem precondition_error_counts_one_failure (h : Handle) (reg : List ProviderBucket)
    (fuel : Nat) (w : Worker) (name : String) (size : Nat) (pairs : List (String × String))
    (rest : List Char) (htest : isTestSymbol name = true) (hwf : ∀ p ∈ pairs, WellFormedPair p) :
    ((h.testFunction (String.mk (name.toList.drop 4)) = none ∨ MAX_ARITY < pairs.length ∨
        (∃ t ∈ pairs.map Prod.fst, findProvider reg t = none)) →
      ∃ w1 e,
        runSymbol h reg fuel w { name := name, size := size, sig := encodeSignature pairs rest }
          = Run.done w1 ∧
        w1.failed = w.failed + 1 ∧ w1.variants = w.variants ∧ w1.succeeded = w.succeeded ∧
        w1.log = w.log ++ [e] ∧ ∀ a, e ≠ Event.call a) ∧
    (parseSignature (MAX_ARITY + 1) (encodeSignature pairs rest) emptySignature = none
      ↔ MAX_ARITY < pairs.length) := by
  have hiff : parseSignature (MAX_ARITY + 1) (encodeSignature pairs rest) emptySignature = none
      ↔ MAX_ARITY < pairs.length := by
    constructor
    · intro hnone
      by_contra hle
      rw [parseSignature_accepts rest pairs emptySignature (MAX_ARITY + 1) hwf
        (by simp [emptySignature]; omega) (by omega)] at hnone
      cases hnone
    · intro hgt
      exact parseSignature_rejects rest pairs emptySignature _ hwf (by simp [emptySignature])
        (by simp [emptySignature]; exact hgt)
  refine ⟨?_, hiff⟩
  intro hpre
  cases hfn : h.testFunction (String.mk (name.toList.drop 4)) with
  | none =>
    refine ⟨{ w with failed := w.failed + 1, log := w.log ++ [Event.missingFunction name] },
      Event.missingFunction name, ?_, rfl, rfl, rfl, rfl, fun a => by simp⟩
    simp only [runSymbol, htest, hfn, if_true]
  | some func =>
    by_cases hgt : MAX_ARITY < pairs.length
    · refine ⟨{ w with failed := w.failed + 1, log := w.log ++ [Event.arityTooLarge name] },
        Event.arityTooLarge name, ?_, rfl, rfl, rfl, rfl, fun a => by simp⟩
      simp only [runSymbol, htest, hfn, hiff.mpr hgt, if_true]
    · rcases hpre with hno | hgt' | hmiss
      · rw [hfn] at hno; cases hno
      · exact absurd hgt' hgt
      · have hsg := parseSignature_accepts rest pairs emptySignature (MAX_ARITY + 1) hwf
          (by simp [emptySignature]; omega) (by omega)
        obtain ⟨_, _, h3, h4, _, _⟩ := parsed_foldl pairs [] emptySignature parsed_empty
        simp only [List.nil_append] at h3
        generalize pairs.foldl addArgument emptySignature = sg at hsg h3 h4
        obtain ⟨t, ht, hnone⟩ := hmiss
        have htake : sg.argTypes.take sg.typeCount = sg.argTypes := by rw [h4]; simp
        have hmem : t ∈ sg.argTypes := by
          rw [h3]; exact (mem_firstOccurrences _ t).mpr ht
        obtain ⟨u, hu⟩ := locateBuckets_missing reg sg.argTypes ⟨t, hmem, hnone⟩
        refine ⟨{ w with failed := w.failed + 1, log := w.log ++ [Event.noProvider u] },
          Event.noProvider u, ?_, rfl, rfl, rfl, rfl, fun a => by simp⟩
        simp only [runSymbol, htest, hfn, hsg, if_true, runSingleTest, htake, hu]

/-- End-to-end scenario 5, from C6: a test with a `struct_foo` argument and no provider of
that type counts one failure and no variant. -/
theorem precondition_error_counts_one_failure_witness :
    ∃ w1 e,
      runSymbol exampleHandle (registryAfter scenario2Loads) 100 freshWorker
          { name := "_SIG_TEST_pos", size := 0, sig := encodeSignature [("struct_foo", "y")] [] }
        = Run.done w1 ∧
      w1.failed = freshWorker.failed + 1 ∧ w1.variants = freshWorker.variants ∧
      w1.succeeded = freshWorker.succeeded ∧
      w1.log = freshWorker.log ++ [e] ∧ ∀ a, e ≠ Event.call a :=
  (precondition_error_counts_one_failure exampleHandle (registryAfter scenario2Loads) 100
    freshWorker "_SIG_TEST_pos" 0 [("struct_foo", "y")] [] (by decide) (by decide)).1
    (Or.inr (Or.inr ⟨"struct_foo", by decide, by decide⟩))

/-! ## The symbol count from `DT_GNU_HASH` -/

theorem findProvider_appendToBucket_same (type : String) (p : Provider) :
    ∀ (reg : List ProviderBucket) (b : ProviderBucket), findProvider reg type = some b →
      findProvider (appendToBucket type p reg) type
        = some { b with providers := b.providers ++ [p] } := by
  intro reg
  induction reg with
  | nil => intro b h; simp [findProvider] at h
  | cons x next ih =>
    intro b h
    simp only [findProvider] at h
    by_cases hx : x.type = type
    · simp only [hx, if_true, Option.some.injEq] at h
      subst h
      simp [appendToBucket, hx, findProvider]
    · simp only [hx, if_false] at h
      simp [appendToBucket, hx, findProvider, ih b h]

theorem findProvider_appendToBucket_other (type other : String) (p : Provider)
    (hne : other ≠ type) :
    ∀ reg : List ProviderBucket,
      findProvider (appendToBucket type p reg) other = findProvider reg other := by
  intro reg
  induction reg with
  | nil => simp [appendToBucket]
  | cons x next ih =>
    by_cases hx : x.type = type
    · have hxo : ¬ (x.type = other) := fun e => hne (e ▸ hx)
      simp [appendToBucket, hx, findProvider, hne.symm]
    · by_cases hxo : x.type = other
      · simp only [appendToBucket, if_neg hx, findProvider, if_pos hxo]
      · simp only [appendToBucket, if_neg hx, findProvider, if_neg hxo, ih]

/-- The call of `loadOneProvider` reduces to `storeDataset` once the symbols resolve, both
provider calls return and the buffer is allocated. -/
theorem loadOneProvider_eq_store (h : Handle) (al : Allocations) (dlName spn : String)
    (size : Nat) (ld : Loader) (type : String) (prov : Nat → Except Fault Nat)
    (fmt n0 m buf : Nat)
    (htype : h.typeName (String.mk (spn.toList.drop 7)) = some type)
    (hprov : h.providerFunction (String.mk (spn.toList.drop 17)) = some prov)
    (hfmt : h.formatter (formatterName type) = some fmt)
    (hquery : prov 0 = Except.ok n0) (hbuf : al.buf = some buf)
    (hfill : prov (if n0 = 0 then FALLBACK_VARIANT_COUNT else n0) = Except.ok m) :
    loadOneProvider h al dlName spn size ld
      = storeDataset al dlName (String.mk (spn.toList.drop 17)) type fmt size
          (if n0 = 0 then FALLBACK_VARIANT_COUNT else n0) m buf
          { ld with jumpReady := false,
                    providerCalls := ld.providerCalls
                      ++ [0, if n0 = 0 then FALLBACK_VARIANT_COUNT else n0] } := by
  simp only [loadOneProvider, htype, hprov, hfmt, hquery, hbuf, hfill]

/-- Claim C9: for a provider whose symbols resolve and whose two calls return normally (the
buffer for the second one being allocated), `loadOneProvider` calls the provider twice: the
size query `prov(0, NULL) = n0` and the fill call with the capacity `cap = 50` if `n0 = 0`
and `cap = n0` otherwise.  If the fill call returns `m > cap` the data set is
rejected and the registry is unchanged; if `m ≤ cap`, the element sizes agree and the
registry can be grown, exactly one data set, of count `m ≤ cap`, is appended to the bucket of
its type (a new bucket when there was none), every other bucket being untouched. -/
theorem loadOneProvider_capacity (h : Handle) (al : Allocations) (dlName spn : String)
    (size : Nat) (ld : Loader) (type : String) (prov : Nat → Except Fault Nat)
    (fmt n0 m buf : Nat)
    (htype : h.typeName (String.mk (spn.toList.drop 7)) = some type)
    (hprov : h.providerFunction (String.mk (spn.toList.drop 17)) = some prov)
    (hfmt : h.formatter (formatterName type) = some fmt)
    (hquery : prov 0 = Except.ok n0) (hbuf : al.buf = some buf)
    (hfill : prov (if n0 = 0 then 50 else n0) = Except.ok m) :
    (loadOneProvider h al dlName spn size ld).2.providerCalls
      = ld.providerCalls ++ [0, if n0 = 0 then 50 else n0] ∧
    (m > (if n0 = 0 then 50 else n0) →
      (loadOneProvider h al dlName spn size ld).1 = false ∧
      (loadOneProvider h al dlName spn size ld).2.registry = ld.registry) ∧
    (m ≤ (if n0 = 0 then 50 else n0) →
      (∀ b, findProvider ld.registry type = some b → b.elementSize = size) →
      al.bucket = true → al.grow = true →
      (loadOneProvider h al dlName spn size ld).1 = true ∧
      ∃ p : Provider, p.count = m ∧ p.count ≤ (if n0 = 0 then 50 else n0) ∧
        findProvider (loadOneProvider h al dlName spn size ld).2.registry type
          = some { type := type, elementSize := size,
                   providers := (match findProvider ld.registry type with
                     | some b => b.providers
                     | none => []) ++ [p] } ∧
        (∀ other, other ≠ type →
          findProvider (loadOneProvider h al dlName spn size ld).2.registry other
            = findProvider ld.registry other)) := by
  have hstore := loadOneProvider_eq_store h al dlName spn size ld type prov fmt n0 m buf htype
    hprov hfmt hquery hbuf hfill
  simp only [FALLBACK_VARIANT_COUNT] at hstore
  rw [hstore]
  refine ⟨?_, ?_, ?_⟩
  · rcases storeDataset_cases al dlName (String.mk (spn.toList.drop 17)) type fmt size
        (if n0 = 0 then 50 else n0) m buf
        { ld with jumpReady := false,
                  providerCalls := ld.providerCalls ++ [0, if n0 = 0 then 50 else n0] } with
      (h1 | h1) | ⟨_, ⟨_, h1⟩ | ⟨_, _, _, h1⟩⟩
    · rw [h1]
    · rw [h1]; rfl
    · rw [h1]
    · rw [h1]
  · intro hgt
    simp [storeDataset, hgt]
  · intro hle hsize hbucket hgrow
    have hngt : ¬ (m > (if n0 = 0 then 50 else n0)) := by omega
    have hcount := storedProvider_count al dlName (String.mk (spn.toList.drop 17)) fmt size
      (if n0 = 0 then 50 else n0) m buf hle
    cases hf : findProvider ld.registry type with
    | none =>
      simp only [storeDataset, if_neg hngt, hf, hbucket, hgrow]
      refine ⟨by simp, _, hcount, by rw [hcount]; exact hle, by simp [findProvider], ?_⟩
      intro other hne
      simp [findProvider, hne.symm]
    | some b =>
      have hsz : ¬ (b.elementSize ≠ size) := by simp [hsize b hf]
      have htypeb := (findProvider_some hf).2
      simp only [storeDataset, if_neg hngt, hf, if_neg hsz, hgrow]
      refine ⟨by simp, _, hcount, by rw [hcount]; exact hle, ?_, ?_⟩
      · simp only [Bool.true_eq_false, if_false]
        rw [findProvider_appendToBucket_same type _ ld.registry b hf]
        simp [← htypeb, ← hsize b hf]
      · intro other hne
        simp only [Bool.true_eq_false, if_false]
        exact findProvider_appendToBucket_other type other _ hne ld.registry

/-- Two loads into the empty registry, from C9: `gen` has no preferred count, is offered 50
elements and fills 7, which are stored; `over` is offered 1 element, reports 2 and is
rejected. -/
theorem loadOneProvider_capacity_witness :
    (loadOneProvider exampleHandle (exampleAllocations 1000) "tester.so" "_SIZEOF_PROVIDER_gen" 2
        emptyLoader).2.providerCalls = [0, 50] ∧
    ((loadOneProvider exampleHandle (exampleAllocations 1000) "tester.so" "_SIZEOF_PROVIDER_gen" 2
        emptyLoader).1 = true ∧
      ∃ p : Provider, p.count = 7 ∧ p.count ≤ 50 ∧
        findProvider (loadOneProvider exampleHandle (exampleAllocations 1000) "tester.so"
            "_SIZEOF_PROVIDER_gen" 2 emptyLoader).2.registry "uint16_t"
          = some { type := "uint16_t", elementSize := 2, providers := [] ++ [p] } ∧
        (∀ other, other ≠ "uint16_t" →
          findProvider (loadOneProvider exampleHandle (exampleAllocations 1000) "tester.so"
              "_SIZEOF_PROVIDER_gen" 2 emptyLoader).2.registry other
            = findProvider emptyLoader.registry other)) ∧
    ((loadOneProvider exampleHandle (exampleAllocations 1000) "tester.so" "_SIZEOF_PROVIDER_over" 2
        emptyLoader).1 = false ∧
      (loadOneProvider exampleHandle (exampleAllocations 1000) "tester.so" "_SIZEOF_PROVIDER_over" 2
        emptyLoader).2.registry = emptyLoader.registry) :=
  ⟨(loadOneProvider_capacity exampleHandle (exampleAllocations 1000) "tester.so"
      "_SIZEOF_PROVIDER_gen" 2 emptyLoader "uint16_t" generatingProvider 7100 0 7 1000
      (by decide) rfl (by decide) rfl (by decide) rfl).1,
   (loadOneProvider_capacity exampleHandle (exampleAllocations 1000) "tester.so"
      "_SIZEOF_PROVIDER_gen" 2 emptyLoader "uint16_t" generatingProvider 7100 0 7 1000
      (by decide) rfl (by decide) rfl (by decide) rfl).2.2
      (by decide) (fun b hb => by simp [emptyLoader, findProvider] at hb) (by decide) (by decide),
   (loadOneProvider_capacity exampleHandle (exampleAllocations 1000) "tester.so"
      "_SIZEOF_PROVIDER_over" 2 emptyLoader "uint16_t" overfillingProvider 7100 1 2 1000
      (by decide) rfl (by decide) rfl (by decide) rfl).2.1 (by decide)⟩

theorem storedProvider_length (al : Allocations) (dlName name : String) (fmt size n m buf : Nat)
    (hmn : m ≤ n) (hno : n * size < SIZE_RANGE) :
    (m = n → (storedProvider al dlName name fmt size n m buf).dataFreed = false ∧
      (storedProvider al dlName name fmt size n m buf).dataLen = m * size) ∧
    (m < n → 0 < m * size → al.shrink ≠ none →
      (storedProvider al dlName name fmt size n m buf).dataFreed = false ∧
      (storedProvider al dlName name fmt size n m buf).dataLen = m * size) ∧
    (m < n → 0 < m * size → al.shrink = none →
      (storedProvider al dlName name fmt size n m buf).dataFreed = false ∧
      (storedProvider al dlName name fmt size n m buf).dataLen = n * size) ∧
    (m < n → m * size = 0 →
      (storedProvider al dlName name fmt size n m buf).dataFreed = true) := by
  have hm : m * size < SIZE_RANGE := lt_of_le_of_lt (Nat.mul_le_mul_right size hmn) hno
  refine ⟨?_, ?_, ?_, ?_⟩
  · intro h
    subst h
    simp [storedProvider, shrinkReleases, Nat.mod_eq_of_lt hno]
  · intro hlt hpos hs
    have hne : m * size ≠ 0 := by omega
    cases hsh : al.shrink with
    | none => exact absurd hsh hs
    | some r => simp [storedProvider, shrinkReleases, hlt, Nat.mod_eq_of_lt hm, hne, hsh]
  · intro hlt hpos hs
    have hne : m * size ≠ 0 := by omega
    simp [storedProvider, shrinkReleases, hlt, Nat.mod_eq_of_lt hm, Nat.mod_eq_of_lt hno, hne, hs]
  · intro hlt hz
    simp [storedProvider, shrinkReleases, hlt, hz]

theorem appendToBucket_satisfy (Good : String → Nat → Provider → Prop) (type : String)
    (p : Provider) :
    ∀ reg : List ProviderBucket, DatasetsSatisfy Good reg →
      (∀ b, findProvider reg type = some b → Good b.type b.elementSize p) →
      DatasetsSatisfy Good (appendToBucket type p reg) := by
  intro reg
  induction reg with
  | nil => intro h _; simpa [appendToBucket] using h
  | cons x next ih =>
    intro hinv hp
    have hx : ∀ d ∈ x.providers, Good x.type x.elementSize d := hinv x (by simp)
    have hnext : DatasetsSatisfy Good next := fun b hb => hinv b (by simp [hb])
    by_cases hxt : x.type = type
    · have hpx : Good x.type x.elementSize p := hp x (by simp [findProvider, hxt])
      simp only [appendToBucket, if_pos hxt]
      intro b hb d hd
      rcases List.mem_cons.mp hb with rfl | hb
      · simp only [List.mem_append, List.mem_singleton] at hd
        rcases hd with hd | rfl
        · exact hx d hd
        · exact hpx
      · exact hnext b hb d hd
    · simp only [appendToBucket, if_neg hxt]
      have ih' := ih hnext (fun b hb => hp b (by simpa [findProvider, hxt] using hb))
      intro b hb d hd
      rcases List.mem_cons.mp hb with rfl | hb
      · exact hx d hd
      · exact ih' b hb d hd

theorem storeDataset_satisfy (Good : String → Nat → Provider → Prop) (al : Allocations)
    (dlName name type : String) (fmt size n m buf : Nat) (ld : Loader)
    (hinv : DatasetsSatisfy Good ld.registry)
    (hp : m ≤ n → Good type size (storedProvider al dlName name fmt size n m buf)) :
    DatasetsSatisfy Good (storeDataset al dlName name type fmt size n m buf ld).2.registry := by
  rcases storeDataset_cases al dlName name type fmt size n m buf ld with
    (h1 | h1) | ⟨hmn, ⟨_, h1⟩ | ⟨b, hb, hsize, h1⟩⟩
  · rw [h1]; exact hinv
  · rw [h1]; exact hinv
  · rw [h1]
    intro x hx d hd
    rcases List.mem_cons.mp hx with rfl | hx
    · simp only [List.mem_singleton] at hd
      subst hd
      exact hp hmn
    · exact hinv x hx d hd
  · rw [h1]
    apply appendToBucket_satisfy Good type _ ld.registry hinv
    intro b1 hb1
    rw [hb] at hb1
    cases hb1
    rw [hsize, (findProvider_some hb).2]
    exact hp hmn

/-- A call of `loadOneProvider` either leaves the registry as it was, or ends in `storeDataset`
with the symbols resolved, the capacity derived from the size query of the provider function
and the count returned by the filling call. -/
theorem loadOneProvider_cases_capacity (hd : Handle) (al : Allocations) (dlName spn : String)
    (size : Nat) (ld : Loader) :
    (loadOneProvider hd al dlName spn size ld).2.registry = ld.registry ∨
    ∃ type fmt prov n0 m buf,
      hd.typeName (String.mk (spn.toList.drop 7)) = some type ∧
      hd.providerFunction (String.mk (spn.toList.drop 17)) = some prov ∧
      hd.formatter (formatterName type) = some fmt ∧
      prov 0 = Except.ok n0 ∧
      al.buf = some buf ∧
      prov (if n0 = 0 then FALLBACK_VARIANT_COUNT else n0) = Except.ok m ∧
      loadOneProvider hd al dlName spn size ld
        = storeDataset al dlName (String.mk (spn.toList.drop 17)) type fmt size
            (if n0 = 0 then FALLBACK_VARIANT_COUNT else n0) m buf
            { ld with jumpReady := false,
                      providerCalls := ld.providerCalls
                        ++ [0, if n0 = 0 then FALLBACK_VARIANT_COUNT else n0] } := by
  cases h1 : hd.typeName (String.mk (spn.toList.drop 7)) with
  | none => left; simp only [loadOneProvider, h1]
  | some type =>
    cases h2 : hd.providerFunction (String.mk (spn.toList.drop 17)) with
    | none => left; simp only [loadOneProvider, h1, h2]
    | some prov =>
      cases h3 : hd.formatter (formatterName type) with
      | none => left; simp only [loadOneProvider, h1, h2, h3]
      | some fmt =>
        cases h4 : prov 0 with
        | error f => left; simp only [loadOneProvider, h1, h2, h3, h4]
        | ok n0 =>
          cases h5 : al.buf with
          | none => left; simp only [loadOneProvider, h1, h2, h3, h4, h5]
          | some buf =>
            cases h6 : prov (if n0 = 0 then FALLBACK_VARIANT_COUNT else n0) with
            | error f => left; simp only [loadOneProvider, h1, h2, h3, h4, h5, h6]
            | ok m =>
              right
              refine ⟨type, fmt, prov, n0, m, buf, rfl, rfl, h3, h4, rfl, h6, ?_⟩
              simp only [loadOneProvider, h1, h2, h3, h4, h5, h6]

/-- Every data set of the registry was stored by one of the calls, into the bucket of its type
and with the element size of that bucket. -/
theorem loadAll_stored (S : LoadCall → Prop) (calls : List LoadCall) :
    ∀ ld : Loader, (∀ c ∈ calls, S c) →
      DatasetsSatisfy (fun type size d => ∃ c, S c ∧ ∃ n m, StoredBy c n m type d ∧ c.size = size)
        ld.registry →
      DatasetsSatisfy (fun type size d => ∃ c, S c ∧ ∃ n m, StoredBy c n m type d ∧ c.size = size)
        (loadAll calls ld).registry := by
  induction calls with
  | nil => intro ld _ h; exact h
  | cons c rest ih =>
    intro ld hS h
    simp only [loadAll]
    apply ih _ (fun x hx => hS x (by simp [hx]))
    rcases loadOneProvider_cases_capacity c.handle c.allocations c.dlName c.sizeofProviderName
        c.size ld with hsame | ⟨type, fmt, prov, n0, m, buf, htype, hprov, hfmt, hq, hbuf, hfill,
          hstore⟩
    · rw [hsame]; exact h
    · rw [hstore]
      exact storeDataset_satisfy _ c.allocations c.dlName _ type fmt c.size _ m buf
        { ld with jumpReady := false,
                  providerCalls := ld.providerCalls
                    ++ [0, if n0 = 0 then FALLBACK_VARIANT_COUNT else n0] } h
        (fun hmn => ⟨c, hS c (by simp), _, m,
          ⟨prov, fmt, n0, buf, htype, hprov, hfmt, hq, rfl, hbuf, hfill, hmn, rfl⟩, rfl⟩)

/-- Claim C11, counterexample: the provider `gen` is offered 50 elements of 2 bytes and fills
7; the shrinking `realloc` fails, so the registry holds a data set of count 7 whose buffer
has 100 bytes, not 14. -/
theorem unshrunk_buffer_is_longer :
    (registryAfter shrinkFailsLoads).map
        (fun b => (b.elementSize, b.providers.map (fun d => (d.count, d.dataLen))))
      = [(2, [(7, 100)])] ∧
    ¬ (∀ b ∈ registryAfter shrinkFailsLoads, ∀ d ∈ b.providers,
        d.dataLen = d.count * b.elementSize) := by
  constructor
  · decide
  · intro h
    have := h { type := "uint16_t", elementSize := 2,
                providers := [{ dlName := "tester.so", name := "gen", count := 7, data := 1000,
                                format := 7100, dataLen := 100 }] } (by decide)
      { dlName := "tester.so", name := "gen", count := 7, data := 1000, format := 7100,
        dataLen := 100 } (by decide)
    revert this
    decide

/-- Claim C11, amended: after any sequence of `loadOneProvider` calls whose products
`capacity × size` stay within `size_t`, every data set `d` of every bucket `b` was stored by
one of the calls, `c`, with the element size `b.elementSize`, a capacity `n` offered and
`m = d.count` elements filled.  If the provider filled its capacity (`m = n`), or it filled
less, more than zero bytes, and the shrinking `realloc` of `c` succeeded, the buffer of `d` is
an allocation of `d.count × b.elementSize` bytes.  If it filled less, more than zero bytes,
and the shrinking `realloc` of `c` failed, the buffer is the allocation of
`n × b.elementSize` bytes that was kept.  A data set shrunk to zero bytes is not covered: the
call `realloc(buf, 0)` has released its block and `data` dangles. -/
theorem buffer_lengths (calls : List LoadCall) (hno : ∀ c ∈ calls, NoOverflow c) :
    ∀ b ∈ registryAfter calls, ∀ d ∈ b.providers,
      ∃ c ∈ calls, ∃ n m,
        StoredBy c n m b.type d ∧ c.size = b.elementSize ∧ d.count = m ∧ m ≤ n ∧
        (m = n → d.dataFreed = false ∧ d.dataLen = d.count * b.elementSize) ∧
        (m < n → 0 < m * b.elementSize → c.allocations.shrink ≠ none →
          d.dataFreed = false ∧ d.dataLen = d.count * b.elementSize) ∧
        (m < n → 0 < m * b.elementSize → c.allocations.shrink = none →
          d.dataFreed = false ∧ d.dataLen = n * b.elementSize) ∧
        (m < n → m * b.elementSize = 0 → d.dataFreed = true) := by
  intro b hb d hd
  obtain ⟨c, hc, n, m, hstored, hsize⟩ :=
    loadAll_stored (fun c => c ∈ calls) calls emptyLoader (fun c hc => hc)
      (by intro b hb; simp [emptyLoader] at hb) b hb d hd
  obtain ⟨prov, fmt, n0, buf, htype, hprov, hfmt, hq, hn, hbuf, hfill, hmn, hd⟩ := hstored
  have hcap : n * c.size < SIZE_RANGE := by
    rw [hn]
    exact hno c hc prov n0 hprov hq
  have hlen := storedProvider_length c.allocations c.dlName
    (String.mk (c.sizeofProviderName.toList.drop 17)) fmt c.size n m buf hmn hcap
  have hcount : d.count = m := by
    rw [hd]
    exact storedProvider_count _ _ _ _ _ _ _ _ hmn
  refine ⟨c, hc, n, m, ⟨prov, fmt, n0, buf, htype, hprov, hfmt, hq, hn, hbuf, hfill, hmn, hd⟩,
    hsize, hcount, hmn, ?_⟩
  rw [← hsize, hcount, hd]
  exact hlen

theorem gen_noOverflow (al : Allocations) :
    NoOverflow { handle := exampleHandle, allocations := al, dlName := "tester.so",
                 sizeofProviderName := "_SIZEOF_PROVIDER_gen", size := 2 } := by
  intro prov n0 h1 h2
  have e : exampleHandle.providerFunction (String.mk ("_SIZEOF_PROVIDER_gen".toList.drop 17))
      = some generatingProvider := rfl
  have e1 : some generatingProvider = some prov := e.symm.trans h1
  cases e1
  have e2 : (Except.ok 0 : Except Fault Nat) = Except.ok n0 := h2
  cases e2
  show (if 0 = 0 then FALLBACK_VARIANT_COUNT else 0) * 2 < SIZE_RANGE
  decide

theorem none_noOverflow (al : Allocations) :
    NoOverflow { handle := exampleHandle, allocations := al, dlName := "tester.so",
                 sizeofProviderName := "_SIZEOF_PROVIDER_none", size := 4 } := by
  intro prov n0 h1 h2
  have e : exampleHandle.providerFunction (String.mk ("_SIZEOF_PROVIDER_none".toList.drop 17))
      = some (fixedProvider 0) := rfl
  have e1 : some (fixedProvider 0) = some prov := e.symm.trans h1
  cases e1
  have e2 : (Except.ok 0 : Except Fault Nat) = Except.ok n0 := h2
  cases e2
  show (if 0 = 0 then FALLBACK_VARIANT_COUNT else 0) * 4 < SIZE_RANGE
  decide

/-- The provider `gen` (offered 50 elements of 2 bytes, fills 7) and the provider `none`
(offered 50 elements of 4 bytes, fills none), from the amended C11: when the shrinking
`realloc` fails the buffer of `gen` is the allocation of `50 × 2` bytes that was kept; the
buffer has `7 × 2` bytes when it succeeds; the data set of `none` is shrunk to zero bytes,
which releases its block. -/
theorem buffer_lengths_witness :
    (∀ b ∈ registryAfter shrinkFailsLoads, ∀ d ∈ b.providers,
      d.count = 7 ∧ d.dataFreed = false ∧ d.dataLen = 50 * b.elementSize) ∧
    (∀ b ∈ registryAfter shrinkingLoads, ∀ d ∈ b.providers,
      d.count = 7 ∧ d.dataFreed = false ∧ d.dataLen = d.count * b.elementSize) ∧
    (∀ b ∈ registryAfter emptyDatasetLoads, ∀ d ∈ b.providers,
      d.count = 0 ∧ d.dataFreed = true) := by
  refine ⟨?_, ?_, ?_⟩
  · intro b hb d hd
    obtain ⟨c, hc, n, m, hst, hsize, hcount, _, _, _, hkept, _⟩ :=
      buffer_lengths shrinkFailsLoads (by
        intro c hc
        simp only [shrinkFailsLoads, List.mem_singleton] at hc
        subst hc
        exact gen_noOverflow _) b hb d hd
    simp only [shrinkFailsLoads, List.mem_singleton] at hc
    subst hc
    obtain ⟨prov, fmt, n0, buf, _, hprov, _, hq, hn, _, hfill, _, _⟩ := hst
    have e1 : some generatingProvider = some prov := Eq.trans rfl hprov
    cases e1
    have e2 : (Except.ok 0 : Except Fault Nat) = Except.ok n0 := hq
    cases e2
    have hn50 : n = 50 := hn
    subst hn50
    have e3 : (Except.ok 7 : Except Fault Nat) = Except.ok m := hfill
    cases e3
    have hsize2 : 2 = b.elementSize := hsize
    have h := hkept (by decide) (by rw [← hsize2]; decide) rfl
    exact ⟨hcount, h.1, h.2⟩
  · intro b hb d hd
    obtain ⟨c, hc, n, m, hst, hsize, hcount, _, _, hexact, _, _⟩ :=
      buffer_lengths shrinkingLoads (by
        intro c hc
        simp only [shrinkingLoads, exampleLoad, List.mem_singleton] at hc
        subst hc
        exact gen_noOverflow _) b hb d hd
    simp only [shrinkingLoads, exampleLoad, List.mem_singleton] at hc
    subst hc
    obtain ⟨prov, fmt, n0, buf, _, hprov, _, hq, hn, _, hfill, _, _⟩ := hst
    have e1 : some generatingProvider = some prov := Eq.trans rfl hprov
    cases e1
    have e2 : (Except.ok 0 : Except Fault Nat) = Except.ok n0 := hq
    cases e2
    have hn50 : n = 50 := hn
    subst hn50
    have e3 : (Except.ok 7 : Except Fault Nat) = Except.ok m := hfill
    cases e3
    have hsize2 : 2 = b.elementSize := hsize
    have h := hexact (by decide) (by rw [← hsize2]; decide) (by decide)
    exact ⟨hcount, h.1, h.2⟩
  · intro b hb d hd
    obtain ⟨c, hc, n, m, hst, hsize, hcount, _, _, _, _, hfreed⟩ :=
      buffer_lengths emptyDatasetLoads (by
        intro c hc
        simp only [emptyDatasetLoads, exampleLoad, List.mem_singleton] at hc
        subst hc
        exact none_noOverflow _) b hb d hd
    simp only [emptyDatasetLoads, exampleLoad, List.mem_singleton] at hc
    subst hc
    obtain ⟨prov, fmt, n0, buf, _, hprov, _, hq, hn, _, hfill, _, _⟩ := hst
    have e1 : some (fixedProvider 0) = some prov := Eq.trans rfl hprov
    cases e1
    have e2 : (Except.ok 0 : Except Fault Nat) = Except.ok n0 := hq
    cases e2
    have hn50 : n = 50 := hn
    subst hn50
    have e3 : (Except.ok 0 : Except Fault Nat) = Except.ok m := hfill
    cases e3
    exact ⟨hcount, hfreed (by decide) (by simp)⟩

/-! ## `testFailure` -/

/-- A formatted message of 200 characters or more is cut to its first 199 characters. -/
theorem testFailure_of_longer (formatted : List Char) (h : TEST_MESSAGE_SIZE ≤ formatted.length) :
    testFailure formatted = formatted.take (TEST_MESSAGE_SIZE - 1) := by
  have hne : ¬ (formatted.length = TEST_MESSAGE_SIZE - 1) := by
    simp only [TEST_MESSAGE_SIZE] at h ⊢
    omega
  simp only [testFailure, if_neg hne]

/-- A formatted message of fewer than 199 characters is stored as it is. -/
theorem testFailure_of_shorter (formatted : List Char)
    (h : formatted.length < TEST_MESSAGE_SIZE - 1) : testFailure formatted = formatted := by
  have hne : ¬ (formatted.length = TEST_MESSAGE_SIZE - 1) := by omega
  simp only [testFailure, if_neg hne]
  exact List.take_of_length_le (by omega)

/-- A formatted message of exactly 199 characters has its last three characters replaced by
dots. -/
theorem testFailure_of_exact (formatted : List Char)
    (h : formatted.length = TEST_MESSAGE_SIZE - 1) :
    testFailure formatted = formatted.take (TEST_MESSAGE_SIZE - 4) ++ ['.', '.', '.'] := by
  simp only [TEST_MESSAGE_SIZE] at h
  have htake : formatted.take 199 = formatted := List.take_of_length_le (by omega)
  obtain ⟨pre, suf, hsplit, hpre⟩ : ∃ pre suf, formatted = pre ++ suf ∧ pre.length = 196 :=
    ⟨formatted.take 196, formatted.drop 196, (List.take_append_drop 196 formatted).symm,
      by simp; omega⟩
  have hsuf : suf.length = 3 := by
    have := congrArg List.length hsplit
    simp at this
    omega
  match suf, hsuf with
  | [a, b, c], _ =>
    subst hsplit
    simp only [testFailure, TEST_MESSAGE_SIZE, h, if_true, htake, writeDots]
    simp [List.set_append, hpre, List.take_append_eq_append_take]

/-- Claim C12, evaluation at the failing inputs: a formatted message of 200 characters, one
more than fits, is cut to its first 199 characters and does not end in `...`; a formatted
message of exactly 199 characters, which fits, has its last three characters replaced by
dots. -/
theorem testFailure_ellipsis_misplaced :
    testFailure (List.replicate 200 'a') = List.replicate 199 'a' ∧
    (testFailure (List.replicate 200 'a')).drop 196 = ['a', 'a', 'a'] ∧
    testFailure (List.replicate 199 'a') = List.replicate 196 'a' ++ ['.', '.', '.'] ∧
    testFailure (List.replicate 199 'a') ≠ List.replicate 199 'a' := by
  have h200 : testFailure (List.replicate 200 'a') = List.replicate 199 'a' := by
    rw [testFailure_of_longer _ (by rw [List.length_replicate]; decide)]
    show (List.replicate 200 'a').take 199 = List.replicate 199 'a'
    rw [List.take_replicate]
    rfl
  have h199 : testFailure (List.replicate 199 'a') = List.replicate 196 'a' ++ ['.', '.', '.'] := by
    rw [testFailure_of_exact _ (by rw [List.length_replicate]; decide)]
    show (List.replicate 199 'a').take 196 ++ ['.', '.', '.'] = _
    rw [List.take_replicate]
    rfl
  refine ⟨h200, ?_, h199, ?_⟩
  · rw [h200, List.drop_replicate]
    rfl
  · rw [h199]
    intro e
    have e1 := congrArg (fun l => l.drop 196) e
    simp only [] at e1
    rw [List.drop_left' (List.length_replicate 196 'a'), List.drop_replicate] at e1
    revert e1
    decide

/-- Claim C13, evaluation at the failing input: a provider whose size query calls `exit`
makes `loadOneProvider` return `false` with `runningTest.jumpReady` still `true`; only a
failure raised by the SIGSEGV handler leaves the flag `false`. -/
theorem loadOneProvider_leaves_guard_armed :
    loadOneProvider faultyHandle (exampleAllocations 1000) "tester.so" "_SIZEOF_PROVIDER_exiting" 4
        emptyLoader
      = (false, { registry := [], jumpReady := true, providerCalls := [0] }) ∧
    loadOneProvider faultyHandle (exampleAllocations 1000) "tester.so" "_SIZEOF_PROVIDER_crashing" 4
        emptyLoader
      = (false, { registry := [], jumpReady := false, providerCalls := [0] }) := by
  constructor <;> decide

/-! ## The types in the registry -/

theorem findProvider_eq_none {reg : List ProviderBucket} {t : String} :
    findProvider reg t = none ↔ ∀ b ∈ reg, b.type ≠ t := by
  induction reg with
  | nil => simp [findProvider]
  | cons x next ih =>
    simp only [findProvider]
    by_cases hx : x.type = t
    · simp [hx]
    · simp [hx, ih]

theorem appendToBucket_types (type : String) (p : Provider) (reg : List ProviderBucket) :
    (appendToBucket type p reg).map (fun b => b.type) = reg.map (fun b => b.type) := by
  induction reg with
  | nil => simp [appendToBucket]
  | cons x next ih =>
    simp only [appendToBucket]
    split
    · simp
    · simp [ih]

theorem findProvider_eq_some_of_nodup {reg : List ProviderBucket}
    (hnd : (reg.map (fun b => b.type)).Nodup) {t : String} {b : ProviderBucket} :
    findProvider reg t = some b ↔ b ∈ reg ∧ b.type = t := by
  constructor
  · exact findProvider_some
  · rintro ⟨hmem, htype⟩
    induction reg with
    | nil => simp at hmem
    | cons x next ih =>
      simp only [List.map_cons, List.nodup_cons] at hnd
      rcases List.mem_cons.mp hmem with rfl | hmem
      · simp [findProvider, htype]
      · have hx : ¬ (x.type = t) := by
          intro e
          apply hnd.1
          rw [e, ← htype]
          exact List.mem_map.mpr ⟨b, hmem, rfl⟩
        simp only [findProvider, if_neg hx]
        exact ih hnd.2 hmem

/-- What one call of `loadOneProvider` does to the types of the registry: they stay pairwise
different, and a type has a bucket afterwards exactly if it had one before or the call
accepted a data set of that type. -/
theorem loadOneProvider_types (c : LoadCall) (ld : Loader)
    (hnd : (ld.registry.map (fun b => b.type)).Nodup) :
    ((loadOneProvider c.handle c.allocations c.dlName c.sizeofProviderName c.size
        ld).2.registry.map (fun b => b.type)).Nodup ∧
    ∀ t, findProvider (loadOneProvider c.handle c.allocations c.dlName c.sizeofProviderName c.size
        ld).2.registry t = none ↔ (findProvider ld.registry t = none ∧ t ∉ acceptedType c ld) := by
  rcases loadOneProvider_cases c.handle c.allocations c.dlName c.sizeofProviderName c.size ld with
    ⟨hfalse, hreg⟩ | ⟨type, fmt, n, m, buf, htype, hstore⟩
  · rw [hreg]
    refine ⟨hnd, fun t => ?_⟩
    simp [acceptedType, hfalse]
  · rcases storeDataset_cases c.allocations c.dlName (String.mk (c.sizeofProviderName.toList.drop 17))
        type fmt c.size n m buf
        { ld with jumpReady := false, providerCalls := ld.providerCalls ++ [0, n] } with
      (hrej | hrej) | ⟨_, ⟨hnone, hnew⟩ | ⟨b, hb, _, happ⟩⟩
    · have h1 : (loadOneProvider c.handle c.allocations c.dlName c.sizeofProviderName c.size
          ld).1 = false := by rw [hstore, hrej]
      have h2 : (loadOneProvider c.handle c.allocations c.dlName c.sizeofProviderName c.size
          ld).2.registry = ld.registry := by rw [hstore, hrej]
      rw [h2]
      refine ⟨hnd, fun t => ?_⟩
      simp [acceptedType, h1]
    · have h1 : (loadOneProvider c.handle c.allocations c.dlName c.sizeofProviderName c.size
          ld).1 = false := by rw [hstore, hrej]
      have h2 : (loadOneProvider c.handle c.allocations c.dlName c.sizeofProviderName c.size
          ld).2.registry = ld.registry := by rw [hstore, hrej]; rfl
      rw [h2]
      refine ⟨hnd, fun t => ?_⟩
      simp [acceptedType, h1]
    · have h1 : (loadOneProvider c.handle c.allocations c.dlName c.sizeofProviderName c.size
          ld).1 = true := by rw [hstore, hnew]
      have h2 : (loadOneProvider c.handle c.allocations c.dlName c.sizeofProviderName c.size
          ld).2.registry
            = ProviderBucket.mk type c.size
                [storedProvider c.allocations c.dlName
                  (String.mk (c.sizeofProviderName.toList.drop 17)) fmt c.size n m buf]
              :: ld.registry := by rw [hstore, hnew]
      simp only at hnone
      rw [h2]
      refine ⟨?_, fun t => ?_⟩
      · simp only [List.map_cons, List.nodup_cons]
        refine ⟨?_, hnd⟩
        intro hmem
        obtain ⟨b, hb, hbt⟩ := List.mem_map.mp hmem
        exact (findProvider_eq_none.mp hnone) b hb hbt
      · simp only [acceptedType, h1, if_true, htype, List.mem_singleton, findProvider]
        by_cases ht : type = t
        · simp [ht]
        · simp [ht, Ne.symm ht]
    · have h1 : (loadOneProvider c.handle c.allocations c.dlName c.sizeofProviderName c.size
          ld).1 = true := by rw [hstore, happ]
      have h2 : (loadOneProvider c.handle c.allocations c.dlName c.sizeofProviderName c.size
          ld).2.registry
            = appendToBucket type
                (storedProvider c.allocations c.dlName
                  (String.mk (c.sizeofProviderName.toList.drop 17)) fmt c.size n m buf)
                ld.registry := by rw [hstore, happ]
      simp only at hb
      rw [h2]
      refine ⟨by rw [appendToBucket_types]; exact hnd, fun t => ?_⟩
      simp only [acceptedType, h1, if_true, htype, List.mem_singleton]
      by_cases ht : t = type
      · subst ht
        rw [findProvider_appendToBucket_same t _ ld.registry b hb, hb]
        simp
      · rw [findProvider_appendToBucket_other type t _ ht ld.registry]
        simp [ht]

theorem loadAll_types (calls : List LoadCall) :
    ∀ ld : Loader, (ld.registry.map (fun b => b.type)).Nodup →
      ((loadAll calls ld).registry.map (fun b => b.type)).Nodup ∧
      ∀ t, findProvider (loadAll calls ld).registry t = none
        ↔ (findProvider ld.registry t = none ∧ t ∉ acceptedTypes calls ld) := by
  induction calls with
  | nil => intro ld hnd; exact ⟨hnd, fun t => by simp [loadAll, acceptedTypes]⟩
  | cons c rest ih =>
    intro ld hnd
    obtain ⟨h1, h2⟩ := loadOneProvider_types c ld hnd
    obtain ⟨h3, h4⟩ := ih _ h1
    refine ⟨h3, fun t => ?_⟩
    simp only [loadAll, acceptedTypes, List.mem_append, not_or]
    rw [h4 t, h2 t]
    tauto

/-- Claim C15: starting from the empty registry, after any sequence of `loadOneProvider`
calls no two buckets of the list from `providerRoot` have equal type names, so
`findProvider(t)` returns the only bucket whose type equals `t`, or `NULL` when no data set
of type `t` was ever accepted. -/
theorem registry_types_unique (calls : List LoadCall) :
    ((registryAfter calls).map (fun b => b.type)).Nodup ∧
    (∀ b1 ∈ registryAfter calls, ∀ b2 ∈ registryAfter calls, b1.type = b2.type → b1 = b2) ∧
    (∀ t b, findProvider (registryAfter calls) t = some b
      ↔ (b ∈ registryAfter calls ∧ b.type = t)) ∧
    (∀ t, findProvider (registryAfter calls) t = none ↔ t ∉ acceptedTypes calls emptyLoader) := by
  obtain ⟨hnd, hnone⟩ := loadAll_types calls emptyLoader (by simp [emptyLoader])
  refine ⟨hnd, ?_, fun t b => findProvider_eq_some_of_nodup hnd, fun t => ?_⟩
  · intro b1 h1 b2 h2 heq
    have e1 := (findProvider_eq_some_of_nodup hnd).mpr ⟨h1, rfl⟩
    have e2 := (findProvider_eq_some_of_nodup hnd).mpr ⟨h2, heq.symm⟩
    rw [e1] at e2
    exact Option.some.inj e2
  · rw [registryAfter, hnone t]
    simp [emptyLoader, findProvider]

/-- The registry of scenario 6, from C15: its type names are pairwise distinct, and the type
`struct foo`, for which no dataset was accepted, is not found. -/
theorem registry_types_unique_witness :
    ((registryAfter scenario6Loads).map (fun b => b.type)).Nodup ∧
    findProvider (registryAfter scenario6Loads) "struct foo" = none :=
  ⟨(registry_types_unique scenario6Loads).1,
   ((registry_types_unique scenario6Loads).2.2.2 "struct foo").2 (by decide)⟩

/-! ## Bounds of the data set lookups -/

/-- With the counts of the selected data sets cached, the inner loop reads no array outside
its bounds, whatever the fuel and the index vector. -/
theorem innerLoop_defined (func : List Nat → Except Fault Unit) (arity : Nat) (tis : List Nat)
    (tb : List ProviderBucket) (cp counts : List Nat) (harity : arity ≤ MAX_ARITY)
    (hlen : tis.length = arity) (hcache : cacheCounts tb cp tis = some counts) :
    ∀ (fuel : Nat) (w : Worker) (idx : List Nat),
      innerLoop func arity tis tb cp counts fuel w idx ≠ Run.undefinedBehaviour := by
  have htake : tis.take arity = tis := by rw [← hlen]; simp
  have hnot : ¬ (arity > MAX_ARITY) := by omega
  intro fuel
  induction fuel with
  | zero => intro w idx; simp [innerLoop]
  | succ f ih =>
    intro w idx
    obtain ⟨args, hargs⟩ := argPointers_defined tb cp tis counts idx hcache
    simp only [innerLoop, if_neg hnot, htake, hargs]
    cases func args with
    | error e => simp
    | ok u =>
      simp only
      cases hn : nextCombination arity counts idx with
      | mk b next =>
        cases b with
        | true => exact ih _ _
        | false => simp

/-- A call of `nextCombination` on a vector below the bounds leaves a vector below the
bounds. -/
theorem nextCombination_below (ms cur : List Nat) (hpos : ∀ m ∈ ms, 1 ≤ m)
    (hcur : List.Forall₂ (fun x m => x < m) cur ms) :
    List.Forall₂ (fun x m => x < m) (nextCombination ms.length ms cur).2 ms := by
  have hk := rank_lt ms cur hcur
  have hstep := nextCombination_mixedRadix ms hpos (rank ms cur) hk
  rw [mixedRadix_rank ms cur hcur] at hstep
  rw [hstep]
  exact mixedRadix_below ms hpos _

/-- Started on a data set tuple below the bucket sizes, the outer loop reads no array outside
its bounds, whatever the fuel. -/
theorem outerLoop_defined (func : List Nat → Except Fault Unit) (arity typeCount : Nat)
    (tis : List Nat) (tb : List ProviderBucket) (harity : arity ≤ MAX_ARITY)
    (hlen : tis.length = arity) (htb : tb.length = typeCount)
    (htis : ∀ ti ∈ tis, ti < typeCount) (hne : ∀ pb ∈ tb, 1 ≤ pb.providers.length)
    (innerFuel : Nat) :
    ∀ (fuel : Nat) (w : Worker) (cp : List Nat),
      List.Forall₂ (fun c pb => c < pb.providers.length) cp tb →
      outerLoop func arity typeCount tis tb (tb.map (fun pb => pb.providers.length)) innerFuel
        fuel w cp ≠ Run.undefinedBehaviour := by
  have htake : tis.take arity = tis := by rw [← hlen]; simp
  have hpos : ∀ m ∈ tb.map (fun pb => pb.providers.length), 1 ≤ m := by
    intro m hm
    obtain ⟨pb, hpb, rfl⟩ := List.mem_map.mp hm
    exact hne pb hpb
  have hblen : (tb.map (fun pb => pb.providers.length)).length = typeCount := by simp [htb]
  intro fuel
  induction fuel with
  | zero => intro w cp _; simp [outerLoop]
  | succ f ih =>
    intro w cp hcp
    obtain ⟨counts, hcounts⟩ := cacheCounts_defined tb cp hcp tis (by rw [htb]; exact htis)
    have hinner := innerLoop_defined func arity tis tb cp counts harity hlen hcounts innerFuel w
      (List.replicate arity 0)
    simp only [outerLoop, htake, hcounts]
    cases hr : innerLoop func arity tis tb cp counts innerFuel w (List.replicate arity 0) with
    | undefinedBehaviour => exact absurd hr hinner
    | outOfFuel => simp
    | done r =>
      obtain ⟨b, w1⟩ := r
      cases b with
      | true => simp
      | false =>
        simp only
        have hbelow := nextCombination_below (tb.map (fun pb => pb.providers.length)) cp hpos
          (by rw [List.forall₂_map_right_iff]; exact hcp)
        rw [hblen, List.forall₂_map_right_iff] at hbelow
        cases hn : nextCombination typeCount (tb.map (fun pb => pb.providers.length)) cp with
        | mk b2 next =>
          rw [hn] at hbelow
          cases b2 with
          | true => exact ih _ _ hbelow
          | false => simp

/-- On a registry whose buckets are not empty `runSingleTest` reads no array outside its
bounds, whatever the fuel. -/
theorem runSingleTest_defined (reg : List ProviderBucket) (hne : BucketsNonEmpty reg)
    (func : List Nat → Except Fault Unit) (arity typeCount : Nat) (argTypes : List String)
    (tis : List Nat) (harity : arity ≤ MAX_ARITY) (hlen : tis.length = arity)
    (htlen : argTypes.length = typeCount) (htis : ∀ ti ∈ tis, ti < typeCount) (w : Worker)
    (fuel : Nat) :
    runSingleTest reg fuel w func arity typeCount argTypes tis ≠ Run.undefinedBehaviour := by
  have htake : argTypes.take typeCount = argTypes := by rw [← htlen]; simp
  cases hloc : locateBuckets reg argTypes with
  | error t => simp [runSingleTest, htake, hloc]
  | ok tb =>
    obtain ⟨_, h2, _, h4⟩ := locateBuckets_ok hloc
    have hne' : ∀ pb ∈ tb, 1 ≤ pb.providers.length := fun pb hpb => hne pb (h4 pb hpb)
    have hpos : ∀ m ∈ tb.map (fun pb => pb.providers.length), 1 ≤ m := by
      intro m hm
      obtain ⟨pb, hpb, rfl⟩ := List.mem_map.mp hm
      exact hne' pb hpb
    have hzero : List.Forall₂ (fun c pb => c < pb.providers.length)
        (List.replicate typeCount 0) tb := by
      have := mixedRadix_below _ hpos 0
      rw [mixedRadix_zero, List.forall₂_map_right_iff] at this
      simpa [h2, htlen] using this
    have hout := outerLoop_defined func arity typeCount tis tb harity hlen (by rw [h2, htlen])
      htis hne' fuel fuel w _ hzero
    simp only [runSingleTest, htake, hloc]
    cases hr : outerLoop func arity typeCount tis tb (tb.map (fun pb => pb.providers.length))
        fuel fuel w (List.replicate typeCount 0) with
    | undefinedBehaviour => exact absurd hr hout
    | outOfFuel => simp
    | done r =>
      obtain ⟨b, w1⟩ := r
      cases b <;> simp

/-- From the all-zero vector the driver over `nextCombination` visits the tuples below
positive bounds. -/
theorem visitAll_zero (ms : List Nat) (hpos : ∀ m ∈ ms, 1 ≤ m) (fuel : Nat)
    (hfuel : ms.prod ≤ fuel) :
    visitAll fuel ms.length ms (List.replicate ms.length 0) = some (ms.prod - 1, tuples ms) := by
  have hP := prod_pos_of_pos hpos
  have h := visitAll_from ms hpos (ms.prod - 1) 0 fuel (by omega) (by omega)
  rw [mixedRadix_zero] at h
  rw [h, tuples_eq]
  have : ms.prod - 1 + 1 = ms.prod := by omega
  rw [this, List.range_eq_range']

/-- Claim C16: every bucket reachable from `providerRoot` holds at least one data set, and
therefore throughout `runSingleTest` every value of the outer odometer satisfies
`curProviders[t] < typeBuckets[t]->count`: the lookup `providers[curProviders[t]]` is in
bounds at each of them, and the run reads no array outside its bounds. -/
theorem dataset_lookup_in_bounds (reg : List ProviderBucket) (hreach : Reachable reg) :
    (∀ b ∈ reg, 1 ≤ b.providers.length) ∧
    ∀ (func : List Nat → Except Fault Unit) (arity typeCount : Nat) (argTypes : List String)
      (argTypeIndices : List Nat) (w : Worker),
      arity ≤ MAX_ARITY → argTypeIndices.length = arity → argTypes.length = typeCount →
      (∀ ti ∈ argTypeIndices, ti < typeCount) →
      (∀ fuel, runSingleTest reg fuel w func arity typeCount argTypes argTypeIndices
        ≠ Run.undefinedBehaviour) ∧
      (∀ typeBuckets, locateBuckets reg argTypes = Except.ok typeBuckets →
        ∃ seen : List (List Nat),
          (∀ fuel, (typeBuckets.map (fun pb => pb.providers.length)).prod ≤ fuel →
            visitAll fuel typeCount (typeBuckets.map (fun pb => pb.providers.length))
              (List.replicate typeCount 0)
              = some ((typeBuckets.map (fun pb => pb.providers.length)).prod - 1, seen)) ∧
          ∀ curProviders ∈ seen,
            List.Forall₂ (fun c pb => c < pb.providers.length) curProviders typeBuckets ∧
            ∀ t, t < typeCount → ∃ p, selectedProvider typeBuckets curProviders t = some p) := by
  have hne := reachable_nonEmpty hreach
  refine ⟨hne, ?_⟩
  intro func arity typeCount argTypes tis w harity hlen htlen htis
  refine ⟨fun fuel => runSingleTest_defined reg hne func arity typeCount argTypes tis harity hlen
    htlen htis w fuel, ?_⟩
  intro tb hloc
  obtain ⟨_, h2, _, h4⟩ := locateBuckets_ok hloc
  have hpos : ∀ m ∈ tb.map (fun pb => pb.providers.length), 1 ≤ m := by
    intro m hm
    obtain ⟨pb, hpb, rfl⟩ := List.mem_map.mp hm
    exact hne pb (h4 pb hpb)
  have hl : (tb.map (fun pb => pb.providers.length)).length = typeCount := by simp [h2, htlen]
  refine ⟨tuples (tb.map (fun pb => pb.providers.length)), ?_, ?_⟩
  · intro fuel hfuel
    have := visitAll_zero _ hpos fuel hfuel
    rwa [hl] at this
  · intro cp hcp
    have hbox := (mem_tuples _ hpos cp).mp hcp
    rw [List.forall₂_map_right_iff] at hbox
    refine ⟨hbox, fun t ht => ?_⟩
    exact selectedProvider_defined tb cp hbox t (by rw [h2, htlen]; exact ht)

/-- The registry of scenario 6, from C16: both buckets hold a data set, and the run of
`TEST(t, int32_t, x, uint16_t, y)` reads no array outside its bounds. -/
theorem dataset_lookup_in_bounds_witness :
    (∀ b ∈ registryAfter scenario6Loads, 1 ≤ b.providers.length) ∧
    (∀ fuel, runSingleTest (registryAfter scenario6Loads) fuel freshWorker passingTest 2 2
      ["int32_t", "uint16_t"] [0, 1] ≠ Run.undefinedBehaviour) :=
  ⟨(dataset_lookup_in_bounds (registryAfter scenario6Loads) ⟨scenario6Loads, rfl⟩).1,
   ((dataset_lookup_in_bounds (registryAfter scenario6Loads) ⟨scenario6Loads, rfl⟩).2
      passingTest 2 2 ["int32_t", "uint16_t"] [0, 1] freshWorker (by decide) (by decide)
      (by decide) (by decide)).1⟩

/-! ## `main` -/

theorem loadProvidersLoop_nonEmpty (h : Handle) (allocations : String → Allocations)
    (dlName : String) :
    ∀ (symbols : List Symbol) (st : Nat × Loader), BucketsNonEmpty st.2.registry →
      BucketsNonEmpty (loadProvidersLoop h allocations dlName symbols st).2.registry := by
  intro symbols
  induction symbols with
  | nil => intro st hst; exact hst
  | cons s rest ih =>
    intro st hst
    simp only [loadProvidersLoop]
    split
    · exact ih _ (loadOneProvider_nonEmpty _ _ _ _ _ _ hst)
    · exact ih _ hst

/-- One pass of the first loop of `main` once the separator has been seen. -/
theorem loadArgument_tester (dlopen : String → Option SharedObject) (st : MainState)
    (arg : String) (hsep : st.gotSeparator = true) :
    (loadArgument dlopen st arg).gotSeparator = true ∧
    (loadArgument dlopen st arg).linkerErrors
      = (st.linkerErrors || !objectLoads dlopen true arg) ∧
    (loadArgument dlopen st arg).dls.length
      = st.dls.length + (if objectLoads dlopen true arg then 1 else 0) ∧
    (BucketsNonEmpty st.loader.registry →
      BucketsNonEmpty (loadArgument dlopen st arg).loader.registry) := by
  have hc : ¬ (st.gotSeparator = false ∧ arg = "--") := by simp [hsep]
  have hs : ¬ (st.gotSeparator = false) := by simp [hsep]
  simp only [loadArgument, if_neg hc, if_neg hs, objectLoads]
  cases dlopen arg with
  | none => simp [hsep]
  | some obj =>
    cases hl : loadDL obj arg with
    | none => simp [hsep, hl]
    | some dl =>
      simp only [hl, hsep, Option.isSome_some, if_true, Bool.not_true, Bool.or_false,
        List.length_append, List.length_cons, List.length_nil, true_and]
      intro hne
      exact loadProvidersLoop_nonEmpty _ _ _ _ _ hne

/-- One pass of the first loop of `main` over a path before the separator. -/
theorem loadArgument_subject (dlopen : String → Option SharedObject) (st : MainState)
    (arg : String) (hsep : st.gotSeparator = false) (harg : arg ≠ "--") :
    (loadArgument dlopen st arg).gotSeparator = false ∧
    (loadArgument dlopen st arg).linkerErrors
      = (st.linkerErrors || !objectLoads dlopen false arg) ∧
    (loadArgument dlopen st arg).dls = st.dls ∧
    (loadArgument dlopen st arg).loader = st.loader := by
  have hc : ¬ (st.gotSeparator = false ∧ arg = "--") := by simp [harg]
  simp only [loadArgument, if_neg hc, objectLoads]
  cases dlopen arg with
  | none => simp [hsep]
  | some obj => simp [hsep]

/-- The pass of the first loop of `main` that reads the separator. -/
theorem loadArgument_separator (dlopen : String → Option SharedObject) (st : MainState)
    (hsep : st.gotSeparator = false) :
    loadArgument dlopen st "--" = { st with gotSeparator := true } := by
  simp [loadArgument, hsep]

/-- The first loop of `main` over the testers. -/
theorem loadTesters (dlopen : String → Option SharedObject) :
    ∀ (args : List String) (st : MainState), st.gotSeparator = true →
      (args.foldl (loadArgument dlopen) st).linkerErrors
        = (st.linkerErrors || !args.all (objectLoads dlopen true)) ∧
      (args.foldl (loadArgument dlopen) st).dls.length
        = st.dls.length + (args.filter (objectLoads dlopen true)).length ∧
      (BucketsNonEmpty st.loader.registry →
        BucketsNonEmpty (args.foldl (loadArgument dlopen) st).loader.registry) := by
  intro args
  induction args with
  | nil => intro st _; simp
  | cons a rest ih =>
    intro st hsep
    obtain ⟨h1, h2, h3, h4⟩ := loadArgument_tester dlopen st a hsep
    obtain ⟨i1, i2, i3⟩ := ih (loadArgument dlopen st a) h1
    simp only [List.foldl_cons]
    refine ⟨?_, ?_, fun hne => i3 (h4 hne)⟩
    · rw [i1, h2]
      simp only [List.all_cons]
      cases st.linkerErrors <;> cases objectLoads dlopen true a <;> simp
    · rw [i2, h3]
      simp only [List.filter_cons]
      cases objectLoads dlopen true a <;> simp
      omega

/-- The first loop of `main` over the whole command line. -/
theorem loadArguments (dlopen : String → Option SharedObject) :
    ∀ (args : List String) (st : MainState), st.gotSeparator = false →
      (args.foldl (loadArgument dlopen) st).linkerErrors
        = (st.linkerErrors || !allObjectsLoad dlopen args) ∧
      (args.foldl (loadArgument dlopen) st).dls.length
        = st.dls.length + ((testersOf args).filter (objectLoads dlopen true)).length ∧
      (BucketsNonEmpty st.loader.registry →
        BucketsNonEmpty (args.foldl (loadArgument dlopen) st).loader.registry) := by
  intro args
  induction args with
  | nil => intro st _; simp [allObjectsLoad, subjectsOf, testersOf]
  | cons a rest ih =>
    intro st hsep
    by_cases ha : a = "--"
    · subst ha
      simp only [List.foldl_cons, loadArgument_separator dlopen st hsep]
      obtain ⟨h1, h2, h3⟩ := loadTesters dlopen rest { st with gotSeparator := true } rfl
      refine ⟨?_, ?_, h3⟩
      · rw [h1]
        simp [allObjectsLoad, subjectsOf, testersOf]
      · rw [h2]
        simp [testersOf]
    · obtain ⟨h1, h2, h3, h4⟩ := loadArgument_subject dlopen st a hsep ha
      obtain ⟨i1, i2, i3⟩ := ih (loadArgument dlopen st a) h1
      simp only [List.foldl_cons]
      refine ⟨?_, ?_, fun hne => i3 (by rw [h4]; exact hne)⟩
      · rw [i1, h2]
        simp only [allObjectsLoad, subjectsOf, testersOf, List.takeWhile_cons, List.dropWhile_cons,
          ha, ne_eq, not_false_eq_true, decide_True, if_true, List.all_cons]
        cases st.linkerErrors <;> cases objectLoads dlopen false a <;> simp
      · rw [i2, h3]
        simp [testersOf, List.dropWhile_cons, ha]

/-- The test runs of the loaded modules end, with one set of counters per module. -/
theorem runModules_run (reg : List ProviderBucket) (hne : BucketsNonEmpty reg) :
    ∀ dls : List DL, ∃ N ws,
      (∀ fuel, N ≤ fuel → runModules reg fuel dls = Run.done ws) ∧ ws.length = dls.length := by
  intro dls
  induction dls with
  | nil => exact ⟨0, [], fun _ _ => rfl, rfl⟩
  | cons dl rest ih =>
    obtain ⟨N1, w, hrun, _⟩ := runSymbols_run dl.handle reg hne (dl.symbols.drop 1) freshWorker
    obtain ⟨N2, ws, hrest, hlen⟩ := ih
    refine ⟨N1 + N2, w :: ws, ?_, by simp [hlen]⟩
    intro fuel hf
    have h1 : runTests dl.handle reg fuel dl.symbols freshWorker = Run.done w :=
      hrun fuel (by omega)
    simp only [runModules, h1, hrest fuel (by omega)]

theorem freeRegistry_appendToBucket (type : String) (p : Provider) :
    ∀ (reg : List ProviderBucket) (b : ProviderBucket), findProvider reg type = some b →
      freeRegistry (appendToBucket type p reg) = (freeRegistry reg && !p.dataFreed) := by
  intro reg
  induction reg with
  | nil => intro b h; simp [findProvider] at h
  | cons x next ih =>
    intro b h
    by_cases hx : x.type = type
    · simp only [appendToBucket, if_pos hx, freeRegistry, List.all_append, List.all_cons,
        List.all_nil, Bool.and_true]
      cases List.all x.providers (fun d => !d.dataFreed) <;> cases freeRegistry next <;>
        cases p.dataFreed <;> rfl
    · have hnext : findProvider next type = some b := by
        simpa [findProvider, hx] using h
      simp only [appendToBucket, if_neg hx, freeRegistry, ih b hnext]
      cases List.all x.providers (fun d => !d.dataFreed) <;> cases freeRegistry next <;>
        cases p.dataFreed <;> rfl

theorem storedProvider_dataFreed (al : Allocations) (dlName name : String)
    (fmt size n m buf : Nat) :
    (storedProvider al dlName name fmt size n m buf).dataFreed = shrinkReleases size n m := rfl

theorem freesTwice_freeShrunk (size n m : Nat) (ld : Loader) :
    freesTwice (freeShrunk size n m ld) = (freesTwice ld || shrinkReleases size n m) := by
  simp only [freesTwice, freeShrunk]
  cases ld.freedTwice <;> cases freeRegistry ld.registry <;>
    cases shrinkReleases size n m <;> rfl

/-- Function `storeDataset` releases a block twice, at once or when the registry is freed,
exactly when the shrinking step released the buffer. -/
theorem storeDataset_released (al : Allocations) (dlName name type : String)
    (fmt size n m buf : Nat) (ld : Loader) :
    freesTwice (storeDataset al dlName name type fmt size n m buf ld).2
      = (freesTwice ld || shrinkReleases size n m) := by
  by_cases hmn : m > n
  · have e : storeDataset al dlName name type fmt size n m buf ld = (false, ld) := by
      simp [storeDataset, hmn]
    have hlt : ¬ m < n := by omega
    rw [e]
    simp [shrinkReleases, hlt]
  · cases hf : findProvider ld.registry type with
    | none =>
      by_cases hb : al.bucket = false
      · have e : storeDataset al dlName name type fmt size n m buf ld
            = (false, freeShrunk size n m ld) := by
          simp [storeDataset, hmn, hf, hb]
        rw [e]
        exact freesTwice_freeShrunk size n m ld
      · by_cases hg : al.grow = false
        · have e : storeDataset al dlName name type fmt size n m buf ld
              = (false, freeShrunk size n m ld) := by
            simp [storeDataset, hmn, hf, hg]
          rw [e]
          exact freesTwice_freeShrunk size n m ld
        · have e : storeDataset al dlName name type fmt size n m buf ld
              = (true, { ld with registry := (ProviderBucket.mk type size
                  [storedProvider al dlName name fmt size n m buf]) :: ld.registry }) := by
            simp [storeDataset, hmn, hf, hb, hg]
          rw [e]
          simp only [freesTwice, freeRegistry, List.all_cons, List.all_nil, Bool.and_true,
            storedProvider_dataFreed]
          cases ld.freedTwice <;> cases freeRegistry ld.registry <;>
            cases shrinkReleases size n m <;> rfl
    | some b =>
      by_cases hs : b.elementSize ≠ size
      · have e : storeDataset al dlName name type fmt size n m buf ld
            = (false, freeShrunk size n m ld) := by
          simp [storeDataset, hmn, hf, hs]
        rw [e]
        exact freesTwice_freeShrunk size n m ld
      · by_cases hg : al.grow = false
        · have e : storeDataset al dlName name type fmt size n m buf ld
              = (false, freeShrunk size n m ld) := by
            simp [storeDataset, hmn, hf, hg]
          rw [e]
          exact freesTwice_freeShrunk size n m ld
        · have e : storeDataset al dlName name type fmt size n m buf ld
              = (true, { ld with registry := (appendToBucket type
                  (storedProvider al dlName name fmt size n m buf) ld.registry) }) := by
            simp [storeDataset, hmn, hf, hs, hg]
          rw [e]
          simp only [freesTwice, freeRegistry_appendToBucket type _ ld.registry b hf,
            storedProvider_dataFreed]
          cases ld.freedTwice <;> cases freeRegistry ld.registry <;>
            cases shrinkReleases size n m <;> rfl

/-- A call of `loadOneProvider` releases a block twice, at once or when the registry is freed,
exactly when it reaches the shrinking step and releases the buffer there. -/
theorem loadOneProvider_released (hd : Handle) (al : Allocations) (dlName spn : String)
    (size : Nat) (ld : Loader) :
    freesTwice (loadOneProvider hd al dlName spn size ld).2
      = (freesTwice ld || releasesBuffer hd al spn size) := by
  cases h1 : hd.typeName (String.mk (spn.toList.drop 7)) with
  | none => simp only [loadOneProvider, releasesBuffer, h1]; simp
  | some type =>
    cases h2 : hd.providerFunction (String.mk (spn.toList.drop 17)) with
    | none => simp only [loadOneProvider, releasesBuffer, h1, h2]; simp
    | some prov =>
      cases h3 : hd.formatter (formatterName type) with
      | none => simp only [loadOneProvider, releasesBuffer, h1, h2, h3]; simp
      | some fmt =>
        cases h4 : prov 0 with
        | error f => simp only [loadOneProvider, releasesBuffer, h1, h2, h3, h4]; simp [freesTwice]
        | ok n0 =>
          cases h5 : al.buf with
          | none =>
            simp only [loadOneProvider, releasesBuffer, h1, h2, h3, h4, h5]; simp [freesTwice]
          | some buf =>
            cases h6 : prov (if n0 = 0 then FALLBACK_VARIANT_COUNT else n0) with
            | error f =>
              simp only [loadOneProvider, releasesBuffer, h1, h2, h3, h4, h5, h6]
              simp [freesTwice]
            | ok m =>
              simp only [loadOneProvider, releasesBuffer, h1, h2, h3, h4, h5, h6]
              rw [storeDataset_released]
              rfl

theorem loadProvidersLoop_released (h : Handle) (allocations : String → Allocations)
    (dlName : String) :
    ∀ (symbols : List Symbol) (st : Nat × Loader),
      freesTwice (loadProvidersLoop h allocations dlName symbols st).2
        = (freesTwice st.2 || symbolsRelease h allocations symbols) := by
  intro symbols
  induction symbols with
  | nil => intro st; simp [loadProvidersLoop, symbolsRelease]
  | cons s rest ih =>
    intro st
    simp only [loadProvidersLoop]
    by_cases hp : isProviderSymbol s.name = true
    · rw [if_pos hp, ih, loadOneProvider_released]
      simp only [symbolsRelease, List.any_cons, hp, Bool.true_and, Bool.or_assoc]
    · rw [if_neg hp, ih]
      have hp2 : isProviderSymbol s.name = false := by simpa using hp
      simp only [symbolsRelease, List.any_cons, hp2, Bool.false_and, Bool.false_or]

/-- One pass of the first loop of `main` once the separator has been seen releases a block
twice exactly when the tester has a provider whose buffer the shrinking step releases. -/
theorem loadArgument_tester_released (dlopen : String → Option SharedObject) (st : MainState)
    (arg : String) (hsep : st.gotSeparator = true) :
    freesTwice (loadArgument dlopen st arg).loader
      = (freesTwice st.loader || testerReleases dlopen arg) := by
  have hc : ¬ (st.gotSeparator = false ∧ arg = "--") := by simp [hsep]
  have hs : ¬ (st.gotSeparator = false) := by simp [hsep]
  simp only [loadArgument, if_neg hc, if_neg hs, testerReleases]
  cases dlopen arg with
  | none => simp
  | some obj =>
    cases hl : loadDL obj arg with
    | none => simp [hl]
    | some dl =>
      simp only [hl, loadProviders]
      exact loadProvidersLoop_released _ _ _ _ _

theorem loadTesters_released (dlopen : String → Option SharedObject) :
    ∀ (args : List String) (st : MainState), st.gotSeparator = true →
      freesTwice (args.foldl (loadArgument dlopen) st).loader
        = (freesTwice st.loader || args.any (testerReleases dlopen)) := by
  intro args
  induction args with
  | nil => intro st _; simp
  | cons a rest ih =>
    intro st hsep
    have h1 := (loadArgument_tester dlopen st a hsep).1
    simp only [List.foldl_cons]
    rw [ih _ h1, loadArgument_tester_released dlopen st a hsep]
    simp only [List.any_cons, Bool.or_assoc]

/-- The first loop of `main` releases a block twice, at once or when the registry is freed,
exactly when a tester of the command line has a provider whose buffer the shrinking step
releases. -/
theorem loadArguments_released (dlopen : String → Option SharedObject) :
    ∀ (args : List String) (st : MainState), st.gotSeparator = false →
      freesTwice (args.foldl (loadArgument dlopen) st).loader
        = (freesTwice st.loader || bufferReleased dlopen args) := by
  intro args
  induction args with
  | nil => intro st _; simp [bufferReleased, testersOf]
  | cons a rest ih =>
    intro st hsep
    by_cases ha : a = "--"
    · subst ha
      simp only [List.foldl_cons, loadArgument_separator dlopen st hsep]
      rw [loadTesters_released dlopen rest { st with gotSeparator := true } rfl]
      simp [bufferReleased, testersOf]
    · obtain ⟨h1, _, _, h4⟩ := loadArgument_subject dlopen st a hsep ha
      simp only [List.foldl_cons]
      rw [ih _ h1, h4]
      simp [bufferReleased, testersOf, List.dropWhile_cons, ha]

/-- Claim C14, the behaviour of the code: `main` returns an exit code unless a tester of the
command line has a provider whose buffer the shrinking step of `loadOneProvider` releases (it
fills fewer elements than its capacity, and zero bytes); in that case a block is released
twice, which is undefined behaviour, and the claim fails.  In every other case the exit code
is 0 if every object given on the command line loaded and the sum of `dl->failed` over the
loaded modules is 0, and is 1 if an object failed to load, a test failed, or the usage text
was printed (which happens exactly for an empty `argv`); a run with no tester and no load
error exits with 0.  The counters summed are those of the testers that loaded, one set for
each. -/
theorem main_exit_code (dlopen : String → Option SharedObject) (argv : List String) :
    ∃ N,
      (bufferReleased dlopen (argv.drop 1) = true →
        ∀ fuel, N ≤ fuel → main dlopen fuel argv = Run.undefinedBehaviour) ∧
      (bufferReleased dlopen (argv.drop 1) = false →
        ∃ r,
          (∀ fuel, N ≤ fuel → main dlopen fuel argv = Run.done r) ∧
          (r.exitCode = 0 ∨ r.exitCode = 1) ∧
          (r.exitCode = 0 ↔
            (r.usagePrinted = false ∧ allObjectsLoad dlopen (argv.drop 1) = true ∧
              (r.modules.map (fun w => w.failed)).sum = 0)) ∧
          (r.exitCode = 1 ↔
            (r.usagePrinted = true ∨ allObjectsLoad dlopen (argv.drop 1) = false ∨
              0 < (r.modules.map (fun w => w.failed)).sum)) ∧
          (r.usagePrinted = true ↔ argv = []) ∧
          r.modules.length
            = ((testersOf (argv.drop 1)).filter (objectLoads dlopen true)).length ∧
          (argv ≠ [] → testersOf (argv.drop 1) = [] →
            allObjectsLoad dlopen (argv.drop 1) = true → r.exitCode = 0)) := by
  cases argv with
  | nil =>
    refine ⟨0, fun h => ?_, fun _ => ?_⟩
    · simp [bufferReleased, testersOf] at h
    · refine ⟨{ exitCode := 1, usagePrinted := true, linkerErrors := false, modules := [] },
        fun fuel _ => by simp [main], ?_⟩
      simp [testersOf]
  | cons prog args =>
    obtain ⟨h1, h2, h3⟩ := loadArguments dlopen args initialMainState rfl
    have hrel := loadArguments_released dlopen args initialMainState rfl
    have hinit : freesTwice initialMainState.loader = false := rfl
    rw [hinit, Bool.false_or] at hrel
    have hne : BucketsNonEmpty (args.foldl (loadArgument dlopen) initialMainState).loader.registry :=
      h3 (by intro b hb; simp [initialMainState, emptyLoader] at hb)
    obtain ⟨N, ws, hrun, hlen⟩ := runModules_run _ hne
      (args.foldl (loadArgument dlopen) initialMainState).dls
    have hle : (args.foldl (loadArgument dlopen) initialMainState).linkerErrors
        = !allObjectsLoad dlopen args := by
      rw [h1]; simp [initialMainState]
    have hmods : ws.length = ((testersOf args).filter (objectLoads dlopen true)).length := by
      rw [hlen, h2]; simp [initialMainState]
    simp only [List.drop_succ_cons, List.drop_zero]
    refine ⟨N, fun hb fuel hf => ?_, fun hb => ?_⟩
    · rw [hb] at hrel
      simp only [freesTwice, Bool.or_eq_true, Bool.not_eq_true'] at hrel
      by_cases hft : (args.foldl (loadArgument dlopen) initialMainState).loader.freedTwice = true
      · simp [main, hft]
      · have hfr : freeRegistry
            (args.foldl (loadArgument dlopen) initialMainState).loader.registry = false := by
          rcases hrel with h | h
          · exact absurd h hft
          · exact h
        simp [main, hft, hrun fuel hf, hfr]
    · rw [hb] at hrel
      simp only [freesTwice, Bool.or_eq_false_iff, Bool.not_eq_false'] at hrel
      obtain ⟨hft, hfr⟩ := hrel
      have hmain : ∀ fuel, N ≤ fuel → main dlopen fuel (prog :: args)
          = Run.done
              { exitCode :=
                  if (args.foldl (loadArgument dlopen) initialMainState).linkerErrors = true ∨
                      (ws.map (fun w => w.failed)).sum > 0 then 1 else 0,
                usagePrinted := false,
                linkerErrors := (args.foldl (loadArgument dlopen) initialMainState).linkerErrors,
                modules := ws } := by
        intro fuel hf
        simp [main, hrun fuel hf, hft, hfr]
      refine ⟨_, hmain, ?_⟩
      simp only [hle]
      cases hall : allObjectsLoad dlopen args with
      | false => simp [hmods]
      | true =>
        by_cases hsum : (ws.map (fun w => w.failed)).sum > 0
        · have hnz : (ws.map (fun w => w.failed)).sum ≠ 0 := by omega
          simp [hsum, hmods, hnz]
          intro htest
          rw [htest] at hmods
          simp at hmods
          subst hmods
          simp at hsum
        · have hz : (ws.map (fun w => w.failed)).sum = 0 := by omega
          simp [hmods, hz]

/-- Runs of the example loader, from C14.  The tester `empty.so` has no test and one provider,
which fills no element: every object loads and no test fails, yet `main` does not return 0,
since the block that `realloc(buf, 0)` released is freed again.  Without testers `main`
returns 0, and with the tester of the example module, whose test `neg` fails, it returns
1. -/
theorem main_exit_code_witness :
    (allObjectsLoad exampleDlopen ["subject.so", "--", "empty.so"] = true ∧
      main exampleDlopen 100 ["ccheck", "subject.so", "--", "empty.so"]
        = Run.undefinedBehaviour ∧
      ∃ N, ∀ fuel, N ≤ fuel →
        main exampleDlopen fuel ["ccheck", "subject.so", "--", "empty.so"]
          = Run.undefinedBehaviour) ∧
    (∃ N r, (∀ fuel, N ≤ fuel →
        main exampleDlopen fuel ["ccheck", "subject.so", "--"] = Run.done r) ∧ r.exitCode = 0) ∧
    main exampleDlopen 100 ["ccheck", "subject.so", "--", "tester.so"]
      = Run.done
          { exitCode := 1, usagePrinted := false, linkerErrors := false,
            modules := [{ variants := 4, succeeded := 1, failed := 2, jumpReady := false,
                          log := [Event.call [1000], Event.call [1004], Event.call [1008],
                                  Event.call [1000], Event.failedTest [0] [0],
                                  Event.missingFunction "_SIG_TEST_orphan"] }] } := by
  refine ⟨⟨by decide, by decide, ?_⟩, ?_, by decide⟩
  · obtain ⟨N, hub, _⟩ :=
      main_exit_code exampleDlopen ["ccheck", "subject.so", "--", "empty.so"]
    exact ⟨N, hub (by decide)⟩
  · obtain ⟨N, _, hret⟩ := main_exit_code exampleDlopen ["ccheck", "subject.so", "--"]
    obtain ⟨r, hrun, _, _, _, _, _, hzero⟩ := hret (by decide)
    exact ⟨N, r, hrun, hzero (by decide) (by decide) (by decide)⟩

end CCheck
